import Mathlib

/-!
# go-app-settings: the settings registry and its reconciliation protocol

A shallow embedding of `app_settings.go` and `register.go`.

* The package-level variables (`settings`, `defaultSettings`, `socketPath`), the memory that
  holds the variables bound to the settings, and the SQLite table behind `db.AppSetting`
  are the fields of one `World`; every function of the package takes a `World` and returns
  the `World` it leaves behind.
* A closure over a bound variable is a function of the memory `σ` that holds the variable:
  `GetFunc` reads it, `SetFunc` returns the error (if any) and the memory it leaves.
* An `error` is represented by its `Error()` text, `nil` by `none`.
* `settingsMu` is not modelled: every function is taken as one atomic step.
* Console output other than the table of `printSettings` is not modelled; the rows of that
  table are returned in the `table` field of the result.
-/

namespace AppSettings

/-! ## Data model -/

/-- The row type `models.AppSetting`. Only `Key` and `Value` are columns of the table;
`Description` is never stored. -/
structure AppSetting where
  Key : String
  Value : String
  Description : String
deriving DecidableEq, Repr

/-- The type `Setting` of `app_settings.go`, over the memory `σ` of the bound variables. -/
structure Setting (σ : Type) where
  SetFunc : String → σ → Option String × σ
  GetFunc : σ → String
  Name : String
  Description : String

/-! ## The persistence collaborator -/

/-- An error reported by the store: `gorm.ErrRecordNotFound` or any other error. -/
inductive DbError where
  | ErrRecordNotFound
  | other (text : String)
deriving DecidableEq, Repr

/-- The `Error()` text of a store error. -/
def DbError.Error : DbError → String
  | .ErrRecordNotFound => "record not found"
  | .other text => text

/-- The table `app_settings` (column `key` is the primary key) together with the fault, if
any, that a call of each kind reports. Rows are kept in insertion order. -/
structure Store where
  rows : List (String × String)
  findErr : Option DbError
  saveErr : Option DbError
  deleteErr : Option DbError
deriving DecidableEq, Repr

/-- The call `db.AppSetting.Find()`: `appSettingDo.Find` hands back the result of the query
and its error together, so a failing call returns rows as well. `Description` is not a column,
so it is empty. The rows of the table stand for whatever rows the query hands back: a
statement about every store covers every result a failing query can come with. -/
def Store.Find (db : Store) : List AppSetting × Option DbError :=
  (db.rows.map (fun r => { Key := r.1, Value := r.2, Description := "" }), db.findErr)

/-- The statement behind `Save`: `INSERT ... ON CONFLICT (key) DO UPDATE SET value`. -/
def upsert (key value : String) (rows : List (String × String)) : List (String × String) :=
  if rows.any (fun r => r.1 == key) then
    rows.map (fun r => if r.1 == key then (r.1, value) else r)
  else
    rows ++ [(key, value)]

/-- The call `db.AppSetting.Save(&models.AppSetting{Key: key, Value: value})`. -/
def Store.Save (db : Store) (key value : String) : Option DbError × Store :=
  match db.saveErr with
  | some e => (some e, db)
  | none => (none, { db with rows := upsert key value db.rows })

/-- The call `db.AppSetting.Where(db.AppSetting.Key.Eq(key)).Delete()`. -/
def Store.Delete (db : Store) (key : String) : Option DbError × Store :=
  match db.deleteErr with
  | some e => (some e, db)
  | none => (none, { db with rows := db.rows.filter (fun r => !(r.1 == key)) })

/-! ## Package state -/

/-- The package-level variables, the memory of the bound variables and the store. -/
structure World (σ : Type) where
  settings : List (Setting σ)
  defaultSettings : List AppSetting
  socketPath : String
  vars : σ
  db : Store

/-- What a command returns: its `error`, the rows of the table it printed (if it printed
one) and the state it leaves. -/
structure Result (σ : Type) where
  err : Option String
  table : Option (List AppSetting)
  world : World σ

/-- The fields of `SettingsOptions` that `Setup` reads. -/
structure SettingsOptions where
  RpcSocketPathToListRunningSettings : String
  KongVars : Option (List (String × String))

/-- The arguments of `SettingsSaveCommand`. -/
structure SettingsSaveCommand where
  Setting : String
  Value : String

/-- The arguments of `SettingsRemoveCommand`. -/
structure SettingsRemoveCommand where
  Setting : String

/-! ## The standard library: `strconv` at base 10 -/

/-- The two errors a `strconv.NumError` wraps: `ErrSyntax` and `ErrRange`. -/
inductive NumErrKind where
  | ErrSyntax
  | ErrRange
deriving DecidableEq, Repr

/-- The type `strconv.NumError`. -/
structure NumError where
  Func : String
  Num : String
  Err : NumErrKind
deriving DecidableEq, Repr

/-- The `Error()` text of a `strconv.NumError`; `quote` is `strconv.Quote`, whose table of
printable code points is outside this repository. -/
def NumError.Error (quote : String → String) (e : NumError) : String :=
  "strconv." ++ e.Func ++ ": parsing " ++ quote e.Num ++ ": " ++
    (match e.Err with
     | .ErrSyntax => "invalid syntax"
     | .ErrRange => "value out of range")

/-- The digit loop of `strconv.ParseUint` at base 10, on `uint64` arithmetic. A letter has a
digit value of at least the base and any other byte is no digit: both are syntax errors. The
bytes of a code point outside ASCII are no digits either. -/
def parseUintLoop (maxVal : Nat) : List Char → Nat → Nat × Option NumErrKind
  | [], n => (n, none)
  | c :: cs, n =>
    if 48 ≤ c.toNat ∧ c.toNat ≤ 57 then
      let d := c.toNat - 48
      if n ≥ (2 ^ 64 - 1) / 10 + 1 then (maxVal, some .ErrRange)
      else
        let n := (n * 10) % 2 ^ 64
        let n1 := (n + d) % 2 ^ 64
        if n1 < n ∨ n1 > maxVal then (maxVal, some .ErrRange)
        else parseUintLoop maxVal cs n1
    else (0, some .ErrSyntax)

/-- The call `strconv.ParseUint(s, 10, bitSize)` for `1 ≤ bitSize ≤ 64`. The bound
`maxVal` is `uint64(1)<<bitSize - 1`, which is `2 ^ bitSize - 1` also at 64 bits, where the
shift wraps to zero and the subtraction wraps back. -/
def ParseUint (s : String) (bitSize : Nat) : Nat × Option NumError :=
  if s = "" then (0, some { Func := "ParseUint", Num := s, Err := .ErrSyntax })
  else
    match parseUintLoop (2 ^ bitSize - 1) s.toList 0 with
    | (n, some kind) => (n, some { Func := "ParseUint", Num := s, Err := kind })
    | (n, none) => (n, none)

/-- The conversion of an integer to the signed type of `bits` bits (two's complement). -/
def toSigned (bits : Nat) (i : Int) : Int :=
  (i + 2 ^ (bits - 1)) % 2 ^ bits - 2 ^ (bits - 1)

/-- The call `strconv.ParseInt(s, 10, bitSize)` for `1 ≤ bitSize ≤ 64`: the sign is picked
off, the rest goes to `ParseUint` with the same bit size, and a range error of `ParseUint`
is left to the two cutoff tests. -/
def ParseInt (s : String) (bitSize : Nat) : Int × Option NumError :=
  match s.toList with
  | [] => (0, some { Func := "ParseInt", Num := s, Err := .ErrSyntax })
  | c :: cs =>
    let neg := c = '-'
    let digits := if c = '+' ∨ c = '-' then cs else c :: cs
    match ParseUint (String.mk digits) bitSize with
    | (_, some { Func := _, Num := _, Err := .ErrSyntax }) =>
      (0, some { Func := "ParseInt", Num := s, Err := .ErrSyntax })
    | (un, _) =>
      let cutoff : Nat := 2 ^ (bitSize - 1)
      if ¬ neg ∧ un ≥ cutoff then
        (cutoff - 1, some { Func := "ParseInt", Num := s, Err := .ErrRange })
      else if neg ∧ un > cutoff then
        (-cutoff, some { Func := "ParseInt", Num := s, Err := .ErrRange })
      else
        let n := toSigned 64 un
        (if neg then toSigned 64 (-n) else n, none)

/-- The digit loop of the fast path of `strconv.Atoi`. -/
def atoiLoop : List Char → Int → Option Int
  | [], n => some n
  | ch :: cs, n =>
    if 48 ≤ ch.toNat ∧ ch.toNat ≤ 57 then atoiLoop cs (n * 10 + (ch.toNat - 48 : Nat))
    else none

/-- The function `strconv.Atoi` where `int` has 64 bits: a fast path for strings of fewer than
19 bytes, `ParseInt(s, 10, 0)` for the others, bit size 0 standing for the 64 bits of
`int`. -/
def Atoi (s : String) : Int × Option NumError :=
  if 0 < s.utf8ByteSize ∧ s.utf8ByteSize < 19 then
    match s.toList with
    | [] => (0, some { Func := "Atoi", Num := s, Err := .ErrSyntax })
    | c :: cs =>
      if (c = '-' ∨ c = '+') ∧ cs.length < 1 then
        (0, some { Func := "Atoi", Num := s, Err := .ErrSyntax })
      else
        match atoiLoop (if c = '-' ∨ c = '+' then cs else c :: cs) 0 with
        | none => (0, some { Func := "Atoi", Num := s, Err := .ErrSyntax })
        | some n => (if c = '-' then -n else n, none)
  else
    match ParseInt s 64 with
    | (i64, some nerr) => (toSigned 64 i64, some { nerr with Func := "Atoi" })
    | (i64, none) => (toSigned 64 i64, none)

/-- The call `strconv.FormatUint(u, 10)`. -/
def FormatUint (u : Nat) : String := Nat.repr u

/-- The call `strconv.FormatInt(i, 10)`. -/
def FormatInt (i : Int) : String :=
  if i < 0 then "-" ++ Nat.repr i.natAbs else Nat.repr i.natAbs

/-- The function `strconv.Itoa`. -/
def Itoa (i : Int) : String := FormatInt i

/-! ## register.go: registration -/

/-- A pointer `*T` to a variable held in the memory `σ`. -/
structure Ptr (σ α : Type) where
  load : σ → α
  store : α → σ → σ


/-- The function `RegisterSetting`: append to the global list. -/
def RegisterSetting {σ : Type} (s : Setting σ) (w : World σ) : World σ :=
  { w with settings := w.settings ++ [s] }

/-- The `Setting` literal of `RegisterStringSetting`. -/
def stringSetting {σ : Type} (name description : String) (prop : Ptr σ String) : Setting σ :=
  { Name := name
    Description := description
    GetFunc := fun m => prop.load m
    SetFunc := fun s m => (none, prop.store s m) }

/-- The function `RegisterStringSetting`. -/
def RegisterStringSetting {σ : Type} (name description : String) (prop : Ptr σ String)
    (w : World σ) : World σ :=
  RegisterSetting (stringSetting name description prop) w

/-- The `Setting` literal of `RegisterIntSetting`; `int` has 64 bits. -/
def intSetting {σ : Type} (quote : String → String) (name description : String)
    (prop : Ptr σ Int) : Setting σ :=
  { Name := name
    Description := description
    GetFunc := fun m => Itoa (prop.load m)
    SetFunc := fun s m =>
      match Atoi s with
      | (_, some err) => (some (err.Error quote), m)
      | (i, none) => (none, prop.store i m) }

/-- The function `RegisterIntSetting`. -/
def RegisterIntSetting {σ : Type} (quote : String → String) (name description : String)
    (prop : Ptr σ Int) (w : World σ) : World σ :=
  RegisterSetting (intSetting quote name description prop) w

/-- The `Setting` literal of `RegisterUintSetting`; `uint` has 64 bits. -/
def uintSetting {σ : Type} (quote : String → String) (name description : String)
    (prop : Ptr σ Nat) : Setting σ :=
  { Name := name
    Description := description
    GetFunc := fun m => FormatUint (prop.load m)
    SetFunc := fun s m =>
      match ParseUint s 64 with
      | (_, some err) => (some (err.Error quote), m)
      | (u, none) => (none, prop.store (u % 2 ^ 64) m) }

/-- The function `RegisterUintSetting`. -/
def RegisterUintSetting {σ : Type} (quote : String → String) (name description : String)
    (prop : Ptr σ Nat) (w : World σ) : World σ :=
  RegisterSetting (uintSetting quote name description prop) w

/-- The `Setting` literal of `RegisterInt32Setting`. -/
def int32Setting {σ : Type} (quote : String → String) (name description : String)
    (prop : Ptr σ Int) : Setting σ :=
  { Name := name
    Description := description
    GetFunc := fun m => FormatInt (prop.load m)
    SetFunc := fun s m =>
      match ParseInt s 32 with
      | (_, some err) => (some (err.Error quote), m)
      | (i, none) => (none, prop.store (toSigned 32 i) m) }

/-- The function `RegisterInt32Setting`. -/
def RegisterInt32Setting {σ : Type} (quote : String → String) (name description : String)
    (prop : Ptr σ Int) (w : World σ) : World σ :=
  RegisterSetting (int32Setting quote name description prop) w

/-- The `Setting` literal of `RegisterInt64Setting`. -/
def int64Setting {σ : Type} (quote : String → String) (name description : String)
    (prop : Ptr σ Int) : Setting σ :=
  { Name := name
    Description := description
    GetFunc := fun m => FormatInt (prop.load m)
    SetFunc := fun s m =>
      match ParseInt s 64 with
      | (_, some err) => (some (err.Error quote), m)
      | (i, none) => (none, prop.store i m) }

/-- The function `RegisterInt64Setting`. -/
def RegisterInt64Setting {σ : Type} (quote : String → String) (name description : String)
    (prop : Ptr σ Int) (w : World σ) : World σ :=
  RegisterSetting (int64Setting quote name description prop) w

/-- The `Setting` literal of `RegisterInt8Setting`. -/
def int8Setting {σ : Type} (quote : String → String) (name description : String)
    (prop : Ptr σ Int) : Setting σ :=
  { Name := name
    Description := description
    GetFunc := fun m => FormatInt (prop.load m)
    SetFunc := fun s m =>
      match ParseInt s 8 with
      | (_, some err) => (some (err.Error quote), m)
      | (i, none) => (none, prop.store (toSigned 8 i) m) }

/-- The function `RegisterInt8Setting`. -/
def RegisterInt8Setting {σ : Type} (quote : String → String) (name description : String)
    (prop : Ptr σ Int) (w : World σ) : World σ :=
  RegisterSetting (int8Setting quote name description prop) w

/-- The `Setting` literal of `RegisterInt16Setting`. -/
def int16Setting {σ : Type} (quote : String → String) (name description : String)
    (prop : Ptr σ Int) : Setting σ :=
  { Name := name
    Description := description
    GetFunc := fun m => FormatInt (prop.load m)
    SetFunc := fun s m =>
      match ParseInt s 16 with
      | (_, some err) => (some (err.Error quote), m)
      | (i, none) => (none, prop.store (toSigned 16 i) m) }

/-- The function `RegisterInt16Setting`. -/
def RegisterInt16Setting {σ : Type} (quote : String → String) (name description : String)
    (prop : Ptr σ Int) (w : World σ) : World σ :=
  RegisterSetting (int16Setting quote name description prop) w

/-- The `Setting` literal of `RegisterUint8Setting`. -/
def uint8Setting {σ : Type} (quote : String → String) (name description : String)
    (prop : Ptr σ Nat) : Setting σ :=
  { Name := name
    Description := description
    GetFunc := fun m => FormatUint (prop.load m)
    SetFunc := fun s m =>
      match ParseUint s 8 with
      | (_, some err) => (some (err.Error quote), m)
      | (u, none) => (none, prop.store (u % 2 ^ 8) m) }

/-- The function `RegisterUint8Setting`. -/
def RegisterUint8Setting {σ : Type} (quote : String → String) (name description : String)
    (prop : Ptr σ Nat) (w : World σ) : World σ :=
  RegisterSetting (uint8Setting quote name description prop) w

/-- The `Setting` literal of `RegisterUint16Setting`. -/
def uint16Setting {σ : Type} (quote : String → String) (name description : String)
    (prop : Ptr σ Nat) : Setting σ :=
  { Name := name
    Description := description
    GetFunc := fun m => FormatUint (prop.load m)
    SetFunc := fun s m =>
      match ParseUint s 16 with
      | (_, some err) => (some (err.Error quote), m)
      | (u, none) => (none, prop.store (u % 2 ^ 16) m) }

/-- The function `RegisterUint16Setting`. -/
def RegisterUint16Setting {σ : Type} (quote : String → String) (name description : String)
    (prop : Ptr σ Nat) (w : World σ) : World σ :=
  RegisterSetting (uint16Setting quote name description prop) w

/-- The `Setting` literal of `RegisterUint32Setting`. -/
def uint32Setting {σ : Type} (quote : String → String) (name description : String)
    (prop : Ptr σ Nat) : Setting σ :=
  { Name := name
    Description := description
    GetFunc := fun m => FormatUint (prop.load m)
    SetFunc := fun s m =>
      match ParseUint s 32 with
      | (_, some err) => (some (err.Error quote), m)
      | (u, none) => (none, prop.store (u % 2 ^ 32) m) }

/-- The function `RegisterUint32Setting`. -/
def RegisterUint32Setting {σ : Type} (quote : String → String) (name description : String)
    (prop : Ptr σ Nat) (w : World σ) : World σ :=
  RegisterSetting (uint32Setting quote name description prop) w

/-- The `Setting` literal of `RegisterUint64Setting`. -/
def uint64Setting {σ : Type} (quote : String → String) (name description : String)
    (prop : Ptr σ Nat) : Setting σ :=
  { Name := name
    Description := description
    GetFunc := fun m => FormatUint (prop.load m)
    SetFunc := fun s m =>
      match ParseUint s 64 with
      | (_, some err) => (some (err.Error quote), m)
      | (u, none) => (none, prop.store u m) }

/-- The function `RegisterUint64Setting`. -/
def RegisterUint64Setting {σ : Type} (quote : String → String) (name description : String)
    (prop : Ptr σ Nat) (w : World σ) : World σ :=
  RegisterSetting (uint64Setting quote name description prop) w

/-! ## app_settings.go -/

/-- The function `getSetting`: `slices.ContainsFunc` decides whether the name is known,
`slices.IndexFunc` picks the entry. -/
def getSetting {σ : Type} (settings : List (Setting σ)) (name : String) :
    Except String (Setting σ) :=
  if !settings.any (fun s => s.Name == name) then
    .error ("Setting " ++ name ++ " not found")
  else
    match settings.get? (settings.findIdx (fun s => s.Name == name)) with
    | none => .error ("Setting " ++ name ++ " not found")
    | some setting => .ok setting

/-- The method `SettingsRemoveCommand.Run`. -/
def SettingsRemoveCommand.Run {σ : Type} (c : SettingsRemoveCommand) (w : World σ) :
    Result σ :=
  match getSetting w.settings c.Setting with
  | .error err => { err := some err, table := none, world := w }
  | .ok setting =>
    match w.db.Delete setting.Name with
    | (some err, db) =>
      { err := some ("Error deleting setting " ++ c.Setting ++ ": " ++ err.Error),
        table := none, world := { w with db := db } }
    | (none, db) => { err := none, table := none, world := { w with db := db } }

/-- The method `SettingsSaveCommand.Run`. -/
def SettingsSaveCommand.Run {σ : Type} (c : SettingsSaveCommand) (w : World σ) : Result σ :=
  match getSetting w.settings c.Setting with
  | .error err => { err := some err, table := none, world := w }
  | .ok setting =>
    match setting.SetFunc c.Value w.vars with
    | (some err, vars) => { err := some err, table := none, world := { w with vars := vars } }
    | (none, vars) =>
      match w.db.Save setting.Name c.Value with
      | (some err, db) =>
        { err := some ("Error saving setting " ++ c.Setting ++ ": " ++ err.Error),
          table := none, world := { w with vars := vars, db := db } }
      | (none, db) => { err := none, table := none, world := { w with vars := vars, db := db } }

/-- The method `SettingsListRunningCommand.GetRunningSettings`: the list written to `*data`
and the returned error. -/
def GetRunningSettings {σ : Type} (w : World σ) : Option String × List AppSetting × World σ :=
  let runningSettings := w.settings.foldl
    (fun acc s => acc ++ [{ Key := s.Name, Value := s.GetFunc w.vars,
                            Description := s.Description }]) []
  (none, runningSettings, w)

/-- Three-way lexicographic comparison of two character sequences. -/
def compareChars : List Char → List Char → Int
  | [], [] => 0
  | [], _ :: _ => -1
  | _ :: _, [] => 1
  | a :: as, b :: bs =>
    if a.toNat < b.toNat then -1
    else if b.toNat < a.toNat then 1
    else compareChars as bs

/-- The function `strings.Compare`: it compares byte by byte, and the order of two UTF-8
encodings is the order of the code point sequences they encode. -/
def stringsCompare (a b : String) : Int := compareChars a.toList b.toList

/-- The order in which `printSettings` sorts: `a` may stay before `b` when the comparison
function of the sort does not put `b` strictly first. -/
def keyLE (a b : AppSetting) : Prop := stringsCompare a.Key b.Key ≤ 0

instance : DecidableRel keyLE :=
  fun a b => inferInstanceAs (Decidable (stringsCompare a.Key b.Key ≤ 0))

/-- The function `printSettings`: sorts the slice it is given in place by key and prints one
table row per element. The result is the slice after the sort, which is also the rows
printed. `slices.SortFunc` runs an insertion sort on a slice of at most twelve elements; what
it does to a longer slice (a pattern-defeating quicksort, which may change the order of
entries of equal key) is the parameter `pdqsort`. -/
def printSettings (pdqsort : List AppSetting → List AppSetting) (settings : List AppSetting) :
    List AppSetting :=
  if settings.length ≤ 12 then settings.insertionSort keyLE else pdqsort settings

/-- What the library documents of its sort of a long slice: the result is sorted by the
comparison function and is a rearrangement of the slice. -/
def SortsByKey (pdqsort : List AppSetting → List AppSetting) : Prop :=
  ∀ l, (pdqsort l).Sorted keyLE ∧ (pdqsort l).Perm l

/-- A sort of slices of any length that keeps entries of equal key in their order: one of
the functions a sort of long slices may be. -/
def stableSort (settings : List AppSetting) : List AppSetting :=
  settings.insertionSort keyLE

/-- The method `SettingsListDefaultsCommand.Run`. -/
def SettingsListDefaultsCommand.Run {σ : Type} (pdqsort : List AppSetting → List AppSetting)
    (w : World σ) : Result σ :=
  let printed := printSettings pdqsort w.defaultSettings
  { err := none, table := some printed, world := { w with defaultSettings := printed } }

/-- The method `SettingsListSavedCommand.Run`: the description of a row whose key is
registered is written through the row pointer, so the printed slice `s` carries it. -/
def SettingsListSavedCommand.Run {σ : Type} (pdqsort : List AppSetting → List AppSetting)
    (w : World σ) : Result σ :=
  match w.db.Find with
  | (_, some (.other text)) =>
    { err := some ("Error getting saved settings: " ++ text), table := none, world := w }
  | (s, _) =>
    let s := s.map (fun as =>
      match getSetting w.settings as.Key with
      | .error _ => as
      | .ok setting => { as with Description := setting.Description })
    { err := none, table := some (printSettings pdqsort s), world := w }

/-- The method `SettingsListActiveCommand.Run`: `activeSettings` is the slice
`defaultSettings` itself and its elements are pointers, so the writes of the inner loop and
the sort of `printSettings` land in `defaultSettings`. -/
def SettingsListActiveCommand.Run {σ : Type} (pdqsort : List AppSetting → List AppSetting)
    (w : World σ) : Result σ :=
  match w.db.Find with
  | (_, some (.other text)) =>
    { err := some ("Error getting saved settings: " ++ text), table := none, world := w }
  | (s, _) =>
    let activeSettings := s.foldl
      (fun active ss =>
        match getSetting w.settings ss.Key with
        | .error _ => active
        | .ok setting =>
          active.map (fun as =>
            if as.Key == ss.Key then
              { as with Value := ss.Value, Description := setting.Description }
            else as))
      w.defaultSettings
    let printed := printSettings pdqsort activeSettings
    { err := none, table := some printed, world := { w with defaultSettings := printed } }

/-- The function `SettingsVars`: a `kong.Vars` map as the list of its bindings, a later
assignment to a key replacing the earlier one. -/
def SettingsVars {σ : Type} (w : World σ) : List (String × String) × World σ :=
  let vars := w.settings.foldl
    (fun vars s => upsert s.Name (s.GetFunc w.vars) vars) []
  (vars, w)

/-- One iteration of the override loop of `RetrieveAppSettings`. -/
def applyOverride {σ : Type} (settings : List (Setting σ)) (acc : σ × List String)
    (as : AppSetting) : σ × List String :=
  match getSetting settings as.Key with
  | .error _ => acc
  | .ok s =>
    match s.SetFunc as.Value acc.1 with
    | (some err, vars) => (vars, acc.2 ++ ["Error setting setting " ++ as.Key ++ ": " ++ err])
    | (none, vars) => (vars, acc.2)

/-- The function `RetrieveAppSettings`. -/
def RetrieveAppSettings {σ : Type} (w : World σ) : Option String × World σ :=
  let defaultSettings := w.settings.foldl
    (fun acc s => acc ++ [{ Key := s.Name, Value := s.GetFunc w.vars,
                            Description := s.Description }]) []
  let w := { w with defaultSettings := defaultSettings }
  match w.db.Find with
  | (_, some (.other text)) => (some ("Error getting app settings: " ++ text), w)
  | (appSettings, _) =>
    let (vars, errs) := appSettings.foldl (applyOverride w.settings) (w.vars, [])
    let w := { w with vars := vars }
    if errs.length > 0 then
      let errorText := errs.foldl (fun errorText err => errorText ++ err ++ "\n") ""
      (some ("errors setting settings: " ++ errorText), w)
    else
      (none, w)

/-- The function `Setup`, given the outcome of `db.DBInit` on the settings file: an error, or
the store it opened. The merge into `*options.KongVars` writes only the map of the caller,
and `rpc.Register` only the RPC server; neither is part of the state. -/
def Setup {σ : Type} (dbInit : Except String Store) (options : SettingsOptions)
    (w : World σ) : Option String × World σ :=
  match dbInit with
  | .error err => (some err, w)
  | .ok db =>
    let w := { w with db := db }
    let w := if options.RpcSocketPathToListRunningSettings != "" then
      { w with socketPath := options.RpcSocketPathToListRunningSettings } else w
    RetrieveAppSettings w

/-! ## A sample host process

Three bound variables, registered through the typed functions of `register.go`, on which
the statements below are evaluated. -/

/-- The memory of the sample process. -/
structure SampleVars where
  foo : String
  port : Int
  level : Int
deriving DecidableEq, Repr

/-- The address of `foo`. -/
def fooPtr : Ptr SampleVars String :=
  { load := fun m => m.foo, store := fun a m => { m with foo := a } }

/-- The address of `port`. -/
def portPtr : Ptr SampleVars Int :=
  { load := fun m => m.port, store := fun a m => { m with port := a } }

/-- The address of `level`. -/
def levelPtr : Ptr SampleVars Int :=
  { load := fun m => m.level, store := fun a m => { m with level := a } }

/-- What `strconv.Quote` returns for a string of letters and digits: the string between
double quotes. -/
def sampleQuote (s : String) : String :=
  String.singleton (Char.ofNat 34) ++ s ++ String.singleton (Char.ofNat 34)

/-- A store without rows and without faults. -/
def emptyStore : Store := { rows := [], findErr := none, saveErr := none, deleteErr := none }

/-- The sample process after its three registrations and before `Setup`: `foo` is a string
with compiled default `x`, `port` an `int` with default 8080, `level` an `int8` with
default 1. -/
def sampleWorld : World SampleVars :=
  RegisterInt8Setting sampleQuote "level" "Log level" levelPtr
    (RegisterIntSetting sampleQuote "port" "Listen port" portPtr
      (RegisterStringSetting "foo" "Foo setting" fooPtr
        { settings := [], defaultSettings := [], socketPath := "",
          vars := { foo := "x", port := 8080, level := 1 }, db := emptyStore }))

/-- The sample process after `Setup` on an empty store. -/
def sampleReady : World SampleVars := (Setup (.ok emptyStore) ⟨"", none⟩ sampleWorld).2

/-- The sample process after `Setup` and `save foo y`. -/
def sampleSaved : World SampleVars := (SettingsSaveCommand.Run ⟨"foo", "y"⟩ sampleReady).world

/-! ## The specification side: reconciliation and decimal integers in its words -/

/-- The fate of one persisted override in a reconciliation pass. -/
inductive Fate where
  | ignored
  | applied
  | rejected (err : String)
deriving DecidableEq, Repr

/-- Reconciliation as the specification words it (phase 3): each override, in store order,
whose key names a registered setting is handed to the set function of the first setting of
that name, on the memory left by the overrides before it; it is applied when the set
function accepts it and rejected with the reported error otherwise, and the pass goes on
with the next override in both cases; an override whose key names no registered setting is
ignored. The result is the fate of every override and the memory left at the end. -/
def fates {σ : Type} (settings : List (Setting σ)) : List AppSetting → σ → List Fate × σ
  | [], m => ([], m)
  | row :: rest, m =>
    match settings.find? (fun s => s.Name == row.Key) with
    | none => (.ignored :: (fates settings rest m).1, (fates settings rest m).2)
    | some s =>
      match s.SetFunc row.Value m with
      | (none, m1) => (.applied :: (fates settings rest m1).1, (fates settings rest m1).2)
      | (some e, m1) => (.rejected e :: (fates settings rest m1).1, (fates settings rest m1).2)

/-- The entries of the combined error as the specification words them: one
`Error setting setting <key>: <error>` for each rejected override, in store order. -/
def rejectionEntries (rows : List AppSetting) (fs : List Fate) : List String :=
  (rows.zip fs).filterMap (fun p =>
    match p.2 with
    | .rejected e => some ("Error setting setting " ++ p.1.Key ++ ": " ++ e)
    | _ => none)

/-- The sample process with three persisted overrides, the one of `level` out of the range
of `int8`. -/
def sampleThreeOverrides : World SampleVars :=
  { sampleWorld with
    db := { emptyStore with rows := [("foo", "hello"), ("level", "999"), ("port", "9090")] } }

/-- The sample process after `Setup`, `save foo y` and `remove foo`. -/
def sampleRemoved : World SampleVars := (SettingsRemoveCommand.Run ⟨"foo"⟩ sampleSaved).world

/-- The number a sequence of decimal digits denotes, continuing from `n`. -/
def decimalValueFrom (n : Nat) (digits : List Char) : Nat :=
  digits.foldl (fun n c => 10 * n + (c.toNat - 48)) n

/-- The number a sequence of decimal digits denotes. -/
def decimalValue (digits : List Char) : Nat := decimalValueFrom 0 digits

/-- In the words of the claim: `s` is a base-10 integer within the range from `lo` to `hi`,
that is, an optional sign followed by one or more decimal digits, denoting a number of that
range. -/
def IsBase10Within (lo hi : Int) (s : String) : Prop :=
  ∃ (sign digits : List Char),
    s.toList = sign ++ digits ∧
    (sign = [] ∨ sign = ['+'] ∨ sign = ['-']) ∧
    digits ≠ [] ∧
    (∀ c ∈ digits, 48 ≤ c.toNat ∧ c.toNat ≤ 57) ∧
    lo ≤ (if sign = ['-'] then -(decimalValue digits : Int) else (decimalValue digits : Int)) ∧
    (if sign = ['-'] then -(decimalValue digits : Int) else (decimalValue digits : Int)) ≤ hi

/-- The address of an unsigned variable of the sample process, kept in the field `port`. -/
def portNatPtr : Ptr SampleVars Nat :=
  { load := fun m => m.port.toNat, store := fun a m => { m with port := (a : Int) } }

/-- Whether a key names a registered setting. -/
def isRegistered {σ : Type} (settings : List (Setting σ)) (key : String) : Bool :=
  settings.any (fun s => s.Name == key)

/-- The sample process with a store that holds only rows of keys no setting is registered
under. -/
def sampleStaleOnly : World SampleVars :=
  { sampleWorld with
    db := { emptyStore with rows := [("old_key", "1"), ("removed", "zzz")] } }

/-- The sample process whose store fails every fetch with an error other than
record-not-found, the failing fetch handing back the three rows. -/
def sampleFetchFails : World SampleVars :=
  { sampleThreeOverrides with
    db := { sampleThreeOverrides.db with findErr := some (.other "disk I/O error") } }

/-- The description `SettingsListActiveCommand.Run` writes for a key: that of the setting
`getSetting` resolves the key to. -/
def lookupDescription {σ : Type} (settings : List (Setting σ)) (key fallback : String) :
    String :=
  match getSetting settings key with
  | .ok setting => setting.Description
  | .error _ => fallback

/-- The Active view in the words of the specification, for one entry of the Defaults view:
the saved value superimposed when the store holds a row of a registered key equal to the
key of the entry (the last such row), the entry itself otherwise. -/
def superimpose {σ : Type} (settings : List (Setting σ)) (saved : List AppSetting)
    (d : AppSetting) : AppSetting :=
  match saved.reverse.find? (fun r => d.Key == r.Key && isRegistered settings r.Key) with
  | some r =>
    { d with Value := r.Value, Description := lookupDescription settings r.Key d.Description }
  | none => d

/-- The sample process with a saved value for `port`, one for `foo` and a row of a key that
is not registered. -/
def sampleSavedRows : World SampleVars :=
  { sampleWorld with
    db := { emptyStore with rows := [("port", "9090"), ("zzz_stale", "1"), ("foo", "y")] } }

/-- The sample process with a second setting registered under the name `port`, bound to the
variable `level`. -/
def sampleDuplicate : World SampleVars :=
  RegisterInt8Setting sampleQuote "port" "Second port" levelPtr sampleReady

/-! ## The standard library: `strings.Split` and `strings.Join` at the comma -/

/-- The pieces `strings.Split(s, ",")` cuts a string into, on its characters: the text before
the first comma, the texts between consecutive commas, and the text after the last one. The
byte of the comma occurs in no encoding of another code point, so cutting the characters is
cutting the bytes. -/
def splitComma : List Char → List (List Char)
  | [] => [[]]
  | c :: cs =>
    if c = ',' then [] :: splitComma cs
    else
      match splitComma cs with
      | [] => [[c]]
      | piece :: pieces => (c :: piece) :: pieces

/-- The call `strings.Split(s, ",")`. -/
def Split (s : String) : List String := (splitComma s.toList).map String.mk

/-- The call `strings.Join(elems, ",")`. -/
def Join : List String → String
  | [] => ""
  | [a] => a
  | a :: b :: rest => a ++ "," ++ Join (b :: rest)

/-- The `Setting` literal of `RegisterStringSliceSetting`; the `nil` slice is the empty
list. -/
def stringSliceSetting {σ : Type} (name description : String) (prop : Ptr σ (List String)) :
    Setting σ :=
  { Name := name
    Description := description
    GetFunc := fun m => Join (prop.load m)
    SetFunc := fun s m =>
      if s = "" then (none, prop.store [] m)
      else (none, prop.store (Split s) m) }

/-- The function `RegisterStringSliceSetting`. -/
def RegisterStringSliceSetting {σ : Type} (name description : String)
    (prop : Ptr σ (List String)) (w : World σ) : World σ :=
  RegisterSetting (stringSliceSetting name description prop) w


/-- The address of a variable that is the whole memory. -/
def selfPtr (α : Type) : Ptr α α := { load := fun m => m, store := fun a _ => a }

/-- Round-trip stability of a setting bound to a variable read by `load`, in the words of
the specification, `parse` being the parser of its codec: whenever `set` accepts a string,
the bound variable holds the value parsed from that string, `set` accepts the string that
`get` then returns, and it leaves the bound variable with the same value. -/
def RoundTrips {σ α : Type} (S : Setting σ) (load : σ → α)
    (parse : String → α × Option NumError) : Prop :=
  ∀ s m, (S.SetFunc s m).1 = none →
    parse s = (load (S.SetFunc s m).2, none) ∧
    (S.SetFunc (S.GetFunc (S.SetFunc s m).2) (S.SetFunc s m).2).1 = none ∧
    load (S.SetFunc (S.GetFunc (S.SetFunc s m).2) (S.SetFunc s m).2).2
      = load (S.SetFunc s m).2

/-! ## Concurrent callers of `RegisterSetting`

`RegisterSetting` is four steps for the caller that runs it: `settingsMu.Lock()`, the read of
`settings` by `append`, the assignment of the result to `settings`, and the deferred
`settingsMu.Unlock()`. Callers run in parallel; an execution is a schedule, the sequence of
the callers that take the next step. A caller scheduled while it waits for the lock, or
after it returned, leaves the state as it is. -/

/-- Where a caller of `RegisterSetting` stands. -/
inductive RegPC (σ : Type) where
  | start
  | locked
  | appended (result : List (Setting σ))
  | assigned
  | done

/-- The registry, the caller that holds `settingsMu` (if any), and every caller with its
argument and where it stands. -/
structure RegState (σ : Type) where
  settings : List (Setting σ)
  holder : Option Nat
  callers : List (Setting σ × RegPC σ)

/-- One step of caller `i`. -/
def regStep {σ : Type} (i : Nat) (st : RegState σ) : RegState σ :=
  match st.callers[i]? with
  | none => st
  | some (s, .start) =>
    if st.holder = none then
      { st with holder := some i, callers := st.callers.set i (s, .locked) }
    else st
  | some (s, .locked) =>
    { st with callers := st.callers.set i (s, .appended (st.settings ++ [s])) }
  | some (s, .appended result) =>
    { st with settings := result, callers := st.callers.set i (s, .assigned) }
  | some (s, .assigned) =>
    { st with holder := none, callers := st.callers.set i (s, .done) }
  | some (_, .done) => st

/-- The execution of a schedule. -/
def regRun {σ : Type} (schedule : List Nat) (st : RegState σ) : RegState σ :=
  schedule.foldl (fun st i => regStep i st) st

/-- The state in which the callers, one per argument, are about to call `RegisterSetting`
on the registry `settings`. -/
def regInit {σ : Type} (settings : List (Setting σ)) (args : List (Setting σ)) : RegState σ :=
  { settings := settings, holder := none, callers := args.map (fun s => (s, .start)) }

/-- Whether a caller has returned. -/
def RegPC.isDone {σ : Type} : RegPC σ → Bool
  | .done => true
  | _ => false

/-- Whether a caller is between `Lock` and `Unlock`. -/
def RegPC.inCritical {σ : Type} : RegPC σ → Bool
  | .locked => true
  | .appended _ => true
  | .assigned => true
  | _ => false

/-- The argument of a caller whose assignment to `settings` has happened. -/
def committed {σ : Type} (c : Setting σ × RegPC σ) : Option (Setting σ) :=
  match c.2 with
  | .assigned => some c.1
  | .done => some c.1
  | _ => none

/-- What holds of every state the callers can reach from `regInit init args`: every caller
keeps its argument; a caller between `Lock` and `Unlock` is the holder of the lock; the
result a caller computed is the append of its argument to the registry as it is now; and
the registry is a rearrangement of the initial one and the arguments of the callers whose
assignment has happened. -/
structure RegInv {σ : Type} (init args : List (Setting σ)) (st : RegState σ) : Prop where
  args_kept : st.callers.map Prod.fst = args
  exclusive : ∀ (i : Nat) c, st.callers[i]? = some c → c.2.inCritical = true → st.holder = some i
  fresh_read : ∀ (i : Nat) s r, st.callers[i]? = some (s, RegPC.appended r) → r = st.settings ++ [s]
  registry : st.settings.Perm (init ++ st.callers.filterMap committed)

/-! ## The standard library: `time.Parse` and `Time.Format` at the layout `time.RFC3339`

A `time.Time` is represented by what it reads on the clock of its own zone, together with
the offset of that zone: `Format` prints exactly this reading, and `Parse` builds the time
whose reading in the parsed zone is the parsed one. Years before year 0 are outside the
model. `time.Parse` is modelled as of Go 1.20: the RFC 3339 path `parseRFC3339` first, and
the general parser `parse` for what that path rejects. -/

/-- A `time.Time`: its date and clock reading in its own zone, its nanoseconds, and the
offset of its zone in seconds east of UTC. -/
structure Time where
  year : Nat
  month : Nat
  day : Nat
  hour : Nat
  min : Nat
  sec : Nat
  nsec : Nat
  offset : Int
deriving DecidableEq, Repr

/-- The function `isLeap` of package `time`. -/
def isLeap (year : Nat) : Bool := year % 4 == 0 && (year % 100 != 0 || year % 400 == 0)

/-- The function `daysIn` of package `time`. -/
def daysIn (month year : Nat) : Nat :=
  if month = 2 ∧ isLeap year = true then 29
  else
    match month with
    | 1 => 31 | 2 => 28 | 3 => 31 | 4 => 30 | 5 => 31 | 6 => 30
    | 7 => 31 | 8 => 31 | 9 => 30 | 10 => 31 | 11 => 30 | 12 => 31
    | _ => 0

/-- Whether a character is a decimal digit. -/
def isDigitChar (c : Char) : Bool := decide (48 ≤ c.toNat) && decide (c.toNat ≤ 57)

/-- The closure `parseUint` of `parseRFC3339`: a run of decimal digits whose value lies
between `lo` and `hi`. -/
def parseField (cs : List Char) (lo hi : Nat) : Option Nat :=
  if cs.all isDigitChar then
    if decimalValue cs < lo ∨ hi < decimalValue cs then none else some (decimalValue cs)
  else none

/-- The date and the clock reading at the head of an RFC 3339 timestamp: the first 19
characters, `2006-01-02T15:04:05`. -/
def parseDateTime (s : List Char) : Option Time := do
  let year ← parseField (s.take 4) 0 9999
  let month ← parseField ((s.drop 5).take 2) 1 12
  let day ← parseField ((s.drop 8).take 2) 1 (daysIn month year)
  let hour ← parseField ((s.drop 11).take 2) 0 23
  let min ← parseField ((s.drop 14).take 2) 0 59
  let sec ← parseField ((s.drop 17).take 2) 0 59
  if s.get? 4 = some '-' ∧ s.get? 7 = some '-' ∧ s.get? 10 = some 'T' ∧
      s.get? 13 = some ':' ∧ s.get? 16 = some ':' then
    some { year := year, month := month, day := day, hour := hour, min := min, sec := sec,
           nsec := 0, offset := 0 }
  else none

/-- The digits of a fractional-seconds field, when the text after the seconds starts with a
period and a digit. -/
def fractionDigits (rest : List Char) : List Char :=
  match rest with
  | '.' :: c :: cs => if isDigitChar c then c :: cs.takeWhile isDigitChar else []
  | _ => []

/-- The function `parseNanoseconds` on the digits of the field: the first nine digits,
scaled to nanoseconds. -/
def parseNanoseconds (digits : List Char) : Nat :=
  decimalValue (digits.take 9) * 10 ^ (9 - (digits.take 9).length)

/-- The zone at the end of an RFC 3339 timestamp: `Z`, or a sign, two digits of hours up to
23, a colon and two digits of minutes up to 59. The result is the offset in seconds. -/
def parseZone (s : List Char) : Option Int :=
  if s = ['Z'] then some 0
  else if s.length ≠ 6 then none
  else do
    let hr ← parseField ((s.drop 1).take 2) 0 23
    let mm ← parseField ((s.drop 4).take 2) 0 59
    if (s.get? 0 = some '-' ∨ s.get? 0 = some '+') ∧ s.get? 3 = some ':' then
      some (if s.get? 0 = some '-' then -(((hr * 60 + mm) * 60 : Nat) : Int)
            else (((hr * 60 + mm) * 60 : Nat) : Int))
    else none

/-- The function `parseRFC3339` of package `time`, the path `time.Parse` takes first for the
layout `time.RFC3339`. The checks are on bytes; a string it accepts has only ASCII bytes, so
they are the same checks on characters. -/
def parseRFC3339 (s : List Char) : Option Time :=
  if s.length < 19 then none
  else do
    let t ← parseDateTime s
    let digits := fractionDigits (s.drop 19)
    let rest := if digits = [] then s.drop 19 else (s.drop 19).drop (1 + digits.length)
    let offset ← parseZone rest
    some { t with nsec := if digits = [] then 0 else parseNanoseconds digits, offset := offset }

/-- The function `getnum` of package `time`: one or two decimal digits at the head of the
text, two of them when `fixed`; the result is the number and the text after it. -/
def getnum (value : List Char) (fixed : Bool) : Option (Nat × List Char) :=
  match value with
  | [] => none
  | [a] =>
    if isDigitChar a then (if fixed then none else some (a.toNat - 48, []))
    else none
  | a :: b :: rest =>
    if isDigitChar a then
      if isDigitChar b then some ((a.toNat - 48) * 10 + (b.toNat - 48), rest)
      else if fixed then none
      else some (a.toNat - 48, b :: rest)
    else none

/-- The function `skip` of package `time` for a prefix of one character other than a space:
the text after that character. -/
def skipChar (c : Char) (value : List Char) : Option (List Char) :=
  match value with
  | [] => none
  | d :: rest => if d = c then some rest else none

/-- The digits of a fractional-seconds field the general parser reads after the seconds,
when the text starts with a period or a comma and a digit. -/
def layoutFractionDigits (value : List Char) : List Char :=
  match value with
  | p :: c :: cs =>
    if (p = '.' ∨ p = ',') ∧ isDigitChar c = true then c :: cs.takeWhile isDigitChar else []
  | _ => []

/-- The zone as the general parser reads it for the layout element `Z07:00`: `Z`, or a sign,
two digits of hours up to 24, a colon and two digits of minutes up to 60. The result is the
offset in seconds and the text after the zone. -/
def parseLayoutZone (value : List Char) : Option (Int × List Char) :=
  match value with
  | 'Z' :: rest => some (0, rest)
  | _ =>
    if value.length < 6 then none
    else if value.get? 3 ≠ some ':' then none
    else
      match getnum ((value.drop 1).take 2) true, getnum ((value.drop 4).take 2) true with
      | some (hr, _), some (mm, _) =>
        if 24 < hr ∨ 60 < mm then none
        else if value.get? 0 = some '+' then
          some ((((hr * 60 + mm) * 60 : Nat) : Int), value.drop 6)
        else if value.get? 0 = some '-' then
          some (-(((hr * 60 + mm) * 60 : Nat) : Int), value.drop 6)
        else none
      | _, _ => none

/-- The text after the fractional-seconds field, if there is one. -/
def dropFraction (value : List Char) : List Char :=
  if layoutFractionDigits value = [] then value
  else value.drop (1 + (layoutFractionDigits value).length)

/-- The nanoseconds of the fractional-seconds field, if there is one. -/
def fractionNanoseconds (value : List Char) : Nat :=
  if layoutFractionDigits value = [] then 0
  else parseNanoseconds (layoutFractionDigits value)

/-- The function `parse` of package `time` at the layout `2006-01-02T15:04:05Z07:00`, the
general parser `time.Parse` falls back to: four digits of year, `-`, two digits of month,
`-`, two digits of day, `T`, one or two digits of hour, `:`, two digits of minute, `:`, two
digits of second, an optional fractional-seconds field, the zone, and nothing after it; the
day is checked against the month at the end. -/
def parseLayout (s : List Char) : Option Time :=
  if s.length < 4 then none
  else
    match parseField (s.take 4) 0 9999 with
    | none => none
    | some year =>
      match (skipChar '-' (s.drop 4)).bind (fun v => getnum v true) with
      | none => none
      | some (month, v) =>
        if month = 0 ∨ 12 < month then none
        else
          match (skipChar '-' v).bind (fun v => getnum v true) with
          | none => none
          | some (day, v) =>
            match (skipChar 'T' v).bind (fun v => getnum v false) with
            | none => none
            | some (hour, v) =>
              if 24 ≤ hour then none
              else
                match (skipChar ':' v).bind (fun v => getnum v true) with
                | none => none
                | some (min, v) =>
                  if 60 ≤ min then none
                  else
                    match (skipChar ':' v).bind (fun v => getnum v true) with
                    | none => none
                    | some (sec, v) =>
                      if 60 ≤ sec then none
                      else
                        match parseLayoutZone (dropFraction v) with
                        | none => none
                        | some (offset, rest) =>
                          if rest ≠ [] then none
                          else if day < 1 ∨ daysIn month year < day then none
                          else
                            some { year := year, month := month, day := day, hour := hour,
                                   min := min, sec := sec, nsec := fractionNanoseconds v,
                                   offset := offset }

/-- The call `time.Parse(time.RFC3339, s)`: the RFC 3339 path first, and for a string it
rejects the general parser. -/
def timeParse (s : String) : Option Time :=
  match parseRFC3339 s.toList with
  | some t => some t
  | none => parseLayout s.toList

/-- The function `appendInt` of package `time` for a number that is not negative: two and
four digits for the common widths, and otherwise the decimal digits padded with zeros to
the width. -/
def appendInt (x width : Nat) : List Char :=
  if width = 2 ∧ x < 100 then [Nat.digitChar (x / 10), Nat.digitChar (x % 10)]
  else if width = 4 ∧ x < 10000 then
    [Nat.digitChar (x / 100 / 10), Nat.digitChar (x / 100 % 10),
     Nat.digitChar (x % 100 / 10), Nat.digitChar (x % 100 % 10)]
  else List.replicate (width - (Nat.repr x).length) '0' ++ (Nat.repr x).data

/-- The method `Time.appendFormatRFC3339` without nanoseconds, which `Format(time.RFC3339)`
runs: date, `T`, clock reading, and `Z` for the offset zero or else the sign, hours and
minutes of the offset. The division of the offset by 60 truncates toward zero. -/
def formatRFC3339 (t : Time) : String :=
  String.mk
    (appendInt t.year 4 ++ ['-'] ++ appendInt t.month 2 ++ ['-'] ++ appendInt t.day 2 ++ ['T']
      ++ appendInt t.hour 2 ++ [':'] ++ appendInt t.min 2 ++ [':'] ++ appendInt t.sec 2
      ++ (if t.offset = 0 then ['Z']
          else
            (if Int.tdiv t.offset 60 < 0 then ['-'] else ['+'])
              ++ appendInt ((Int.tdiv t.offset 60).natAbs / 60) 2 ++ [':']
              ++ appendInt ((Int.tdiv t.offset 60).natAbs % 60) 2))

/-- The `Setting` literal of `RegisterTimeSetting`; `parseErrorText` gives the text of the
error `time.Parse` returns for a string it rejects. -/
def timeSetting {σ : Type} (parseErrorText : String → String) (name description : String)
    (prop : Ptr σ Time) : Setting σ :=
  { Name := name
    Description := description
    GetFunc := fun m => formatRFC3339 (prop.load m)
    SetFunc := fun s m =>
      match timeParse s with
      | none => (some (parseErrorText s), m)
      | some t => (none, prop.store t m) }

/-- The function `RegisterTimeSetting`. -/
def RegisterTimeSetting {σ : Type} (parseErrorText : String → String)
    (name description : String) (prop : Ptr σ Time) (w : World σ) : World σ :=
  RegisterSetting (timeSetting parseErrorText name description prop) w

/-- A sample text for the error of `time.Parse`. -/
def sampleTimeErrorText (s : String) : String := "parsing time " ++ sampleQuote s

/-- The sample timestamp setting, on a memory that is the bound `time.Time` variable. -/
def sampleTimeSetting : Setting Time :=
  timeSetting sampleTimeErrorText "started" "Start time" (selfPtr Time)

/-- The Unix epoch in UTC, the sample value of the bound variable before any `set`. -/
def sampleEpoch : Time :=
  { year := 1970, month := 1, day := 1, hour := 0, min := 0, sec := 0, nsec := 0, offset := 0 }

/-- The sample process after `Setup` and `save port 9090`: the store holds a row of `port`. -/
def samplePortSaved : World SampleVars :=
  (SettingsSaveCommand.Run ⟨"port", "9090"⟩ sampleReady).world

/-- The `set` of a setting accepts exactly the strings its parser accepts. -/
def AcceptsWhatParses {σ α : Type} (S : Setting σ) (parse : String → α × Option NumError) :
    Prop :=
  ∀ s m, (S.SetFunc s m).1 = none ↔ (parse s).2 = none

/-- The second half of round-trip stability, for a setting bound to a variable read by
`load`: for every value `v` of the type and every memory, `set` accepts the formatting of
`v`, leaves the bound variable equal to `v`, and `get` then returns the formatting of `v`. -/
def StoresEveryValue {σ α : Type} (S : Setting σ) (load : σ → α) (format : α → String)
    (inRange : α → Prop) : Prop :=
  ∀ v, inRange v → ∀ m,
    (S.SetFunc (format v) m).1 = none ∧
    load (S.SetFunc (format v) m).2 = v ∧
    S.GetFunc (S.SetFunc (format v) m).2 = format v

/-- The schedule in which the callers `0`, ..., `n - 1` run `RegisterSetting` one after the
other, each taking its four steps. -/
def sequential : Nat → List Nat
  | 0 => []
  | n + 1 => sequential n ++ [n, n, n, n]

/-- A schedule that lets every caller return from a state the callers have reached: the
caller that holds the lock (if any) takes the steps it has left, at most three, and the
callers then run one after the other. -/
def completion {σ : Type} (st : RegState σ) : List Nat :=
  (match st.holder with
    | some i => [i, i, i]
    | none => []) ++ sequential st.callers.length

/-! ## Lemmas on lookup and on the loops that build a list -/

theorem get?_findIdx {σ : Type} (p : Setting σ → Bool) (l : List (Setting σ)) :
    l.get? (l.findIdx p) = l.find? p := by
  induction l with
  | nil => rfl
  | cons a t ih =>
    by_cases h : p a
    · simp [List.findIdx_cons, List.find?_cons, h]
    · simp [List.findIdx_cons, List.find?_cons, h]
      simpa using ih

theorem getSetting_eq_find {σ : Type} (settings : List (Setting σ)) (name : String) :
    getSetting settings name =
      match settings.find? (fun s => s.Name == name) with
      | some s => .ok s
      | none => .error ("Setting " ++ name ++ " not found") := by
  unfold getSetting
  rw [get?_findIdx]
  cases h : settings.find? (fun s => s.Name == name) with
  | none => simp
  | some s =>
    have : settings.any (fun s => s.Name == name) = true := by
      rw [List.any_eq_true]
      exact ⟨s, List.mem_of_find?_eq_some h,
        List.find?_some (p := fun (s : Setting σ) => s.Name == name) h⟩
    simp [this]

theorem getSetting_ok_name {σ : Type} {settings : List (Setting σ)} {name : String}
    {s : Setting σ} (h : getSetting settings name = .ok s) : s.Name = name := by
  rw [getSetting_eq_find] at h
  cases hf : settings.find? (fun s => s.Name == name) with
  | none => simp [hf] at h
  | some t =>
    simp only [hf, Except.ok.injEq] at h
    subst h
    simpa using List.find?_some (p := fun (s : Setting σ) => s.Name == name) hf

theorem getSetting_error_of_forall_ne {σ : Type} {settings : List (Setting σ)} {name : String}
    (h : ∀ t ∈ settings, t.Name ≠ name) :
    getSetting settings name = .error ("Setting " ++ name ++ " not found") := by
  rw [getSetting_eq_find]
  have : settings.find? (fun s => s.Name == name) = none := by
    rw [List.find?_eq_none]; intro t ht; simpa using h t ht
  simp [this]

theorem foldl_snoc_eq_map {α β : Type} (f : α → β) (l : List α) (init : List β) :
    l.foldl (fun acc a => acc ++ [f a]) init = init ++ l.map f := by
  induction l generalizing init with
  | nil => simp
  | cons a t ih => simp [ih]

theorem getSetting_error_inv {σ : Type} {settings : List (Setting σ)} {name e : String}
    (h : getSetting settings name = .error e) :
    e = "Setting " ++ name ++ " not found" ∧ ∀ t ∈ settings, t.Name ≠ name := by
  rw [getSetting_eq_find] at h
  cases hf : settings.find? (fun s => s.Name == name) with
  | none =>
    simp only [hf, Except.error.injEq] at h
    refine ⟨h.symm, ?_⟩
    rw [List.find?_eq_none] at hf
    intro t ht
    simpa using hf t ht
  | some s1 => simp [hf] at h

/-! ## Lemmas on the upsert of the store -/

theorem filter_key_map_of_not_mem (k v : String) (rows : List (String × String))
    (h : k ∉ rows.map Prod.fst) :
    (rows.map (fun r => if r.1 == k then (r.1, v) else r)).filter (fun r => r.1 == k) = [] := by
  induction rows with
  | nil => rfl
  | cons a t ih =>
    simp only [List.map_cons, List.mem_cons, not_or] at h
    have hne : ¬ a.1 = k := fun e => h.1 e.symm
    simp [hne, List.filter_cons]
    simpa using ih h.2

theorem filter_key_map_of_mem (k v : String) (rows : List (String × String))
    (h : (rows.map Prod.fst).Nodup) (hk : k ∈ rows.map Prod.fst) :
    (rows.map (fun r => if r.1 == k then (r.1, v) else r)).filter (fun r => r.1 == k)
      = [(k, v)] := by
  induction rows with
  | nil => simp at hk
  | cons a t ih =>
    simp only [List.map_cons, List.nodup_cons] at h
    by_cases hak : a.1 = k
    · have hk2 : k ∉ t.map Prod.fst := hak ▸ h.1
      rw [List.map_cons, List.filter_cons, filter_key_map_of_not_mem k v t hk2]
      simp [hak]
    · have hk2 : k ∈ t.map Prod.fst := by
        simp only [List.map_cons, List.mem_cons] at hk
        rcases hk with hk | hk
        · exact absurd hk.symm hak
        · exact hk
      rw [List.map_cons, List.filter_cons, ih h.2 hk2]
      simp [hak]

theorem filter_other_map (k v : String) (rows : List (String × String)) :
    (rows.map (fun r => if r.1 == k then (r.1, v) else r)).filter (fun r => !(r.1 == k))
      = rows.filter (fun r => !(r.1 == k)) := by
  induction rows with
  | nil => rfl
  | cons a t ih =>
    rw [List.map_cons, List.filter_cons, List.filter_cons, ih]
    by_cases hak : a.1 = k <;> simp [hak]

theorem any_key_iff (k : String) (rows : List (String × String)) :
    rows.any (fun r => r.1 == k) = true ↔ k ∈ rows.map Prod.fst := by
  rw [List.any_eq_true, List.mem_map]
  constructor
  · rintro ⟨r, hr, hrk⟩; exact ⟨r, hr, by simpa using hrk⟩
  · rintro ⟨r, hr, hrk⟩; exact ⟨r, hr, by simpa using hrk⟩

theorem upsert_filter_key (k v : String) (rows : List (String × String))
    (h : (rows.map Prod.fst).Nodup) :
    (upsert k v rows).filter (fun r => r.1 == k) = [(k, v)] := by
  unfold upsert
  split
  · rename_i hany
    exact filter_key_map_of_mem k v rows h ((any_key_iff k rows).mp hany)
  · rename_i hany
    have : rows.filter (fun r => r.1 == k) = [] := by
      rw [List.filter_eq_nil_iff]
      intro a ha hk
      exact hany (List.any_eq_true.mpr ⟨a, ha, hk⟩)
    simp [List.filter_append, this]

theorem upsert_filter_other (k v : String) (rows : List (String × String)) :
    (upsert k v rows).filter (fun r => !(r.1 == k)) = rows.filter (fun r => !(r.1 == k)) := by
  unfold upsert
  split
  · exact filter_other_map k v rows
  · simp [List.filter_append]

theorem upsert_keys_nodup (k v : String) (rows : List (String × String))
    (h : (rows.map Prod.fst).Nodup) : ((upsert k v rows).map Prod.fst).Nodup := by
  unfold upsert
  split
  · have : (rows.map (fun r => if r.1 == k then (r.1, v) else r)).map Prod.fst
        = rows.map Prod.fst := by
      rw [List.map_map]
      apply List.map_congr_left
      intro a _
      by_cases hak : a.1 = k <;> simp [hak]
    rw [this]; exact h
  · rename_i hany
    rw [List.map_append, List.nodup_append]
    refine ⟨h, by simp, ?_⟩
    intro a ha hb
    simp only [List.map_cons, List.map_nil, List.mem_singleton] at hb
    subst hb
    apply hany
    rw [List.mem_map] at ha
    obtain ⟨r, hr, hrk⟩ := ha
    exact List.any_eq_true.mpr ⟨r, hr, by simpa using hrk⟩

theorem upsert_length_of_mem (k v : String) (rows : List (String × String))
    (h : k ∈ rows.map Prod.fst) : (upsert k v rows).length = rows.length := by
  unfold upsert
  have : rows.any (fun r => r.1 == k) = true := by
    rw [List.mem_map] at h
    obtain ⟨r, hr, hrk⟩ := h
    exact List.any_eq_true.mpr ⟨r, hr, by simpa using hrk⟩
  simp [this]

theorem mem_keys_upsert (k v : String) (rows : List (String × String)) :
    k ∈ (upsert k v rows).map Prod.fst := by
  unfold upsert
  split
  · rename_i hany
    obtain ⟨r, hr, hrk⟩ := List.any_eq_true.mp hany
    rw [List.mem_map]
    exact ⟨(r.1, v), List.mem_map.mpr ⟨r, hr, by simp [hrk]⟩, by simpa using hrk⟩
  · simp

/-! ## Lookup -/

/-- C5: `getSetting n` returns the first-registered setting named `n` (the one with no
setting of that name registered before it), it fails exactly when no registered setting has
that name, the only error it returns is `Setting n not found`, and registering one more
setting never changes the lookup of a name that is already registered. -/
theorem getSetting_first_registered {σ : Type} (w : World σ) (n : String) :
    (∀ s, getSetting w.settings n = .ok s ↔
        ∃ pre post, w.settings = pre ++ s :: post ∧ s.Name = n ∧ ∀ t ∈ pre, t.Name ≠ n) ∧
    (getSetting w.settings n = .error ("Setting " ++ n ++ " not found") ↔
        ∀ t ∈ w.settings, t.Name ≠ n) ∧
    (∀ e, getSetting w.settings n = .error e → e = "Setting " ++ n ++ " not found") ∧
    (∀ s2 : Setting σ, (∃ t ∈ w.settings, t.Name = n) →
        getSetting (RegisterSetting s2 w).settings n = getSetting w.settings n) := by
  refine ⟨?_, ?_, ?_, ?_⟩
  · intro s
    rw [getSetting_eq_find]
    cases h : w.settings.find? (fun s => s.Name == n) with
    | none =>
      simp only [false_iff, reduceCtorEq]
      rintro ⟨pre, post, hl, hn, -⟩
      rw [List.find?_eq_none] at h
      exact h s (by rw [hl]; simp) (by simpa using hn)
    | some s1 =>
      simp only [Except.ok.injEq]
      rw [List.find?_eq_some] at h
      constructor
      · rintro rfl
        obtain ⟨hp, pre, post, hl, hpre⟩ := h
        exact ⟨pre, post, hl, by simpa using hp, fun t ht => by simpa using hpre t ht⟩
      · rintro ⟨pre, post, hl, hn, hpre⟩
        have h2 : w.settings.find? (fun s => s.Name == n) = some s := by
          rw [List.find?_eq_some]
          exact ⟨by simpa using hn, pre, post, hl, fun t ht => by simpa using hpre t ht⟩
        have h1 : w.settings.find? (fun s => s.Name == n) = some s1 := by
          rw [List.find?_eq_some]; exact h
        rw [h1] at h2
        exact Option.some.inj h2
  · rw [getSetting_eq_find]
    cases h : w.settings.find? (fun s => s.Name == n) with
    | none =>
      simp only [true_iff]
      rw [List.find?_eq_none] at h
      intro t ht
      simpa using h t ht
    | some s1 =>
      simp only [false_iff, reduceCtorEq]
      intro hall
      have := List.find?_some (p := fun (s : Setting σ) => s.Name == n) h
      exact hall s1 (List.mem_of_find?_eq_some h) (by simpa using this)
  · intro e
    rw [getSetting_eq_find]
    cases h : w.settings.find? (fun s => s.Name == n) with
    | none => simp only [Except.error.injEq]; exact fun h => h.symm
    | some s1 => simp
  · rintro s2 ⟨t, ht, hn⟩
    simp only [RegisterSetting, getSetting_eq_find, List.find?_append]
    cases h : w.settings.find? (fun s => s.Name == n) with
    | none =>
      rw [List.find?_eq_none] at h
      exact absurd (by simpa using hn) (h t ht)
    | some s1 => simp

/-! ## The live query -/

/-- C6: `GetRunningSettings` returns no error and one entry per registered setting, in
registration order, made of the name, the value its `get` returns in the current memory and
the description; the list does not depend on the store, and the call leaves the whole state
(registry, Defaults snapshot, bound variables, store) as it was. -/
theorem getRunningSettings_lists_live_values {σ : Type} (w : World σ) :
    (GetRunningSettings w).1 = none ∧
    (GetRunningSettings w).2.1 =
      w.settings.map (fun s =>
        { Key := s.Name, Value := s.GetFunc w.vars, Description := s.Description }) ∧
    (GetRunningSettings w).2.2 = w ∧
    (∀ db : Store,
      (GetRunningSettings { w with db := db }).2.1 = (GetRunningSettings w).2.1) := by
  simp [GetRunningSettings, foldl_snoc_eq_map]

/-! ## Reconciliation: the Defaults snapshot -/

/-- C7: after a pass of `RetrieveAppSettings`, whatever the store holds and whether or not
the fetch fails, `defaultSettings` has one entry per registered setting, in registration
order, with the name, the description and the value `get` returned in the memory the pass
started from, that is, before any override was applied. -/
theorem retrieveAppSettings_snapshots_defaults {σ : Type} (w : World σ) :
    (RetrieveAppSettings w).2.defaultSettings =
      w.settings.map (fun s =>
        { Key := s.Name, Value := s.GetFunc w.vars, Description := s.Description }) := by
  unfold RetrieveAppSettings
  simp only [foldl_snoc_eq_map, List.nil_append]
  split
  · rfl
  · split <;> rfl

/-! ## Save and remove -/

/-- C3: `SettingsSaveCommand.Run` called with a name that is not registered, or with a
value that the set function of the named setting rejects, returns an error and leaves the
store as it was. -/
theorem save_failure_keeps_store {σ : Type} (c : SettingsSaveCommand) (w : World σ)
    (h : (∀ t ∈ w.settings, t.Name ≠ c.Setting) ∨
         (∃ s e, getSetting w.settings c.Setting = .ok s ∧
            (s.SetFunc c.Value w.vars).1 = some e)) :
    (SettingsSaveCommand.Run c w).err ≠ none ∧
    (SettingsSaveCommand.Run c w).world.db = w.db := by
  rcases h with h | ⟨s, e, hs, he⟩
  · simp [SettingsSaveCommand.Run, getSetting_error_of_forall_ne h]
  · unfold SettingsSaveCommand.Run
    simp only [hs]
    rcases hset : s.SetFunc c.Value w.vars with ⟨e1, vars⟩
    rw [hset] at he
    simp only at he
    subst he
    simp

/-- C3 on the sample process: `bar` is not registered and `128` is out of the range of the
`int8` setting `level`; both saves return an error and the store is untouched. -/
theorem save_failure_keeps_store_witness :
    ((∀ t ∈ sampleWorld.settings, t.Name ≠ "bar") ∨
      (∃ s e, getSetting sampleWorld.settings "bar" = .ok s ∧
        (s.SetFunc "1" sampleWorld.vars).1 = some e)) ∧
    ((∀ t ∈ sampleWorld.settings, t.Name ≠ "level") ∨
      (∃ s e, getSetting sampleWorld.settings "level" = .ok s ∧
        (s.SetFunc "128" sampleWorld.vars).1 = some e)) ∧
    (SettingsSaveCommand.Run ⟨"bar", "1"⟩ sampleWorld).err = some "Setting bar not found" ∧
    (SettingsSaveCommand.Run ⟨"level", "128"⟩ sampleWorld).err ≠ none ∧
    (SettingsSaveCommand.Run ⟨"level", "128"⟩ sampleWorld).world.db = sampleWorld.db :=
  have h1 : (∀ t ∈ sampleWorld.settings, t.Name ≠ "bar") ∨
      (∃ s e, getSetting sampleWorld.settings "bar" = .ok s ∧
        (s.SetFunc "1" sampleWorld.vars).1 = some e) :=
    Or.inl (by decide)
  have h2 : (∀ t ∈ sampleWorld.settings, t.Name ≠ "level") ∨
      (∃ s e, getSetting sampleWorld.settings "level" = .ok s ∧
        (s.SetFunc "128" sampleWorld.vars).1 = some e) :=
    Or.inr ⟨int8Setting sampleQuote "level" "Log level" levelPtr, _, rfl, rfl⟩
  ⟨h1, h2, by decide,
    (save_failure_keeps_store ⟨"level", "128"⟩ sampleWorld h2).1,
    (save_failure_keeps_store ⟨"level", "128"⟩ sampleWorld h2).2⟩

theorem save_run_of_accepted {σ : Type} (w : World σ) (n v : String) (s : Setting σ)
    (hs : getSetting w.settings n = .ok s)
    (hacc : (s.SetFunc v w.vars).1 = none)
    (hsave : w.db.saveErr = none) :
    SettingsSaveCommand.Run ⟨n, v⟩ w =
      { err := none, table := none,
        world := { w with vars := (s.SetFunc v w.vars).2,
                          db := { w.db with rows := upsert n v w.db.rows } } } := by
  have hn := getSetting_ok_name hs
  unfold SettingsSaveCommand.Run
  simp only [hs]
  rcases hset : s.SetFunc v w.vars with ⟨e1, vars⟩
  rw [hset] at hacc
  simp only at hacc
  subst hacc
  simp [Store.Save, hsave, hn]

/-- C4: when `n` is registered, its set function accepts `v` and the upsert succeeds (the
table holding one row per key, as its primary key demands), `SettingsSaveCommand.Run`
returns no error, leaves the memory in the state the set function produced, so that the
running view reads every value from that state, and leaves the store with exactly one row
of key `n`, of value `v`, the rows of every other key unchanged; saving `n` again with
another accepted value replaces the value of that row and adds no row. -/
theorem save_applies_and_upserts {σ : Type} (w : World σ) (n v : String) (s : Setting σ)
    (hs : getSetting w.settings n = .ok s)
    (hacc : (s.SetFunc v w.vars).1 = none)
    (hsave : w.db.saveErr = none)
    (hkeys : (w.db.rows.map Prod.fst).Nodup) :
    (SettingsSaveCommand.Run ⟨n, v⟩ w).err = none ∧
    (SettingsSaveCommand.Run ⟨n, v⟩ w).world.vars = (s.SetFunc v w.vars).2 ∧
    (GetRunningSettings (SettingsSaveCommand.Run ⟨n, v⟩ w).world).2.1 =
      w.settings.map (fun t =>
        { Key := t.Name, Value := t.GetFunc (s.SetFunc v w.vars).2,
          Description := t.Description }) ∧
    (SettingsSaveCommand.Run ⟨n, v⟩ w).world.db.rows.filter (fun row => row.1 == n)
      = [(n, v)] ∧
    (SettingsSaveCommand.Run ⟨n, v⟩ w).world.db.rows.filter (fun row => !(row.1 == n))
      = w.db.rows.filter (fun row => !(row.1 == n)) ∧
    (∀ v2, (s.SetFunc v2 (SettingsSaveCommand.Run ⟨n, v⟩ w).world.vars).1 = none →
      (SettingsSaveCommand.Run ⟨n, v2⟩ (SettingsSaveCommand.Run ⟨n, v⟩ w).world).err = none ∧
      (SettingsSaveCommand.Run ⟨n, v2⟩
          (SettingsSaveCommand.Run ⟨n, v⟩ w).world).world.db.rows.filter
            (fun row => row.1 == n) = [(n, v2)] ∧
      (SettingsSaveCommand.Run ⟨n, v2⟩
          (SettingsSaveCommand.Run ⟨n, v⟩ w).world).world.db.rows.length
        = (SettingsSaveCommand.Run ⟨n, v⟩ w).world.db.rows.length ∧
      (SettingsSaveCommand.Run ⟨n, v2⟩
          (SettingsSaveCommand.Run ⟨n, v⟩ w).world).world.db.rows.filter
            (fun row => !(row.1 == n))
        = w.db.rows.filter (fun row => !(row.1 == n))) := by
  rw [save_run_of_accepted w n v s hs hacc hsave]
  refine ⟨rfl, rfl, ?_, upsert_filter_key n v _ hkeys, upsert_filter_other n v _, ?_⟩
  · simp [GetRunningSettings, foldl_snoc_eq_map]
  · intro v2 hacc2
    rw [save_run_of_accepted
      { w with vars := (s.SetFunc v w.vars).2,
               db := { w.db with rows := upsert n v w.db.rows } } n v2 s hs hacc2 hsave]
    refine ⟨rfl, upsert_filter_key n v2 _ (upsert_keys_nodup n v _ hkeys),
      upsert_length_of_mem n v2 _ (mem_keys_upsert n v _), ?_⟩
    exact (upsert_filter_other n v2 _).trans (upsert_filter_other n v _)

/-- C4 on the sample process after `Setup`: `save foo y` leaves the single row `(foo, y)`,
the live value `y`, and a running view that reports it. -/
theorem save_applies_and_upserts_witness :
    getSetting sampleReady.settings "foo" = .ok (stringSetting "foo" "Foo setting" fooPtr) ∧
    ((stringSetting "foo" "Foo setting" fooPtr).SetFunc "y" sampleReady.vars).1 = none ∧
    sampleReady.db.saveErr = none ∧
    (sampleReady.db.rows.map Prod.fst).Nodup ∧
    (SettingsSaveCommand.Run ⟨"foo", "y"⟩ sampleReady).world.db.rows.filter
      (fun row => row.1 == "foo") = [("foo", "y")] ∧
    (SettingsSaveCommand.Run ⟨"foo", "y"⟩ sampleReady).world.vars.foo = "y" ∧
    (GetRunningSettings (SettingsSaveCommand.Run ⟨"foo", "y"⟩ sampleReady).world).2.1
      = [⟨"foo", "y", "Foo setting"⟩, ⟨"port", "8080", "Listen port"⟩,
         ⟨"level", "1", "Log level"⟩] :=
  ⟨rfl, rfl, rfl, by decide,
    (save_applies_and_upserts sampleReady "foo" "y" (stringSetting "foo" "Foo setting" fooPtr)
      rfl rfl rfl (by decide)).2.2.2.1,
    by decide, by decide⟩

/-- C9: for a registered name, when the delete of the store succeeds,
`SettingsRemoveCommand.Run` returns no error and leaves exactly the rows of the other keys,
so no row of that key; in every case the rows of the other keys, the memory of the bound
variables, the registry and the Defaults snapshot are unchanged; for a name that is not
registered it returns `Setting n not found` and the store is unchanged. -/
theorem remove_deletes_only_the_row {σ : Type} (c : SettingsRemoveCommand) (w : World σ) :
    ((∃ t ∈ w.settings, t.Name = c.Setting) → w.db.deleteErr = none →
      (SettingsRemoveCommand.Run c w).err = none ∧
      (SettingsRemoveCommand.Run c w).world.db.rows
        = w.db.rows.filter (fun row => !(row.1 == c.Setting)) ∧
      (∀ row ∈ (SettingsRemoveCommand.Run c w).world.db.rows, row.1 ≠ c.Setting)) ∧
    (SettingsRemoveCommand.Run c w).world.db.rows.filter (fun row => !(row.1 == c.Setting))
      = w.db.rows.filter (fun row => !(row.1 == c.Setting)) ∧
    (SettingsRemoveCommand.Run c w).world.vars = w.vars ∧
    (SettingsRemoveCommand.Run c w).world.settings = w.settings ∧
    (SettingsRemoveCommand.Run c w).world.defaultSettings = w.defaultSettings ∧
    ((∀ t ∈ w.settings, t.Name ≠ c.Setting) →
      (SettingsRemoveCommand.Run c w).err = some ("Setting " ++ c.Setting ++ " not found") ∧
      (SettingsRemoveCommand.Run c w).world.db = w.db) := by
  cases hg : getSetting w.settings c.Setting with
  | error e =>
    obtain ⟨he, hno⟩ := getSetting_error_inv hg
    subst he
    have hrun : SettingsRemoveCommand.Run c w =
        { err := some ("Setting " ++ c.Setting ++ " not found"), table := none, world := w } := by
      simp [SettingsRemoveCommand.Run, hg]
    rw [hrun]
    refine ⟨?_, rfl, rfl, rfl, rfl, fun _ => ⟨rfl, rfl⟩⟩
    rintro ⟨t, ht, hn⟩
    exact absurd hn (hno t ht)
  | ok s =>
    have hn := getSetting_ok_name hg
    have hmem : ¬ ∀ t ∈ w.settings, t.Name ≠ c.Setting := by
      intro hall
      rw [getSetting_error_of_forall_ne hall] at hg
      cases hg
    cases hd : w.db.deleteErr with
    | some e =>
      have hrun : SettingsRemoveCommand.Run c w =
          { err := some ("Error deleting setting " ++ c.Setting ++ ": " ++ e.Error),
            table := none, world := w } := by
        simp [SettingsRemoveCommand.Run, hg, Store.Delete, hd]
      rw [hrun]
      refine ⟨?_, rfl, rfl, rfl, rfl, fun hall => absurd hall hmem⟩
      intro _ hnone
      cases hnone
    | none =>
      have hrun : SettingsRemoveCommand.Run c w =
          { err := none, table := none,
            world := { w with db := { w.db with
              rows := w.db.rows.filter (fun row => !(row.1 == c.Setting)) } } } := by
        simp [SettingsRemoveCommand.Run, hg, Store.Delete, hd, hn]
      rw [hrun]
      refine ⟨fun _ _ => ⟨rfl, rfl, ?_⟩, ?_, rfl, rfl, rfl, fun hall => absurd hall hmem⟩
      · intro row hrow
        have := (List.mem_filter.mp hrow).2
        simpa using this
      · simp [List.filter_filter]

/-- C9 on the sample process after `save foo y`: `remove foo` empties the store and leaves
the live value `y`. -/
theorem remove_deletes_only_the_row_witness :
    (∃ t ∈ sampleSaved.settings, t.Name = "foo") ∧
    sampleSaved.db.deleteErr = none ∧
    sampleSaved.db.rows = [("foo", "y")] ∧
    (SettingsRemoveCommand.Run ⟨"foo"⟩ sampleSaved).err = none ∧
    (SettingsRemoveCommand.Run ⟨"foo"⟩ sampleSaved).world.db.rows = [] ∧
    (SettingsRemoveCommand.Run ⟨"foo"⟩ sampleSaved).world.vars.foo = "y" :=
  ⟨by decide, rfl, by decide,
    ((remove_deletes_only_the_row ⟨"foo"⟩ sampleSaved).1 (by decide) rfl).1,
    by decide, by decide⟩

/-! ## Reconciliation: applying the overrides -/

theorem fates_length {σ : Type} (settings : List (Setting σ)) (rows : List AppSetting) (m : σ) :
    (fates settings rows m).1.length = rows.length := by
  induction rows generalizing m with
  | nil => rfl
  | cons row rest ih =>
    unfold fates
    split
    · simp [ih]
    · split <;> simp [ih]

theorem applyOverride_eq {σ : Type} (settings : List (Setting σ)) (acc : σ × List String)
    (as : AppSetting) :
    applyOverride settings acc as =
      match settings.find? (fun s => s.Name == as.Key) with
      | none => acc
      | some s =>
        match s.SetFunc as.Value acc.1 with
        | (some err, vars) =>
          (vars, acc.2 ++ ["Error setting setting " ++ as.Key ++ ": " ++ err])
        | (none, vars) => (vars, acc.2) := by
  unfold applyOverride
  rw [getSetting_eq_find]
  cases settings.find? (fun s => s.Name == as.Key) <;> rfl

theorem foldl_applyOverride {σ : Type} (settings : List (Setting σ)) (rows : List AppSetting)
    (m : σ) (errs : List String) :
    rows.foldl (applyOverride settings) (m, errs)
      = ((fates settings rows m).2,
          errs ++ rejectionEntries rows (fates settings rows m).1) := by
  induction rows generalizing m errs with
  | nil => simp [fates, rejectionEntries]
  | cons row rest ih =>
    rw [List.foldl_cons, applyOverride_eq]
    unfold fates
    cases hf : settings.find? (fun s => s.Name == row.Key) with
    | none => simp [ih, rejectionEntries]
    | some s =>
      rcases hset : s.SetFunc row.Value m with ⟨e, m1⟩
      cases e with
      | none => simp [hset, ih, rejectionEntries]
      | some e => simp [hset, ih, rejectionEntries]

theorem stringJoin_cons (a : String) (l : List String) :
    String.join (a :: l) = a ++ String.join l := by
  have key : ∀ (l : List String) (init : String),
      l.foldl (fun r s => r ++ s) init = init ++ l.foldl (fun r s => r ++ s) "" := by
    intro l
    induction l with
    | nil => intro init; simp
    | cons b t ih =>
      intro init
      rw [List.foldl_cons, List.foldl_cons, ih (init ++ b), ih ("" ++ b)]
      simp [String.append_assoc]
  unfold String.join
  rw [List.foldl_cons, key]
  simp

theorem foldl_errorText (errs : List String) (init : String) :
    errs.foldl (fun errorText err => errorText ++ err ++ "\n") init
      = init ++ String.join (errs.map (fun err => err ++ "\n")) := by
  induction errs generalizing init with
  | nil => simp [String.join]
  | cons e t ih =>
    rw [List.foldl_cons, ih, List.map_cons, stringJoin_cons]
    simp [String.append_assoc]

theorem rejectionEntries_eq_nil_iff (rows : List AppSetting) (fs : List Fate)
    (hlen : fs.length = rows.length) :
    rejectionEntries rows fs = [] ↔ ∀ e, Fate.rejected e ∉ fs := by
  unfold rejectionEntries
  rw [List.filterMap_eq_nil_iff]
  constructor
  · intro h e he
    obtain ⟨i, hi, hget⟩ := List.getElem_of_mem he
    have hi2 : i < rows.length := hlen ▸ hi
    have hmem : (rows[i], fs[i]) ∈ rows.zip fs := by
      rw [List.mem_iff_getElem]
      exact ⟨i, by simp [hi, hi2], by simp⟩
    have := h _ hmem
    simp [hget] at this
  · intro h p hp
    have h2 := (List.of_mem_zip hp).2
    cases hp2 : p.2 with
    | rejected e => exact absurd (hp2 ▸ h2) (h e)
    | ignored => rfl
    | applied => rfl

theorem retrieve_eq_fates {σ : Type} (w : World σ) (hfind : ∀ text, w.db.Find.2 ≠ some (.other text)) :
    RetrieveAppSettings w =
      (if (rejectionEntries w.db.Find.1 (fates w.settings w.db.Find.1 w.vars).1).length > 0 then
          some ("errors setting settings: " ++
            String.join ((rejectionEntries w.db.Find.1
              (fates w.settings w.db.Find.1 w.vars).1).map (fun err => err ++ "\n")))
        else none,
       { w with
          defaultSettings := w.settings.map (fun s =>
            { Key := s.Name, Value := s.GetFunc w.vars, Description := s.Description })
          vars := (fates w.settings w.db.Find.1 w.vars).2 }) := by
  unfold RetrieveAppSettings
  rcases hF : w.db.Find with ⟨rows, e⟩
  rw [hF] at hfind
  have hne : ∀ text, e ≠ some (.other text) := hfind
  cases e with
  | none =>
    simp only [hF, foldl_snoc_eq_map, List.nil_append, foldl_applyOverride, foldl_errorText,
      String.empty_append]
    by_cases hc : (rejectionEntries rows (fates w.settings rows w.vars).1).length > 0
    · simp only [hc, if_true]
    · simp only [hc, if_false]
  | some err =>
    cases err with
    | other text => exact absurd rfl (hne text)
    | ErrRecordNotFound =>
      simp only [hF, foldl_snoc_eq_map, List.nil_append, foldl_applyOverride, foldl_errorText,
        String.empty_append]
      by_cases hc : (rejectionEntries rows (fates w.settings rows w.vars).1).length > 0
      · simp only [hc, if_true]
      · simp only [hc, if_false]

/-- C1: when the fetch of the store returns a list (no error other than record-not-found),
`RetrieveAppSettings` runs the
reconciliation the specification describes on the list the store returned: every override
gets its fate, so none is skipped after a rejection; the memory it leaves is the one left by
handing each override of a registered key to its set function in store order; it returns an
error exactly when some override was rejected; the text of that error is
`errors setting settings: ` followed by one line `Error setting setting <key>: <error>` per
rejected override, in store order; and, the keys of the store being distinct, no key of a
rejected override is the key of an applied one. -/
theorem retrieveAppSettings_attempts_every_override {σ : Type} (w : World σ)
    (hfind : ∀ text, w.db.Find.2 ≠ some (.other text)) :
    (fates w.settings w.db.Find.1 w.vars).1.length = w.db.Find.1.length ∧
    (RetrieveAppSettings w).2.vars = (fates w.settings w.db.Find.1 w.vars).2 ∧
    ((RetrieveAppSettings w).1 ≠ none ↔
      ∃ e, Fate.rejected e ∈ (fates w.settings w.db.Find.1 w.vars).1) ∧
    (∀ text, (RetrieveAppSettings w).1 = some text →
      text = "errors setting settings: " ++
        String.join ((rejectionEntries w.db.Find.1
          (fates w.settings w.db.Find.1 w.vars).1).map (fun err => err ++ "\n"))) ∧
    ((w.db.Find.1.map (fun row => row.Key)).Nodup →
      ∀ row e, (row, Fate.rejected e) ∈
          w.db.Find.1.zip (fates w.settings w.db.Find.1 w.vars).1 →
        ∀ row2, row2.Key = row.Key →
          (row2, Fate.applied) ∉ w.db.Find.1.zip (fates w.settings w.db.Find.1 w.vars).1) := by
  have hlen := fates_length w.settings w.db.Find.1 w.vars
  have hnil := rejectionEntries_eq_nil_iff w.db.Find.1 _ hlen
  rw [retrieve_eq_fates w hfind]
  refine ⟨hlen, rfl, ?_, ?_, ?_⟩
  · by_cases hc : (rejectionEntries w.db.Find.1 (fates w.settings w.db.Find.1 w.vars).1) = []
    · have h1 := hnil.mp hc
      simp only [hc, List.length_nil, gt_iff_lt, lt_self_iff_false, if_false, ne_eq,
        not_true_eq_false, false_iff, not_exists]
      exact h1
    · have hpos : (rejectionEntries w.db.Find.1
          (fates w.settings w.db.Find.1 w.vars).1).length > 0 :=
        List.length_pos.mpr hc
      have h1 : ¬ ∀ e, Fate.rejected e ∉ (fates w.settings w.db.Find.1 w.vars).1 :=
        fun h => hc (hnil.mpr h)
      push_neg at h1
      simp only [hpos, if_true, ne_eq, reduceCtorEq, not_false_eq_true, true_iff]
      exact h1
  · intro text htext
    by_cases hc : (rejectionEntries w.db.Find.1
        (fates w.settings w.db.Find.1 w.vars).1).length > 0
    · simp only [hc, if_true, Option.some.injEq] at htext
      exact htext.symm
    · simp only [hc, if_false, reduceCtorEq] at htext
  · intro hnd row e hrej row2 hkey happ
    have hmap : (w.db.Find.1.zip (fates w.settings w.db.Find.1 w.vars).1).map
        (fun p => p.1.Key) = w.db.Find.1.map (fun row => row.Key) := by
      have : (fun p : AppSetting × Fate => p.1.Key) = (fun row => row.Key) ∘ Prod.fst := rfl
      rw [this, ← List.map_map, List.map_fst_zip]
      exact le_of_eq hlen.symm
    have hnd2 : ((w.db.Find.1.zip (fates w.settings w.db.Find.1 w.vars).1).map
        (fun p => p.1.Key)).Nodup := hmap ▸ hnd
    have := List.inj_on_of_nodup_map hnd2 hrej happ hkey.symm
    simp at this

/-- C1 on the sample process with three overrides, one of them invalid: the other two are
applied and the error names only the invalid one. -/
theorem retrieveAppSettings_attempts_every_override_witness :
    (∀ text, sampleThreeOverrides.db.Find.2 ≠ some (.other text)) ∧
    (fates sampleThreeOverrides.settings sampleThreeOverrides.db.Find.1
        sampleThreeOverrides.vars).1
      = [.applied,
         .rejected ("strconv.ParseInt: parsing " ++ sampleQuote "999" ++ ": value out of range"),
         .applied] ∧
    (RetrieveAppSettings sampleThreeOverrides).2.vars
      = { foo := "hello", port := 9090, level := 1 } ∧
    (RetrieveAppSettings sampleThreeOverrides).1 ≠ none ∧
    (RetrieveAppSettings sampleThreeOverrides).1
      = some ("errors setting settings: Error setting setting level: " ++
          "strconv.ParseInt: parsing " ++ sampleQuote "999" ++ ": value out of range\n") :=
  have h : ∀ text, sampleThreeOverrides.db.Find.2 ≠ some (.other text) := by
    have hn : sampleThreeOverrides.db.Find.2 = none := by decide
    intro text
    rw [hn]
    exact Option.noConfusion
  ⟨h, by decide, by decide,
    (retrieveAppSettings_attempts_every_override sampleThreeOverrides h).2.2.1.mpr
      ⟨"strconv.ParseInt: parsing " ++ sampleQuote "999" ++ ": value out of range",
        by decide⟩,
    by decide⟩

/-! ## The views after save and remove -/

theorem printSettings_of_le (pdqsort : List AppSetting → List AppSetting)
    (l : List AppSetting) (h : l.length ≤ 12) :
    printSettings pdqsort l = l.insertionSort keyLE :=
  if_pos h

theorem printSettings_small (p q : List AppSetting → List AppSetting) (l : List AppSetting)
    (h : l.length ≤ 12) : printSettings p l = printSettings q l := by
  rw [printSettings_of_le p l h, printSettings_of_le q l h]

theorem listDefaults_small {σ : Type} (p q : List AppSetting → List AppSetting) (w : World σ)
    (h : w.defaultSettings.length ≤ 12) :
    SettingsListDefaultsCommand.Run p w = SettingsListDefaultsCommand.Run q w := by
  simp only [SettingsListDefaultsCommand.Run, printSettings_small p q _ h]

theorem listSaved_small {σ : Type} (p q : List AppSetting → List AppSetting) (w : World σ)
    (h : w.db.rows.length ≤ 12) :
    SettingsListSavedCommand.Run p w = SettingsListSavedCommand.Run q w := by
  unfold SettingsListSavedCommand.Run
  rcases hF : w.db.Find with ⟨rows, e⟩
  have hlen : rows.length ≤ 12 := by
    have : rows = w.db.Find.1 := by rw [hF]
    rw [this]
    simpa [Store.Find] using h
  rcases e with _ | e
  · simp only
    rw [printSettings_small p q _ (by simpa using hlen)]
  · cases e with
    | other text => rfl
    | ErrRecordNotFound =>
      simp only
      rw [printSettings_small p q _ (by simpa using hlen)]

theorem active_fold_length {σ : Type} (settings : List (Setting σ)) (saved : List AppSetting)
    (init : List AppSetting) :
    (saved.foldl
      (fun active ss =>
        match getSetting settings ss.Key with
        | .error _ => active
        | .ok setting =>
          active.map (fun as =>
            if as.Key == ss.Key then
              { as with Value := ss.Value, Description := setting.Description }
            else as))
      init).length = init.length := by
  induction saved generalizing init with
  | nil => rfl
  | cons r t ih =>
    rw [List.foldl_cons, ih]
    cases getSetting settings r.Key with
    | error _ => rfl
    | ok setting => simp only [List.length_map]

theorem listActive_small {σ : Type} (p q : List AppSetting → List AppSetting) (w : World σ)
    (h : w.defaultSettings.length ≤ 12) :
    SettingsListActiveCommand.Run p w = SettingsListActiveCommand.Run q w := by
  unfold SettingsListActiveCommand.Run
  rcases hF : w.db.Find with ⟨rows, e⟩
  have hlen := active_fold_length w.settings rows w.defaultSettings
  rcases e with _ | e
  · simp only
    rw [printSettings_small p q _ (by rw [hlen]; exact h)]
  · cases e with
    | other text => rfl
    | ErrRecordNotFound =>
      simp only
      rw [printSettings_small p q _ (by rw [hlen]; exact h)]

/-- C8, evaluated on the sample process (`foo` registered with compiled default `x`, then
`Setup`, then `save foo y`), whatever the sort does to long slices: before the Active view is
listed the Defaults view reports `foo -> x`, and the Saved and Active views report `y`; but
listing the Active view writes the saved value into the entries of `defaultSettings`, so the
snapshot is modified and the Defaults view listed afterwards reports `foo -> y`. -/
theorem listActive_overwrites_defaults (pdqsort : List AppSetting → List AppSetting) :
    (SettingsListDefaultsCommand.Run pdqsort sampleReady).table
      = some [⟨"foo", "x", "Foo setting"⟩, ⟨"level", "1", "Log level"⟩,
              ⟨"port", "8080", "Listen port"⟩] ∧
    (SettingsListDefaultsCommand.Run pdqsort sampleSaved).table
      = some [⟨"foo", "x", "Foo setting"⟩, ⟨"level", "1", "Log level"⟩,
              ⟨"port", "8080", "Listen port"⟩] ∧
    (SettingsListSavedCommand.Run pdqsort sampleSaved).table
      = some [⟨"foo", "y", "Foo setting"⟩] ∧
    (SettingsListActiveCommand.Run pdqsort sampleSaved).table
      = some [⟨"foo", "y", "Foo setting"⟩, ⟨"level", "1", "Log level"⟩,
              ⟨"port", "8080", "Listen port"⟩] ∧
    (SettingsListActiveCommand.Run pdqsort sampleSaved).world.defaultSettings
      ≠ sampleSaved.defaultSettings ∧
    (SettingsListDefaultsCommand.Run pdqsort
        (SettingsListActiveCommand.Run pdqsort sampleSaved).world).table
      = some [⟨"foo", "y", "Foo setting"⟩, ⟨"level", "1", "Log level"⟩,
              ⟨"port", "8080", "Listen port"⟩] := by
  rw [listDefaults_small pdqsort stableSort sampleReady (by decide),
    listDefaults_small pdqsort stableSort sampleSaved (by decide),
    listSaved_small pdqsort stableSort sampleSaved (by decide),
    listActive_small pdqsort stableSort sampleSaved (by decide),
    listDefaults_small pdqsort stableSort
      (SettingsListActiveCommand.Run stableSort sampleSaved).world (by decide)]
  refine ⟨?_, ?_, ?_, ?_, ?_, ?_⟩ <;> decide

/-! ## The integer settings: what the set function rejects -/

theorem parseUintLoop_ok (maxVal : Nat) (cs : List Char) (n r : Nat)
    (h : parseUintLoop maxVal cs n = (r, none)) :
    (∀ c ∈ cs, 48 ≤ c.toNat ∧ c.toNat ≤ 57) ∧ r = decimalValueFrom n cs ∧
    (cs ≠ [] → r ≤ maxVal) := by
  induction cs generalizing n with
  | nil =>
    simp only [parseUintLoop, Prod.mk.injEq, and_true] at h
    simp [decimalValueFrom, h]
  | cons c t ih =>
    unfold parseUintLoop at h
    split at h
    · rename_i hd
      split at h
      · simp at h
      · rename_i hcut
        simp only at h
        split at h
        · simp at h
        · rename_i hov
          have hn : n * 10 < 2 ^ 64 := by omega
          have hmod : n * 10 % 2 ^ 64 = n * 10 := Nat.mod_eq_of_lt hn
          rw [hmod] at hov h
          have hsum : (n * 10 + (c.toNat - 48)) % 2 ^ 64 = n * 10 + (c.toNat - 48) := by
            by_contra hne
            have hge : ¬ n * 10 + (c.toNat - 48) < 2 ^ 64 := fun hlt =>
              hne (Nat.mod_eq_of_lt hlt)
            have : (n * 10 + (c.toNat - 48)) % 2 ^ 64 = n * 10 + (c.toNat - 48) - 2 ^ 64 := by
              rw [Nat.mod_eq_sub_mod (by omega)]
              exact Nat.mod_eq_of_lt (by omega)
            omega
          rw [hsum] at hov h
          obtain ⟨h1, h2, h3⟩ := ih _ h
          refine ⟨?_, ?_, ?_⟩
          · intro x hx
            rcases List.mem_cons.mp hx with rfl | hx
            · exact hd
            · exact h1 x hx
          · rw [h2]
            simp only [decimalValueFrom, List.foldl_cons]
            congr 1
            omega
          · intro _
            by_cases ht : t = []
            · subst ht
              simp only [decimalValueFrom, List.foldl_nil] at h2
              omega
            · exact h3 ht
    · simp at h

theorem parseUintLoop_range (maxVal : Nat) (cs : List Char) (n r : Nat) (k : NumErrKind)
    (h : parseUintLoop maxVal cs n = (r, some k)) (hk : k = .ErrRange) : r = maxVal := by
  induction cs generalizing n with
  | nil => simp [parseUintLoop] at h
  | cons c t ih =>
    unfold parseUintLoop at h
    split at h
    · split at h
      · simp only [Prod.mk.injEq] at h; exact h.1.symm
      · simp only at h
        split at h
        · simp only [Prod.mk.injEq] at h; exact h.1.symm
        · exact ih _ h
    · simp only [Prod.mk.injEq, Option.some.injEq] at h
      rw [hk] at h
      exact absurd h.2 (by decide)

theorem ParseUint_ok (s : String) (bitSize r : Nat) (h : ParseUint s bitSize = (r, none)) :
    s.toList ≠ [] ∧ (∀ c ∈ s.toList, 48 ≤ c.toNat ∧ c.toNat ≤ 57) ∧
    r = decimalValue s.toList ∧ r ≤ 2 ^ bitSize - 1 := by
  unfold ParseUint at h
  split at h
  · simp at h
  · rename_i hne
    have hl : s.toList ≠ [] := by
      intro hnil
      apply hne
      have : s = String.mk s.toList := rfl
      rw [this, hnil]
    rcases hp : parseUintLoop (2 ^ bitSize - 1) s.toList 0 with ⟨n, e⟩
    rw [hp] at h
    cases e with
    | some k => simp at h
    | none =>
      simp only [Prod.mk.injEq, and_true] at h
      subst h
      obtain ⟨h1, h2, h3⟩ := parseUintLoop_ok _ _ _ _ hp
      exact ⟨hl, h1, h2, h3 hl⟩

theorem ParseUint_range (s : String) (bitSize r : Nat) (f num : String)
    (h : ParseUint s bitSize = (r, some ⟨f, num, .ErrRange⟩)) : r = 2 ^ bitSize - 1 := by
  unfold ParseUint at h
  split at h
  · simp at h
  · rcases hp : parseUintLoop (2 ^ bitSize - 1) s.toList 0 with ⟨n, e⟩
    rw [hp] at h
    cases e with
    | none => simp at h
    | some k =>
      simp only [Prod.mk.injEq, Option.some.injEq, NumError.mk.injEq] at h
      obtain ⟨rfl, -, -, hk⟩ := h
      exact parseUintLoop_range _ _ _ _ _ hp hk

theorem isBase10Within_of_ParseUint (s : String) (bitSize r : Nat)
    (h : ParseUint s bitSize = (r, none)) :
    IsBase10Within 0 ((2 ^ bitSize - 1 : Nat) : Int) s := by
  obtain ⟨h1, h2, h3, h4⟩ := ParseUint_ok s bitSize r h
  have hns : ¬ (([] : List Char) = ['-']) := by simp
  refine ⟨[], s.toList, rfl, Or.inl rfl, h1, h2, ?_, ?_⟩
  · rw [if_neg hns]
    exact Int.natCast_nonneg _
  · rw [if_neg hns, ← h3]
    exact Int.ofNat_le.mpr h4

theorem isBase10Within_of_ParseInt (s : String) (bitSize : Nat) (i : Int)
    (hb : 2 ≤ bitSize) (hb2 : bitSize ≤ 64)
    (h : ParseInt s bitSize = (i, none)) :
    IsBase10Within (-((2 ^ (bitSize - 1) : Nat) : Int)) (((2 ^ (bitSize - 1) : Nat) : Int) - 1)
      s := by
  have hpow : 2 ^ (bitSize - 1) ≤ 2 ^ 63 := Nat.pow_le_pow_right (by norm_num) (by omega)
  have hone : 2 ≤ 2 ^ (bitSize - 1) := by
    calc 2 = 2 ^ 1 := rfl
      _ ≤ 2 ^ (bitSize - 1) := Nat.pow_le_pow_right (by norm_num) (by omega)
  have hdouble : 2 ^ bitSize = 2 ^ (bitSize - 1) * 2 := by
    rw [← pow_succ]
    congr 1
    omega
  unfold ParseInt at h
  generalize 2 ^ (bitSize - 1) = P at h hpow hone hdouble ⊢
  split at h
  · simp at h
  · rename_i c cs hl
    simp only at h
    rcases hp : ParseUint (String.mk (if c = '+' ∨ c = '-' then cs else c :: cs)) bitSize
      with ⟨un, e⟩
    rw [hp] at h
    have key : e = none → (¬ c = '-' → un < P) → (c = '-' → un ≤ P) →
        IsBase10Within (-(P : Int)) ((P : Int) - 1) s := by
      intro he hpos hneg
      subst he
      obtain ⟨h1, h2, h3, -⟩ := ParseUint_ok _ _ _ hp
      by_cases hsign : c = '+' ∨ c = '-'
      · simp only [hsign, if_true] at h1 h2 h3
        have h1' : cs ≠ [] := h1
        have h2' : ∀ x ∈ cs, 48 ≤ x.toNat ∧ x.toNat ≤ 57 := h2
        have h3' : un = decimalValue cs := h3
        refine ⟨[c], cs, by rw [hl]; rfl, ?_, h1', h2', ?_, ?_⟩
        · rcases hsign with rfl | rfl
          · exact Or.inr (Or.inl rfl)
          · exact Or.inr (Or.inr rfl)
        · rcases hsign with rfl | rfl
          · rw [if_neg (by decide)]
            omega
          · rw [if_pos rfl]
            have := hneg rfl
            omega
        · rcases hsign with rfl | rfl
          · rw [if_neg (by decide)]
            have := hpos (by decide)
            omega
          · rw [if_pos rfl]
            omega
      · simp only [hsign, if_false] at h1 h2 h3
        have h2' : ∀ x ∈ c :: cs, 48 ≤ x.toNat ∧ x.toNat ≤ 57 := h2
        have h3' : un = decimalValue (c :: cs) := h3
        have hc : ¬ c = '-' := fun hc => hsign (Or.inr hc)
        have hns : ¬ (([] : List Char) = ['-']) := by simp
        refine ⟨[], c :: cs, by rw [hl]; rfl, Or.inl rfl, by simp, h2', ?_, ?_⟩
        · rw [if_neg hns]
          omega
        · rw [if_neg hns]
          have := hpos hc
          omega
    cases e with
    | none =>
      simp only at h
      split at h
      · simp at h
      · rename_i hc1
        split at h
        · simp at h
        · rename_i hc2
          apply key rfl
          · intro hc; by_contra hlt; exact hc1 ⟨by simpa using hc, by omega⟩
          · intro hc; by_contra hlt; exact hc2 ⟨by simpa using hc, by omega⟩
    | some err =>
      rcases err with ⟨f, num, k⟩
      cases k with
      | ErrSyntax => simp at h
      | ErrRange =>
        have hun := ParseUint_range _ _ _ _ _ hp
        simp only at h
        split at h
        · simp at h
        · rename_i hc1
          split at h
          · simp at h
          · rename_i hc2
            exfalso
            by_cases hc : c = '-'
            · exact hc2 ⟨by simpa using hc, by omega⟩
            · exact hc1 ⟨by simpa using hc, by omega⟩

theorem length_le_utf8ByteSize_go (cs : List Char) : cs.length ≤ String.utf8ByteSize.go cs := by
  induction cs with
  | nil => simp [String.utf8ByteSize.go]
  | cons c t ih =>
    simp only [String.utf8ByteSize.go, List.length_cons]
    have := Char.utf8Size_pos c
    omega

theorem length_le_utf8ByteSize (s : String) : s.toList.length ≤ s.utf8ByteSize := by
  cases s with
  | mk data => exact length_le_utf8ByteSize_go data

theorem atoiLoop_ok (cs : List Char) (k : Nat) (r : Int)
    (h : atoiLoop cs (k : Int) = some r) :
    (∀ c ∈ cs, 48 ≤ c.toNat ∧ c.toNat ≤ 57) ∧ r = (decimalValueFrom k cs : Int) := by
  induction cs generalizing k with
  | nil =>
    simp only [atoiLoop, Option.some.injEq] at h
    simp [decimalValueFrom, h]
  | cons c t ih =>
    unfold atoiLoop at h
    split at h
    · rename_i hd
      have hcast : (k : Int) * 10 + ((c.toNat - 48 : Nat) : Int)
          = ((10 * k + (c.toNat - 48) : Nat) : Int) := by
        push_cast; ring
      rw [hcast] at h
      obtain ⟨h1, h2⟩ := ih _ h
      refine ⟨?_, ?_⟩
      · intro x hx
        rcases List.mem_cons.mp hx with rfl | hx
        · exact hd
        · exact h1 x hx
      · rw [h2]; rfl
    · simp at h

theorem decimalValueFrom_lt (cs : List Char) (n : Nat)
    (h : ∀ c ∈ cs, 48 ≤ c.toNat ∧ c.toNat ≤ 57) :
    decimalValueFrom n cs + 1 ≤ (n + 1) * 10 ^ cs.length := by
  induction cs generalizing n with
  | nil => simp [decimalValueFrom]
  | cons c t ih =>
    have hc := h c (List.mem_cons_self c t)
    have ht := ih (10 * n + (c.toNat - 48)) (fun x hx => h x (List.mem_cons_of_mem c hx))
    have hstep : decimalValueFrom n (c :: t) = decimalValueFrom (10 * n + (c.toNat - 48)) t := rfl
    rw [hstep, List.length_cons, pow_succ]
    calc decimalValueFrom (10 * n + (c.toNat - 48)) t + 1
        ≤ (10 * n + (c.toNat - 48) + 1) * 10 ^ t.length := ht
      _ ≤ ((n + 1) * 10) * 10 ^ t.length := Nat.mul_le_mul_right _ (by omega)
      _ = (n + 1) * (10 ^ t.length * 10) := by ring

theorem isBase10Within_of_Atoi (s : String) (i : Int) (h : Atoi s = (i, none)) :
    IsBase10Within (-((2 ^ 63 : Nat) : Int)) (((2 ^ 63 : Nat) : Int) - 1) s := by
  unfold Atoi at h
  split at h
  · rename_i hlen
    split at h
    · simp at h
    · rename_i c cs hl
      have hdlen : (if c = '-' ∨ c = '+' then cs else c :: cs).length ≤ 18 := by
        have h1 := length_le_utf8ByteSize s
        rw [hl] at h1
        have h2 : (if c = '-' ∨ c = '+' then cs else c :: cs).length ≤ (c :: cs).length := by
          split <;> simp
        omega
      have hsplit : s.toList = (if c = '-' ∨ c = '+' then [c] else [])
          ++ (if c = '-' ∨ c = '+' then cs else c :: cs) := by
        rw [hl]; split <;> rfl
      have hsgn : ((if c = '-' ∨ c = '+' then [c] else []) = ([] : List Char)
          ∨ (if c = '-' ∨ c = '+' then [c] else []) = ['+']
          ∨ (if c = '-' ∨ c = '+' then [c] else []) = ['-']) := by
        by_cases h1 : c = '-'
        · right; right; simp [h1]
        · by_cases h2 : c = '+'
          · right; left; simp [h2]
          · left; simp [h1, h2]
      have hne : ¬ ((c = '-' ∨ c = '+') ∧ cs.length < 1) →
          (if c = '-' ∨ c = '+' then cs else c :: cs) ≠ [] := by
        intro hno hnil
        by_cases hsign : c = '-' ∨ c = '+'
        · rw [if_pos hsign] at hnil
          exact hno ⟨hsign, by simp [hnil]⟩
        · rw [if_neg hsign] at hnil
          cases hnil
      generalize (if c = '-' ∨ c = '+' then cs else c :: cs) = digits at h hdlen hsplit hne
      generalize (if c = '-' ∨ c = '+' then [c] else []) = sign at hsplit hsgn
      split at h
      · simp at h
      · rename_i hdl
        rcases hloop : atoiLoop digits 0 with _ | n
        · rw [hloop] at h; simp at h
        · obtain ⟨hd, -⟩ := atoiLoop_ok _ 0 n (by simpa using hloop)
          have hlt := decimalValueFrom_lt _ 0 hd
          have hpw : 10 ^ digits.length ≤ 10 ^ 18 :=
            Nat.pow_le_pow_right (by norm_num) hdlen
          have hval : decimalValue digits < 10 ^ 18 := by
            unfold decimalValue; omega
          refine ⟨sign, digits, hsplit, hsgn, hne hdl, hd, ?_, ?_⟩
          · split <;> omega
          · split <;> omega
  · rcases hp : ParseInt s 64 with ⟨i64, e⟩
    rw [hp] at h
    cases e with
    | some nerr => simp at h
    | none => exact isBase10Within_of_ParseInt s 64 i64 (by norm_num) (by norm_num) hp

theorem setFunc_of_ParseInt_rejects (s : String) (bits : Nat)
    (lo hi : Int) (hb : 2 ≤ bits) (hb2 : bits ≤ 64)
    (hlo : lo = -((2 ^ (bits - 1) : Nat) : Int)) (hhi : hi = ((2 ^ (bits - 1) : Nat) : Int) - 1)
    (h : ¬ IsBase10Within lo hi s) :
    ∃ err, ParseInt s bits = ((ParseInt s bits).1, some err) := by
  rcases hp : ParseInt s bits with ⟨i, e⟩
  cases e with
  | some err => exact ⟨err, rfl⟩
  | none =>
    exfalso
    apply h
    rw [hlo, hhi]
    exact isBase10Within_of_ParseInt s bits i hb hb2 hp

theorem setFunc_of_ParseUint_rejects (s : String) (bits : Nat) (hi : Int)
    (hhi : hi = ((2 ^ bits - 1 : Nat) : Int))
    (h : ¬ IsBase10Within 0 hi s) :
    ∃ err, ParseUint s bits = ((ParseUint s bits).1, some err) := by
  rcases hp : ParseUint s bits with ⟨i, e⟩
  cases e with
  | some err => exact ⟨err, rfl⟩
  | none =>
    exfalso
    apply h
    rw [hhi]
    exact isBase10Within_of_ParseUint s bits i hp

/-- C2: for each of the ten integer settings and every string that is not a base-10 integer
within the range of the bound type (an optional sign, one or more decimal digits, a value of
the range), the set function returns an error and leaves the memory, hence the bound
variable, as it was. The ranges are those of `int`, `int8`, `int16`, `int32`, `int64`,
`uint`, `uint8`, `uint16`, `uint32` and `uint64`, `int` and `uint` having 64 bits. -/
theorem integer_set_rejects_invalid {σ : Type} (quote : String → String) (name description : String)
    (pi : Ptr σ Int) (pn : Ptr σ Nat) (s : String) (m : σ) :
    (¬ IsBase10Within (-9223372036854775808) 9223372036854775807 s →
      ∃ e, (intSetting quote name description pi).SetFunc s m = (some e, m)) ∧
    (¬ IsBase10Within (-128) 127 s →
      ∃ e, (int8Setting quote name description pi).SetFunc s m = (some e, m)) ∧
    (¬ IsBase10Within (-32768) 32767 s →
      ∃ e, (int16Setting quote name description pi).SetFunc s m = (some e, m)) ∧
    (¬ IsBase10Within (-2147483648) 2147483647 s →
      ∃ e, (int32Setting quote name description pi).SetFunc s m = (some e, m)) ∧
    (¬ IsBase10Within (-9223372036854775808) 9223372036854775807 s →
      ∃ e, (int64Setting quote name description pi).SetFunc s m = (some e, m)) ∧
    (¬ IsBase10Within 0 18446744073709551615 s →
      ∃ e, (uintSetting quote name description pn).SetFunc s m = (some e, m)) ∧
    (¬ IsBase10Within 0 255 s →
      ∃ e, (uint8Setting quote name description pn).SetFunc s m = (some e, m)) ∧
    (¬ IsBase10Within 0 65535 s →
      ∃ e, (uint16Setting quote name description pn).SetFunc s m = (some e, m)) ∧
    (¬ IsBase10Within 0 4294967295 s →
      ∃ e, (uint32Setting quote name description pn).SetFunc s m = (some e, m)) ∧
    (¬ IsBase10Within 0 18446744073709551615 s →
      ∃ e, (uint64Setting quote name description pn).SetFunc s m = (some e, m)) := by
  refine ⟨?_, ?_, ?_, ?_, ?_, ?_, ?_, ?_, ?_, ?_⟩
  · intro h
    rcases hp : Atoi s with ⟨i, e⟩
    cases e with
    | some err => exact ⟨err.Error quote, by simp [intSetting, hp]⟩
    | none =>
      exfalso
      apply h
      have := isBase10Within_of_Atoi s i hp
      norm_num at this
      exact this
  · intro h
    obtain ⟨err, he⟩ := setFunc_of_ParseInt_rejects s 8 _ _ (by norm_num) (by norm_num)
      (by norm_num) (by norm_num) h
    exact ⟨err.Error quote, by simp only [int8Setting]; rw [he]⟩
  · intro h
    obtain ⟨err, he⟩ := setFunc_of_ParseInt_rejects s 16 _ _ (by norm_num) (by norm_num)
      (by norm_num) (by norm_num) h
    exact ⟨err.Error quote, by simp only [int16Setting]; rw [he]⟩
  · intro h
    obtain ⟨err, he⟩ := setFunc_of_ParseInt_rejects s 32 _ _ (by norm_num) (by norm_num)
      (by norm_num) (by norm_num) h
    exact ⟨err.Error quote, by simp only [int32Setting]; rw [he]⟩
  · intro h
    obtain ⟨err, he⟩ := setFunc_of_ParseInt_rejects s 64 _ _ (by norm_num) (by norm_num)
      (by norm_num) (by norm_num) h
    exact ⟨err.Error quote, by simp only [int64Setting]; rw [he]⟩
  · intro h
    obtain ⟨err, he⟩ := setFunc_of_ParseUint_rejects s 64 _ (by norm_num) h
    exact ⟨err.Error quote, by simp only [uintSetting]; rw [he]⟩
  · intro h
    obtain ⟨err, he⟩ := setFunc_of_ParseUint_rejects s 8 _ (by norm_num) h
    exact ⟨err.Error quote, by simp only [uint8Setting]; rw [he]⟩
  · intro h
    obtain ⟨err, he⟩ := setFunc_of_ParseUint_rejects s 16 _ (by norm_num) h
    exact ⟨err.Error quote, by simp only [uint16Setting]; rw [he]⟩
  · intro h
    obtain ⟨err, he⟩ := setFunc_of_ParseUint_rejects s 32 _ (by norm_num) h
    exact ⟨err.Error quote, by simp only [uint32Setting]; rw [he]⟩
  · intro h
    obtain ⟨err, he⟩ := setFunc_of_ParseUint_rejects s 64 _ (by norm_num) h
    exact ⟨err.Error quote, by simp only [uint64Setting]; rw [he]⟩

/-- C2 on the sample process: `notanumber` for the `int` setting, `128` for the `int8`
setting and `-1` for a `uint8` setting are rejected and the memory is unchanged. -/
theorem integer_set_rejects_invalid_witness :
    ¬ IsBase10Within (-9223372036854775808) 9223372036854775807 "notanumber" ∧
    ¬ IsBase10Within (-128) 127 "128" ∧
    ¬ IsBase10Within 0 255 "-1" ∧
    (∃ e, (intSetting sampleQuote "port" "Listen port" portPtr).SetFunc "notanumber"
        sampleWorld.vars = (some e, sampleWorld.vars)) ∧
    (∃ e, (int8Setting sampleQuote "level" "Log level" levelPtr).SetFunc "128"
        sampleWorld.vars = (some e, sampleWorld.vars)) ∧
    (∃ e, (uint8Setting sampleQuote "port" "Listen port" portNatPtr).SetFunc "-1"
        sampleWorld.vars = (some e, sampleWorld.vars)) :=
  have h1 : ¬ IsBase10Within (-9223372036854775808) 9223372036854775807 "notanumber" := by
    rintro ⟨sign, digits, hs, hsg, hne, hd, -, -⟩
    rcases hsg with rfl | rfl | rfl
    · have : digits = "notanumber".toList := by simpa using hs.symm
      subst this
      have := hd 'n' (by decide)
      revert this
      decide
    · simp at hs
    · simp at hs
  have h2 : ¬ IsBase10Within (-128) 127 "128" := by
    rintro ⟨sign, digits, hs, hsg, hne, hd, hlo, hhi⟩
    rcases hsg with rfl | rfl | rfl
    · have : digits = "128".toList := by simpa using hs.symm
      subst this
      revert hhi
      decide
    · simp at hs
    · simp at hs
  have h3 : ¬ IsBase10Within 0 255 "-1" := by
    rintro ⟨sign, digits, hs, hsg, hne, hd, hlo, hhi⟩
    rcases hsg with rfl | rfl | rfl
    · have : digits = "-1".toList := by simpa using hs.symm
      subst this
      have := hd '-' (by decide)
      revert this
      decide
    · simp at hs
    · have : digits = ['1'] := by
        have h := hs
        simp only [List.singleton_append] at h
        exact (List.cons.inj h).2.symm
      subst this
      revert hlo
      decide
  ⟨h1, h2, h3,
    (integer_set_rejects_invalid sampleQuote "port" "Listen port" portPtr portNatPtr
      "notanumber" sampleWorld.vars).1 h1,
    (integer_set_rejects_invalid sampleQuote "level" "Log level" levelPtr portNatPtr
      "128" sampleWorld.vars).2.1 h2,
    (integer_set_rejects_invalid sampleQuote "port" "Listen port" portPtr portNatPtr
      "-1" sampleWorld.vars).2.2.2.2.2.2.1 h3⟩

/-! ## Reconciliation: stale keys and the outcome of the fetch -/

theorem retrieve_unfold {σ : Type} (w : World σ) :
    RetrieveAppSettings w =
      match w.db.Find with
      | (_, some (.other text)) =>
        (some ("Error getting app settings: " ++ text),
          { w with defaultSettings := w.settings.map (fun s =>
              { Key := s.Name, Value := s.GetFunc w.vars, Description := s.Description }) })
      | (appSettings, _) =>
        (if (appSettings.foldl (applyOverride w.settings) (w.vars, [])).2.length > 0 then
            some ("errors setting settings: " ++
              (appSettings.foldl (applyOverride w.settings) (w.vars, [])).2.foldl
                (fun errorText err => errorText ++ err ++ "\n") "")
          else none,
         { w with
            defaultSettings := w.settings.map (fun s =>
              { Key := s.Name, Value := s.GetFunc w.vars, Description := s.Description })
            vars := (appSettings.foldl (applyOverride w.settings) (w.vars, [])).1 }) := by
  unfold RetrieveAppSettings
  simp only [foldl_snoc_eq_map, List.nil_append]
  rcases hF : w.db.Find with ⟨rows, e⟩
  rcases e with _ | e
  · simp only
    by_cases hc : (rows.foldl (applyOverride w.settings) (w.vars, [])).2.length > 0
    · simp only [hF, hc, if_true]
    · simp only [hF, hc, if_false]
  · cases e with
    | other text => simp only [hF]
    | ErrRecordNotFound =>
      simp only
      by_cases hc : (rows.foldl (applyOverride w.settings) (w.vars, [])).2.length > 0
      · simp only [hF, hc, if_true]
      · simp only [hF, hc, if_false]

theorem foldl_applyOverride_filter {σ : Type} (settings : List (Setting σ)) (rows : List AppSetting)
    (acc : σ × List String) :
    rows.foldl (applyOverride settings) acc
      = (rows.filter (fun r => isRegistered settings r.Key)).foldl
          (applyOverride settings) acc := by
  induction rows generalizing acc with
  | nil => rfl
  | cons r t ih =>
    rw [List.filter_cons]
    by_cases hr : isRegistered settings r.Key = true
    · rw [if_pos hr, List.foldl_cons, List.foldl_cons, ih]
    · have hnone : settings.find? (fun s => s.Name == r.Key) = none := by
        rw [List.find?_eq_none]
        intro s hs hp
        exact hr (List.any_eq_true.mpr ⟨s, hs, hp⟩)
      rw [if_neg hr, List.foldl_cons, applyOverride_eq, hnone, ih]

theorem retrieve_rows_congr {σ : Type} (w : World σ) (rows' : List (String × String))
    (h : rows'.filter (fun r => isRegistered w.settings r.1)
      = w.db.rows.filter (fun r => isRegistered w.settings r.1)) :
    (RetrieveAppSettings { w with db := { w.db with rows := rows' } }).1
      = (RetrieveAppSettings w).1 ∧
    (RetrieveAppSettings { w with db := { w.db with rows := rows' } }).2.vars
      = (RetrieveAppSettings w).2.vars := by
  have hmap : ∀ rows : List (String × String),
      (rows.map (fun r => ({ Key := r.1, Value := r.2, Description := "" } : AppSetting))).filter
          (fun r => isRegistered w.settings r.Key)
        = (rows.filter (fun r => isRegistered w.settings r.1)).map
            (fun r => ({ Key := r.1, Value := r.2, Description := "" } : AppSetting)) := by
    intro rows
    rw [List.filter_map]
    rfl
  rw [retrieve_unfold, retrieve_unfold w]
  cases hf : w.db.findErr with
  | none =>
    simp only [Store.Find, hf]
    rw [foldl_applyOverride_filter w.settings (rows'.map _),
      foldl_applyOverride_filter w.settings (w.db.rows.map _), hmap, hmap, h]
    exact ⟨rfl, rfl⟩
  | some e =>
    cases e with
    | other text => simp [Store.Find, hf]
    | ErrRecordNotFound =>
      simp only [Store.Find, hf]
      rw [foldl_applyOverride_filter w.settings (rows'.map _),
        foldl_applyOverride_filter w.settings (w.db.rows.map _), hmap, hmap, h]
      exact ⟨rfl, rfl⟩

/-- C11: overrides whose key names no registered setting are ignored by
`RetrieveAppSettings`. Two stores whose rows of registered keys are the same, in the same
order, give the same returned error and the same live memory, so adding rows of unregistered
keys anywhere in a store changes neither; and over a store that holds only such rows, the
fetch not failing, the pass returns no error and leaves the memory as it was. -/
theorem retrieveAppSettings_ignores_unregistered {σ : Type} (w : World σ) :
    (∀ rows' : List (String × String),
      rows'.filter (fun r => isRegistered w.settings r.1)
        = w.db.rows.filter (fun r => isRegistered w.settings r.1) →
      (RetrieveAppSettings { w with db := { w.db with rows := rows' } }).1
        = (RetrieveAppSettings w).1 ∧
      (RetrieveAppSettings { w with db := { w.db with rows := rows' } }).2.vars
        = (RetrieveAppSettings w).2.vars) ∧
    (∀ front back stale : List (String × String),
      w.db.rows = front ++ back → (∀ r ∈ stale, isRegistered w.settings r.1 = false) →
      (RetrieveAppSettings { w with db := { w.db with rows := front ++ stale ++ back } }).1
        = (RetrieveAppSettings w).1 ∧
      (RetrieveAppSettings { w with db := { w.db with rows := front ++ stale ++ back } }).2.vars
        = (RetrieveAppSettings w).2.vars) ∧
    ((∀ r ∈ w.db.rows, isRegistered w.settings r.1 = false) →
      (∀ text, w.db.findErr ≠ some (.other text)) →
      (RetrieveAppSettings w).1 = none ∧ (RetrieveAppSettings w).2.vars = w.vars) := by
  refine ⟨retrieve_rows_congr w, ?_, ?_⟩
  · intro front back stale hrows hstale
    apply retrieve_rows_congr
    have : stale.filter (fun r => isRegistered w.settings r.1) = [] := by
      rw [List.filter_eq_nil_iff]
      intro r hr
      simp [hstale r hr]
    rw [hrows, List.filter_append, List.filter_append, List.filter_append, this,
      List.append_nil]
  · intro hall hfind
    have hnil : ∀ acc : σ × List String,
        (w.db.rows.map (fun r =>
          ({ Key := r.1, Value := r.2, Description := "" } : AppSetting))).foldl
            (applyOverride w.settings) acc = acc := by
      intro acc
      rw [foldl_applyOverride_filter]
      have : (w.db.rows.map (fun r =>
          ({ Key := r.1, Value := r.2, Description := "" } : AppSetting))).filter
            (fun r => isRegistered w.settings r.Key) = [] := by
        rw [List.filter_eq_nil_iff]
        intro r hr
        obtain ⟨r0, hr0, rfl⟩ := List.mem_map.mp hr
        simp [hall r0 hr0]
      rw [this]
      rfl
    rw [retrieve_unfold]
    cases hf : w.db.findErr with
    | none => simp [Store.Find, hf, hnil]
    | some e =>
      cases e with
      | other text => exact absurd hf (hfind text)
      | ErrRecordNotFound => simp [Store.Find, hf, hnil]

/-- C11 on the sample process with a store of two stale keys: no error, every live value
unchanged. -/
theorem retrieveAppSettings_ignores_unregistered_witness :
    (∀ r ∈ sampleStaleOnly.db.rows, isRegistered sampleStaleOnly.settings r.1 = false) ∧
    (∀ text, sampleStaleOnly.db.findErr ≠ some (.other text)) ∧
    (RetrieveAppSettings sampleStaleOnly).1 = none ∧
    (RetrieveAppSettings sampleStaleOnly).2.vars = { foo := "x", port := 8080, level := 1 } :=
  have h1 : ∀ r ∈ sampleStaleOnly.db.rows, isRegistered sampleStaleOnly.settings r.1 = false := by
    decide
  have h2 : ∀ text, sampleStaleOnly.db.findErr ≠ some (.other text) := by
    intro text
    have hn : sampleStaleOnly.db.findErr = none := rfl
    rw [hn]
    exact Option.noConfusion
  ⟨h1, h2, ((retrieveAppSettings_ignores_unregistered sampleStaleOnly).2.2 h1 h2).1,
    ((retrieveAppSettings_ignores_unregistered sampleStaleOnly).2.2 h1 h2).2⟩

/-- C12: when the fetch fails with an error other than record-not-found,
`RetrieveAppSettings` returns `Error getting app settings: ` followed by the text of that
error before the override loop: whatever rows the failing fetch hands back, registered or not,
and whatever the set functions of the registry do, the memory of the bound variables is left
as it was. When the fetch yields no rows (an empty result without error, or with the
record-not-found error) it returns no error and leaves the memory as it was. -/
theorem retrieveAppSettings_fetch_outcomes {σ : Type} (w : World σ) :
    (∀ text, w.db.Find.2 = some (.other text) →
      (RetrieveAppSettings w).1 = some ("Error getting app settings: " ++ text) ∧
      (RetrieveAppSettings w).2.vars = w.vars) ∧
    (w.db.Find.1 = [] →
      w.db.Find.2 = none ∨ w.db.Find.2 = some .ErrRecordNotFound →
      (RetrieveAppSettings w).1 = none ∧ (RetrieveAppSettings w).2.vars = w.vars) := by
  refine ⟨?_, ?_⟩
  · intro text hf
    rw [retrieve_unfold]
    rcases hF : w.db.Find with ⟨rows, e⟩
    rw [hF] at hf
    simp only at hf
    subst hf
    exact ⟨rfl, rfl⟩
  · intro hr h
    rw [retrieve_unfold]
    rcases hF : w.db.Find with ⟨rows, e⟩
    rw [hF] at hr h
    simp only at hr h
    subst hr
    rcases h with h | h <;> subst h <;> exact ⟨rfl, rfl⟩

/-- C12 on the sample process with three overrides in a store whose fetch fails: the fetch
hands back the three rows together with the error, the returned error wraps the store error
and no override is applied, although the first row alone would change `foo` (as the pass over
the same rows does when the fetch reports no error). -/
theorem retrieveAppSettings_fetch_outcomes_witness :
    sampleFetchFails.db.Find
      = ([⟨"foo", "hello", ""⟩, ⟨"level", "999", ""⟩, ⟨"port", "9090", ""⟩],
         some (.other "disk I/O error")) ∧
    (RetrieveAppSettings sampleFetchFails).1
      = some "Error getting app settings: disk I/O error" ∧
    (RetrieveAppSettings sampleFetchFails).2.vars = { foo := "x", port := 8080, level := 1 } ∧
    (RetrieveAppSettings
        { sampleFetchFails with db := { sampleFetchFails.db with findErr := none } }).2.vars
      = { foo := "hello", port := 9090, level := 1 } :=
  ⟨rfl,
    ((retrieveAppSettings_fetch_outcomes sampleFetchFails).1 "disk I/O error" rfl).1,
    ((retrieveAppSettings_fetch_outcomes sampleFetchFails).1 "disk I/O error" rfl).2,
    by decide⟩

/-! ## The Defaults snapshot on a second pass, and the Active view -/

theorem retrieve_settings {σ : Type} (w : World σ) : (RetrieveAppSettings w).2.settings = w.settings := by
  rw [retrieve_unfold]
  split <;> rfl

theorem retrieve_defaults {σ : Type} (w : World σ) :
    (RetrieveAppSettings w).2.defaultSettings =
      w.settings.map (fun s =>
        { Key := s.Name, Value := s.GetFunc w.vars, Description := s.Description }) := by
  rw [retrieve_unfold]
  split <;> rfl

/-- C16, evaluated on the sample process with three persisted overrides (compiled defaults
`foo -> x`, `port -> 8080`, `level -> 1`): the first pass of `RetrieveAppSettings` captures
the compiled defaults in `defaultSettings` and applies the overrides of `foo` and `port`; a
second pass empties `defaultSettings` and captures the live values again, so that the list
the code calls the default settings then holds the overrides `foo -> hello` and
`port -> 9090`, and differs from what the first pass captured. -/
theorem second_pass_overwrites_defaults :
    (RetrieveAppSettings sampleThreeOverrides).2.defaultSettings
      = [⟨"foo", "x", "Foo setting"⟩, ⟨"port", "8080", "Listen port"⟩,
         ⟨"level", "1", "Log level"⟩] ∧
    (RetrieveAppSettings (RetrieveAppSettings sampleThreeOverrides).2).2.defaultSettings
      = [⟨"foo", "hello", "Foo setting"⟩, ⟨"port", "9090", "Listen port"⟩,
         ⟨"level", "1", "Log level"⟩] ∧
    ¬ ((RetrieveAppSettings (RetrieveAppSettings sampleThreeOverrides).2).2.defaultSettings
      = (RetrieveAppSettings sampleThreeOverrides).2.defaultSettings) := by
  refine ⟨?_, ?_, ?_⟩ <;> decide

theorem isRegistered_iff_getSetting {σ : Type} (settings : List (Setting σ)) (key : String) :
    isRegistered settings key = true ↔ ∃ s, getSetting settings key = .ok s := by
  rw [getSetting_eq_find]
  cases hf : settings.find? (fun s => s.Name == key) with
  | none =>
    rw [List.find?_eq_none] at hf
    constructor
    · intro h
      obtain ⟨s, hs, hp⟩ := List.any_eq_true.mp h
      exact absurd hp (hf s hs)
    · rintro ⟨s, hs⟩
      cases hs
  | some s =>
    constructor
    · intro _; exact ⟨s, rfl⟩
    · intro _
      exact List.any_eq_true.mpr ⟨s, List.mem_of_find?_eq_some hf,
        List.find?_some (p := fun (s : Setting σ) => s.Name == key) hf⟩

theorem superimpose_key {σ : Type} (settings : List (Setting σ)) (saved : List AppSetting)
    (d : AppSetting) : (superimpose settings saved d).Key = d.Key := by
  unfold superimpose
  split <;> rfl

theorem foldl_active {σ : Type} (settings : List (Setting σ)) (saved : List AppSetting)
    (init : List AppSetting) :
    saved.foldl
      (fun active ss =>
        match getSetting settings ss.Key with
        | .error _ => active
        | .ok setting =>
          active.map (fun as =>
            if as.Key == ss.Key then
              { as with Value := ss.Value, Description := setting.Description }
            else as))
      init = init.map (superimpose settings saved) := by
  induction saved using List.reverseRecOn with
  | nil =>
    simp only [List.foldl_nil]
    have : superimpose settings ([] : List AppSetting) = id := by
      funext d; simp [superimpose]
    rw [this, List.map_id]
  | append_singleton rows r ih =>
    rw [List.foldl_append, List.foldl_cons, List.foldl_nil, ih]
    cases hg : getSetting settings r.Key with
    | error e =>
      have hreg : isRegistered settings r.Key = false := by
        cases h : isRegistered settings r.Key with
        | false => rfl
        | true =>
          obtain ⟨s, hs⟩ := (isRegistered_iff_getSetting settings r.Key).mp h
          rw [hg] at hs; cases hs
      simp only
      apply List.map_congr_left
      intro d _
      simp [superimpose, List.reverse_append, List.find?_cons, hreg]
    | ok st =>
      have hreg : isRegistered settings r.Key = true :=
        (isRegistered_iff_getSetting settings r.Key).mpr ⟨st, hg⟩
      simp only [List.map_map]
      apply List.map_congr_left
      intro d _
      simp only [Function.comp, superimpose_key]
      by_cases hk : (d.Key == r.Key) = true
      · simp only [hk, if_true]
        conv_rhs => rw [superimpose]
        simp only [List.reverse_append, List.reverse_cons, List.reverse_nil, List.nil_append,
          List.singleton_append, List.find?_cons, hk, hreg, Bool.and_self]
        simp only [lookupDescription, hg]
      · simp only [hk, if_false]
        conv_rhs => rw [superimpose]
        simp only [List.reverse_append, List.reverse_cons, List.reverse_nil, List.nil_append,
          List.singleton_append, List.find?_cons, hk, Bool.false_and]
        rfl


theorem retrieve_db {σ : Type} (w : World σ) : (RetrieveAppSettings w).2.db = w.db := by
  rw [retrieve_unfold]
  split <;> rfl

theorem listActive_table {σ : Type} (pdqsort : List AppSetting → List AppSetting) (w : World σ)
    (hfind : ∀ text, w.db.findErr ≠ some (.other text)) :
    (SettingsListActiveCommand.Run pdqsort w).table
      = some (printSettings pdqsort
          (w.defaultSettings.map (superimpose w.settings w.db.Find.1))) := by
  unfold SettingsListActiveCommand.Run
  rcases hF : w.db.Find with ⟨rows, e⟩
  have he : ∀ text, e ≠ some (.other text) := by
    intro text h
    subst h
    unfold Store.Find at hF
    cases hf : w.db.findErr with
    | none => simp [hf] at hF
    | some e2 =>
      simp only [hf, Prod.mk.injEq, Option.some.injEq] at hF
      exact hfind text (by rw [hf, hF.2])
  cases e with
  | none => simp only [foldl_active]
  | some e2 =>
    cases e2 with
    | other text => exact absurd rfl (he text)
    | ErrRecordNotFound => simp only [foldl_active]

theorem superimpose_default {σ : Type} (settings : List (Setting σ)) (saved : List AppSetting)
    (s : Setting σ) (hs : s ∈ settings) (value : String) :
    superimpose settings saved { Key := s.Name, Value := value, Description := s.Description }
      = match saved.reverse.find? (fun r => r.Key == s.Name) with
        | some r =>
          { Key := s.Name, Value := r.Value,
            Description := lookupDescription settings s.Name s.Description }
        | none => { Key := s.Name, Value := value, Description := s.Description } := by
  have hpred : (fun r : AppSetting => s.Name == r.Key && isRegistered settings r.Key)
      = (fun r : AppSetting => r.Key == s.Name) := by
    funext r
    by_cases h : r.Key = s.Name
    · have hreg : isRegistered settings s.Name = true :=
        List.any_eq_true.mpr ⟨s, hs, by simp⟩
      simp [h, hreg]
    · have h2 : ¬ s.Name = r.Key := fun e => h e.symm
      have h3 : (r.Key == s.Name) = false := by simpa using h
      have h4 : (s.Name == r.Key) = false := by simpa using h2
      show (s.Name == r.Key && isRegistered settings r.Key) = (r.Key == s.Name)
      rw [h3, h4, Bool.false_and]
  unfold superimpose
  simp only [hpred]
  cases hf : saved.reverse.find? (fun r => r.Key == s.Name) with
  | none => rfl
  | some r =>
    have hk : r.Key = s.Name := by
      simpa using List.find?_some (p := fun (r : AppSetting) => r.Key == s.Name) hf
    simp only [hk]

theorem compareChars_total (a b : List Char) :
    compareChars a b ≤ 0 ∨ compareChars b a ≤ 0 := by
  induction a generalizing b with
  | nil => cases b <;> simp [compareChars]
  | cons x xs ih =>
    cases b with
    | nil => simp [compareChars]
    | cons y ys =>
      simp only [compareChars]
      by_cases h1 : x.toNat < y.toNat
      · simp [h1]
      · by_cases h2 : y.toNat < x.toNat
        · simp [h2]
        · simp only [h1, h2, if_false]
          exact ih ys

theorem compareChars_trans (a b c : List Char)
    (hab : compareChars a b ≤ 0) (hbc : compareChars b c ≤ 0) : compareChars a c ≤ 0 := by
  induction a generalizing b c with
  | nil => cases c <;> simp [compareChars]
  | cons x xs ih =>
    cases b with
    | nil => simp [compareChars] at hab
    | cons y ys =>
      cases c with
      | nil => simp [compareChars] at hbc
      | cons z zs =>
        simp only [compareChars] at hab hbc ⊢
        by_cases h1 : x.toNat < y.toNat
        · by_cases h3 : y.toNat < z.toNat
          · have : x.toNat < z.toNat := by omega
            simp [this]
          · by_cases h4 : z.toNat < y.toNat
            · simp [h3, h4] at hbc
            · have : x.toNat < z.toNat := by omega
              simp [this]
        · by_cases h2 : y.toNat < x.toNat
          · simp [h1, h2] at hab
          · simp only [h1, h2, if_false] at hab
            by_cases h3 : y.toNat < z.toNat
            · have : x.toNat < z.toNat := by omega
              simp [this]
            · by_cases h4 : z.toNat < y.toNat
              · simp [h3, h4] at hbc
              · simp only [h3, h4, if_false] at hbc
                have h5 : ¬ x.toNat < z.toNat := by omega
                have h6 : ¬ z.toNat < x.toNat := by omega
                simp only [h5, h6, if_false]
                exact ih ys zs hab hbc

theorem insertionSort_sorted (l : List AppSetting) : (l.insertionSort keyLE).Sorted keyLE :=
  @List.sorted_insertionSort _ keyLE _
    ⟨fun a b => compareChars_total a.Key.toList b.Key.toList⟩
    ⟨fun a b c => compareChars_trans a.Key.toList b.Key.toList c.Key.toList⟩ l

theorem stableSort_sortsByKey : SortsByKey stableSort :=
  fun l => ⟨insertionSort_sorted l, List.perm_insertionSort keyLE l⟩

theorem printSettings_sorted (pdqsort : List AppSetting → List AppSetting)
    (l : List AppSetting) (hsort : l.length ≤ 12 ∨ SortsByKey pdqsort) :
    (printSettings pdqsort l).Sorted keyLE := by
  unfold printSettings
  split
  · exact insertionSort_sorted l
  · rename_i hlen
    rcases hsort with h | h
    · exact absurd h hlen
    · exact (h l).1

theorem printSettings_perm (pdqsort : List AppSetting → List AppSetting)
    (l : List AppSetting) (hsort : l.length ≤ 12 ∨ SortsByKey pdqsort) :
    (printSettings pdqsort l).Perm l := by
  unfold printSettings
  split
  · exact List.perm_insertionSort keyLE l
  · rename_i hlen
    rcases hsort with h | h
    · exact absurd h hlen
    · exact (h l).2

/-- C17, refuted on the sample process with three persisted overrides after a pass: the
override `level -> 999` was rejected and the live value of `level` is `1`, yet the Active
view reports `level -> 999`, whatever the sort does to long slices. -/
theorem listActive_reports_rejected_override_counterexample :
    ((int8Setting sampleQuote "level" "Log level" levelPtr).SetFunc "999"
      sampleThreeOverrides.vars).1 ≠ none ∧
    (∀ pdqsort : List AppSetting → List AppSetting,
      (SettingsListActiveCommand.Run pdqsort (RetrieveAppSettings sampleThreeOverrides).2).table
        = some [⟨"foo", "hello", "Foo setting"⟩, ⟨"level", "999", "Log level"⟩,
                ⟨"port", "9090", "Listen port"⟩]) ∧
    (GetRunningSettings (RetrieveAppSettings sampleThreeOverrides).2).2.1
      = [⟨"foo", "hello", "Foo setting"⟩, ⟨"port", "9090", "Listen port"⟩,
         ⟨"level", "1", "Log level"⟩] ∧
    (∀ pdqsort : List AppSetting → List AppSetting,
      ¬ (∀ rows, (SettingsListActiveCommand.Run pdqsort
            (RetrieveAppSettings sampleThreeOverrides).2).table = some rows →
          ∀ row ∈ rows, ∀ s, getSetting sampleThreeOverrides.settings row.Key = .ok s →
            row.Value = s.GetFunc (RetrieveAppSettings sampleThreeOverrides).2.vars)) := by
  have htable : ∀ pdqsort : List AppSetting → List AppSetting,
      (SettingsListActiveCommand.Run pdqsort (RetrieveAppSettings sampleThreeOverrides).2).table
        = some [⟨"foo", "hello", "Foo setting"⟩, ⟨"level", "999", "Log level"⟩,
                ⟨"port", "9090", "Listen port"⟩] := by
    intro pdqsort
    rw [listActive_small pdqsort stableSort _ (by decide)]
    decide
  refine ⟨by decide, htable, by decide, ?_⟩
  intro pdqsort h
  have h1 := h [⟨"foo", "hello", "Foo setting"⟩, ⟨"level", "999", "Log level"⟩,
    ⟨"port", "9090", "Listen port"⟩] (htable pdqsort) ⟨"level", "999", "Log level"⟩ (by decide)
    (int8Setting sampleQuote "level" "Log level" levelPtr) rfl
  revert h1
  decide

/-- C17 as amended: after a reconciliation pass whose fetch did not fail, the Active view
lists one entry per registered setting, in the order the sort of `printSettings` leaves them:
when the store holds a row with the key of the setting (the last such row), the entry carries
the saved value of that row, whether the set function accepted that value or rejected it, and
the description of the setting the key resolves to; otherwise it is the entry of the Defaults
snapshot, the value `get` returned before the pass. With at most twelve registered settings,
or the sort of a longer slice doing what the library documents, the table is sorted by key
and is a rearrangement of these entries. -/
theorem listActive_superimposes_saved {σ : Type} (pdqsort : List AppSetting → List AppSetting)
    (w : World σ) (hfind : ∀ text, w.db.findErr ≠ some (.other text)) :
    (SettingsListActiveCommand.Run pdqsort (RetrieveAppSettings w).2).table
      = some (printSettings pdqsort (w.settings.map (fun s =>
          match w.db.Find.1.reverse.find? (fun r => r.Key == s.Name) with
          | some r =>
            { Key := s.Name, Value := r.Value,
              Description := lookupDescription w.settings s.Name s.Description }
          | none =>
            { Key := s.Name, Value := s.GetFunc w.vars, Description := s.Description }))) ∧
    (w.settings.length ≤ 12 ∨ SortsByKey pdqsort →
      ∃ table,
        (SettingsListActiveCommand.Run pdqsort (RetrieveAppSettings w).2).table = some table ∧
        table.Sorted keyLE ∧
        table.Perm (w.settings.map (fun s =>
          match w.db.Find.1.reverse.find? (fun r => r.Key == s.Name) with
          | some r =>
            { Key := s.Name, Value := r.Value,
              Description := lookupDescription w.settings s.Name s.Description }
          | none =>
            { Key := s.Name, Value := s.GetFunc w.vars, Description := s.Description }))) := by
  have h : (SettingsListActiveCommand.Run pdqsort (RetrieveAppSettings w).2).table
      = some (printSettings pdqsort (w.settings.map (fun s =>
          match w.db.Find.1.reverse.find? (fun r => r.Key == s.Name) with
          | some r =>
            { Key := s.Name, Value := r.Value,
              Description := lookupDescription w.settings s.Name s.Description }
          | none =>
            { Key := s.Name, Value := s.GetFunc w.vars, Description := s.Description }))) := by
    rw [listActive_table pdqsort _ (by rw [retrieve_db]; exact hfind), retrieve_defaults,
      retrieve_db, retrieve_settings, List.map_map]
    congr 2
    apply List.map_congr_left
    intro s hs
    exact superimpose_default w.settings w.db.Find.1 s hs _
  have hlen : ∀ hsort : w.settings.length ≤ 12 ∨ SortsByKey pdqsort,
      (w.settings.map (fun s =>
          match w.db.Find.1.reverse.find? (fun r => r.Key == s.Name) with
          | some r =>
            ({ Key := s.Name, Value := r.Value,
               Description := lookupDescription w.settings s.Name s.Description } : AppSetting)
          | none =>
            { Key := s.Name, Value := s.GetFunc w.vars,
              Description := s.Description })).length ≤ 12 ∨ SortsByKey pdqsort := by
    intro hsort
    rw [List.length_map]
    exact hsort
  refine ⟨h, fun hsort => ⟨_, h, printSettings_sorted pdqsort _ (hlen hsort),
    printSettings_perm pdqsort _ (hlen hsort)⟩⟩

/-- C17 as amended, on the sample process with three overrides: the fetch does not fail,
and the Active view reports the three saved values, the rejected `999` included. -/
theorem listActive_superimposes_saved_witness :
    (∀ text, sampleThreeOverrides.db.findErr ≠ some (.other text)) ∧
    (SettingsListActiveCommand.Run stableSort (RetrieveAppSettings sampleThreeOverrides).2).table
      = some [⟨"foo", "hello", "Foo setting"⟩, ⟨"level", "999", "Log level"⟩,
              ⟨"port", "9090", "Listen port"⟩] :=
  have h : ∀ text, sampleThreeOverrides.db.findErr ≠ some (.other text) := by
    intro text
    have hn : sampleThreeOverrides.db.findErr = none := rfl
    rw [hn]
    exact Option.noConfusion
  ⟨h, ((listActive_superimposes_saved stableSort sampleThreeOverrides h).1).trans (by decide)⟩

/-! ## The Saved view -/

theorem listSaved_run {σ : Type} (pdqsort : List AppSetting → List AppSetting) (w : World σ)
    (hfind : w.db.findErr = none) :
    SettingsListSavedCommand.Run pdqsort w =
      { err := none,
        table := some (printSettings pdqsort (w.db.rows.map (fun row =>
          { Key := row.1, Value := row.2,
            Description :=
              match getSetting w.settings row.1 with
              | .ok setting => setting.Description
              | .error _ => "" }))),
        world := w } := by
  unfold SettingsListSavedCommand.Run
  simp only [Store.Find, hfind, List.map_map]
  congr 3
  apply List.map_congr_left
  intro row _
  simp only [Function.comp]
  cases getSetting w.settings row.1 <;> rfl

/-- C18: when the fetch does not fail, `SettingsListSavedCommand.Run` returns no error,
leaves the state as it was, and prints a table that is sorted by key and is a rearrangement
of the persisted rows, one entry per row whether or not its key is registered, each with the
key and the value as stored; the description is that of the setting the key resolves to
when the key is registered, and empty when it is not. For a store of more than twelve rows
the sort of the slice is taken to do what the library documents. -/
theorem listSaved_reports_every_row {σ : Type} (pdqsort : List AppSetting → List AppSetting)
    (w : World σ) (hfind : w.db.findErr = none)
    (hsort : w.db.rows.length ≤ 12 ∨ SortsByKey pdqsort) :
    (SettingsListSavedCommand.Run pdqsort w).err = none ∧
    (SettingsListSavedCommand.Run pdqsort w).world = w ∧
    ∃ table, (SettingsListSavedCommand.Run pdqsort w).table = some table ∧
      table.Sorted keyLE ∧
      table.Perm (w.db.rows.map (fun row =>
        { Key := row.1, Value := row.2,
          Description :=
            match getSetting w.settings row.1 with
            | .ok setting => setting.Description
            | .error _ => "" })) := by
  rw [listSaved_run pdqsort w hfind]
  have hlen : (w.db.rows.map (fun row =>
      ({ Key := row.1, Value := row.2,
         Description :=
           match getSetting w.settings row.1 with
           | .ok setting => setting.Description
           | .error _ => "" } : AppSetting))).length ≤ 12 ∨ SortsByKey pdqsort := by
    rw [List.length_map]
    exact hsort
  exact ⟨rfl, rfl, _, rfl, printSettings_sorted pdqsort _ hlen, printSettings_perm pdqsort _ hlen⟩

/-- C18 on the sample process: three rows, one of an unregistered key, listed by key with
the descriptions of the two registered settings. -/
theorem listSaved_reports_every_row_witness :
    sampleSavedRows.db.findErr = none ∧
    (sampleSavedRows.db.rows.length ≤ 12 ∨ SortsByKey stableSort) ∧
    SortsByKey stableSort ∧
    (SettingsListSavedCommand.Run stableSort sampleSavedRows).err = none ∧
    (SettingsListSavedCommand.Run stableSort sampleSavedRows).table
      = some [⟨"foo", "y", "Foo setting"⟩, ⟨"port", "9090", "Listen port"⟩,
              ⟨"zzz_stale", "1", ""⟩] :=
  ⟨rfl, Or.inl (by decide), stableSort_sortsByKey,
    (listSaved_reports_every_row stableSort sampleSavedRows rfl (Or.inl (by decide))).1,
    by decide⟩

/-! ## The variables handed to the command-line parser -/

theorem mem_upsert_iff (k x : String) (rows : List (String × String))
    (h : (rows.map Prod.fst).Nodup) (n v : String) :
    (n, v) ∈ upsert k x rows ↔ (n = k ∧ v = x) ∨ (n ≠ k ∧ (n, v) ∈ rows) := by
  have hk := upsert_filter_key k x rows h
  have ho := upsert_filter_other k x rows
  by_cases hn : n = k
  · subst hn
    have : (n, v) ∈ upsert n x rows ↔ (n, v) ∈ (upsert n x rows).filter (fun r => r.1 == n) := by
      rw [List.mem_filter]; simp
    rw [this, hk]
    simp
  · have : (n, v) ∈ upsert k x rows ↔
        (n, v) ∈ (upsert k x rows).filter (fun r => !(r.1 == k)) := by
      rw [List.mem_filter]; simp [hn]
    rw [this, ho, List.mem_filter]
    simp [hn]

theorem foldl_upsert_spec {σ : Type} (f : Setting σ → String) (l : List (Setting σ)) :
    ((l.foldl (fun vars s => upsert s.Name (f s) vars) []).map Prod.fst).Nodup ∧
    ∀ n v, (n, v) ∈ l.foldl (fun vars s => upsert s.Name (f s) vars) [] ↔
      ∃ s, l.reverse.find? (fun s => s.Name == n) = some s ∧ v = f s := by
  induction l using List.reverseRecOn with
  | nil => simp
  | append_singleton l s ih =>
    rw [List.foldl_append, List.foldl_cons, List.foldl_nil]
    refine ⟨upsert_keys_nodup _ _ _ ih.1, ?_⟩
    intro n v
    rw [mem_upsert_iff _ _ _ ih.1, ih.2, List.reverse_append, List.reverse_cons,
      List.reverse_nil, List.nil_append, List.singleton_append, List.find?_cons]
    by_cases hn : s.Name = n
    · subst hn
      simp
    · have hn2 : ¬ n = s.Name := fun e => hn e.symm
      have hb : (s.Name == n) = false := by simpa using hn
      simp [hn2, hb]

/-- C20: `SettingsVars` changes no state and returns a map whose keys are exactly the
registered names, each once, and which maps a name to what `get` of the last-registered
setting of that name returns in the current memory, whereas `getSetting` resolves the name
to the first-registered one; after a successful save of `n` the map of the resulting state
binds `n` to what `get` of the last setting named `n` returns in the memory the set
function produced. -/
theorem settingsVars_maps_names_to_live_values {σ : Type} (w : World σ) :
    (SettingsVars w).2 = w ∧
    ((SettingsVars w).1.map Prod.fst).Nodup ∧
    (∀ n, n ∈ (SettingsVars w).1.map Prod.fst ↔ ∃ s ∈ w.settings, s.Name = n) ∧
    (∀ n v, (n, v) ∈ (SettingsVars w).1 ↔
      ∃ s, w.settings.reverse.find? (fun s => s.Name == n) = some s ∧
        v = s.GetFunc w.vars) ∧
    (∀ n s, getSetting w.settings n = .ok s ↔
      w.settings.find? (fun s => s.Name == n) = some s) ∧
    (∀ n v s t, getSetting w.settings n = .ok s → (s.SetFunc v w.vars).1 = none →
      w.db.saveErr = none →
      w.settings.reverse.find? (fun s => s.Name == n) = some t →
      (n, t.GetFunc (s.SetFunc v w.vars).2)
        ∈ (SettingsVars (SettingsSaveCommand.Run ⟨n, v⟩ w).world).1) := by
  have hspec := foldl_upsert_spec (fun s : Setting σ => s.GetFunc w.vars) w.settings
  refine ⟨rfl, hspec.1, ?_, hspec.2, ?_, ?_⟩
  · intro n
    rw [List.mem_map]
    constructor
    · rintro ⟨⟨k, v⟩, hmem, rfl⟩
      obtain ⟨s, hs, -⟩ := (hspec.2 k v).mp hmem
      have hmem2 := List.mem_of_find?_eq_some hs
      have hname := List.find?_some (p := fun (s : Setting σ) => s.Name == k) hs
      exact ⟨s, List.mem_reverse.mp hmem2, by simpa using hname⟩
    · rintro ⟨s, hs, rfl⟩
      cases hf : w.settings.reverse.find? (fun t => t.Name == s.Name) with
      | none =>
        rw [List.find?_eq_none] at hf
        exact absurd (by simp) (hf s (List.mem_reverse.mpr hs))
      | some t =>
        exact ⟨(s.Name, t.GetFunc w.vars), (hspec.2 _ _).mpr ⟨t, hf, rfl⟩, rfl⟩
  · intro n s
    rw [getSetting_eq_find]
    cases w.settings.find? (fun s => s.Name == n) <;> simp
  · intro n v s t hs hacc hsave ht
    rw [save_run_of_accepted w n v s hs hacc hsave]
    have hspec2 := foldl_upsert_spec
      (fun s0 : Setting σ => s0.GetFunc (s.SetFunc v w.vars).2) w.settings
    exact (hspec2.2 n _).mpr ⟨t, ht, rfl⟩

/-- C20 on the sample process with `port` registered twice: the map binds `port` to the
value of the second setting, lookup resolves `port` to the first, and after `save foo y`
the map binds `foo` to `y`. -/
theorem settingsVars_maps_names_to_live_values_witness :
    (SettingsVars sampleDuplicate).1 = [("foo", "x"), ("port", "1"), ("level", "1")] ∧
    getSetting sampleDuplicate.settings "port"
      = .ok (intSetting sampleQuote "port" "Listen port" portPtr) ∧
    getSetting sampleDuplicate.settings "foo"
      = .ok (stringSetting "foo" "Foo setting" fooPtr) ∧
    ((stringSetting "foo" "Foo setting" fooPtr).SetFunc "y" sampleDuplicate.vars).1 = none ∧
    sampleDuplicate.db.saveErr = none ∧
    ("foo", "y") ∈ (SettingsVars (SettingsSaveCommand.Run ⟨"foo", "y"⟩ sampleDuplicate).world).1 :=
  ⟨by decide, rfl, rfl, rfl, rfl,
    (settingsVars_maps_names_to_live_values sampleDuplicate).2.2.2.2.2 "foo" "y"
      (stringSetting "foo" "Foo setting" fooPtr) (stringSetting "foo" "Foo setting" fooPtr)
      rfl rfl rfl rfl⟩

/-! ## The string-list setting -/

theorem splitComma_ne_nil (cs : List Char) : splitComma cs ≠ [] := by
  cases cs with
  | nil => simp [splitComma]
  | cons c cs =>
    unfold splitComma
    split
    · simp
    · split <;> simp

theorem splitComma_length (cs : List Char) :
    (splitComma cs).length = cs.count ',' + 1 := by
  induction cs with
  | nil => simp [splitComma]
  | cons c cs ih =>
    unfold splitComma
    by_cases hc : c = ','
    · subst hc
      simp [ih]
    · have h2 : ¬ (',' = c) := fun e => hc e.symm
      simp only [hc, if_false]
      rw [List.count_cons_of_ne h2, ← ih]
      cases h : splitComma cs with
      | nil => exact absurd h (splitComma_ne_nil cs)
      | cons p ps => simp

theorem splitComma_no_comma (cs : List Char) : ∀ p ∈ splitComma cs, ',' ∉ p := by
  induction cs with
  | nil => simp [splitComma]
  | cons c cs ih =>
    unfold splitComma
    by_cases hc : c = ','
    · subst hc
      intro p hp
      simp only [if_true, List.mem_cons] at hp
      rcases hp with rfl | hp
      · simp
      · exact ih p hp
    · simp only [hc, if_false]
      cases h : splitComma cs with
      | nil => exact absurd h (splitComma_ne_nil cs)
      | cons q qs =>
        rw [h] at ih
        intro p hp
        simp only [List.mem_cons] at hp
        rcases hp with rfl | hp
        · intro hmem
          rcases List.mem_cons.mp hmem with e | hmem
          · exact hc e.symm
          · exact ih q (List.mem_cons_self _ _) hmem
        · exact ih p (List.mem_cons_of_mem _ hp)

theorem join_splitComma (cs : List Char) :
    (Join ((splitComma cs).map String.mk)).data = cs := by
  induction cs with
  | nil => rfl
  | cons c cs ih =>
    unfold splitComma
    by_cases hc : c = ','
    · subst hc
      simp only [if_true]
      cases h : splitComma cs with
      | nil => exact absurd h (splitComma_ne_nil cs)
      | cons p ps =>
        rw [h] at ih
        simp only [List.map_cons, Join, String.data_append]
        rw [← List.map_cons, ih]
        rfl
    · simp only [hc, if_false]
      cases h : splitComma cs with
      | nil => exact absurd h (splitComma_ne_nil cs)
      | cons p ps =>
        rw [h] at ih
        cases ps with
        | nil =>
          simp only [List.map_cons, List.map_nil, Join] at ih ⊢
          rw [← ih]
        | cons q qs =>
          simp only [List.map_cons, Join, String.data_append] at ih ⊢
          rw [← ih]
          rfl

theorem join_split (s : String) : Join (Split s) = s :=
  String.ext (join_splitComma s.data)

/-- C14: for a string-list setting bound to a variable that reads back what is stored in
it, `set("")` returns no error and leaves the bound list empty, which is not what splitting
the empty string gives (the one-element list of the empty string); for a non-empty `s`,
`set(s)` returns no error and leaves the bound list equal to `s` split at every comma: one
piece more than `s` has commas, no piece containing a comma, and the pieces joined by commas
giving `s` back. -/
theorem stringSlice_set_splits_at_commas {σ : Type} (name description : String)
    (prop : Ptr σ (List String)) (hprop : ∀ a m, prop.load (prop.store a m) = a)
    (s : String) (m : σ) :
    ((stringSliceSetting name description prop).SetFunc "" m).1 = none ∧
    prop.load ((stringSliceSetting name description prop).SetFunc "" m).2 = [] ∧
    Split "" = [""] ∧
    (s ≠ "" →
      ((stringSliceSetting name description prop).SetFunc s m).1 = none ∧
      prop.load ((stringSliceSetting name description prop).SetFunc s m).2 = Split s) ∧
    (Split s).length = s.toList.count ',' + 1 ∧
    (∀ piece ∈ Split s, ',' ∉ piece.toList) ∧
    Join (Split s) = s := by
  refine ⟨rfl, ?_, rfl, ?_, ?_, ?_, join_split s⟩
  · simp [stringSliceSetting, hprop]
  · intro hs
    simp [stringSliceSetting, hs, hprop]
  · simp [Split, splitComma_length]
  · intro piece hp
    obtain ⟨p, hp2, rfl⟩ := List.mem_map.mp hp
    exact splitComma_no_comma s.toList p hp2

/-- C14 on a list variable holding `old`: `set("")` empties it and `set("a,,b")` leaves the
three pieces `a`, the empty string and `b`. -/
theorem stringSlice_set_splits_at_commas_witness :
    (∀ (a m : List String), (selfPtr (List String)).load ((selfPtr (List String)).store a m) = a) ∧
    (selfPtr (List String)).load
      ((stringSliceSetting "tags" "Tags" (selfPtr (List String))).SetFunc "" ["old"]).2 = [] ∧
    (selfPtr (List String)).load
      ((stringSliceSetting "tags" "Tags" (selfPtr (List String))).SetFunc "a,,b" ["old"]).2
        = ["a", "", "b"] :=
  ⟨fun _ _ => rfl,
    (stringSlice_set_splits_at_commas "tags" "Tags" (selfPtr (List String))
      (fun _ _ => rfl) "a,,b" ["old"]).2.1,
    ((stringSlice_set_splits_at_commas "tags" "Tags" (selfPtr (List String))
      (fun _ _ => rfl) "a,,b" ["old"]).2.2.2.1 (by decide)).2.trans (by decide)⟩

/-! ## The integer settings: round trip -/

theorem digitChar_toNat (d : Nat) (h : d < 10) : (Nat.digitChar d).toNat = 48 + d := by
  interval_cases d <;> rfl

theorem decimalValueFrom_append (n : Nat) (l : List Char) (c : Char) :
    decimalValueFrom n (l ++ [c]) = 10 * decimalValueFrom n l + (c.toNat - 48) := by
  simp [decimalValueFrom, List.foldl_append]

theorem toDigitsCore_spec (fuel n : Nat) (ds : List Char) (h : n < fuel) :
    ∃ l, Nat.toDigitsCore 10 fuel n ds = l ++ ds ∧ l ≠ [] ∧
      (∀ c ∈ l, 48 ≤ c.toNat ∧ c.toNat ≤ 57) ∧ decimalValue l = n := by
  induction fuel generalizing n ds with
  | zero => omega
  | succ fuel ih =>
    unfold Nat.toDigitsCore
    have hd : (Nat.digitChar (n % 10)).toNat = 48 + n % 10 :=
      digitChar_toNat _ (Nat.mod_lt _ (by norm_num))
    by_cases h0 : n / 10 = 0
    · simp only [h0, if_true]
      refine ⟨[Nat.digitChar (n % 10)], rfl, by simp, ?_, ?_⟩
      · intro c hc
        rw [List.mem_singleton] at hc
        subst hc
        omega
      · simp only [decimalValue, decimalValueFrom, List.foldl_cons, List.foldl_nil, hd]
        omega
    · simp only [h0, if_false]
      obtain ⟨l, hl, hne, hdig, hval⟩ := ih (n / 10) (Nat.digitChar (n % 10) :: ds) (by omega)
      refine ⟨l ++ [Nat.digitChar (n % 10)], by rw [hl]; simp, by simp, ?_, ?_⟩
      · intro c hc
        rcases List.mem_append.mp hc with hc | hc
        · exact hdig c hc
        · rw [List.mem_singleton] at hc
          subst hc
          omega
      · unfold decimalValue at hval ⊢
        rw [decimalValueFrom_append, hval, hd]
        omega

theorem repr_digits (v : Nat) :
    (Nat.repr v).data ≠ [] ∧ (∀ c ∈ (Nat.repr v).data, 48 ≤ c.toNat ∧ c.toNat ≤ 57) ∧
    decimalValue (Nat.repr v).data = v := by
  obtain ⟨l, hl, hne, hdig, hval⟩ := toDigitsCore_spec (v + 1) v [] (by omega)
  have : (Nat.repr v).data = l := by
    simp only [Nat.repr, Nat.toDigits, List.asString, hl, List.append_nil]
  rw [this]
  exact ⟨hne, hdig, hval⟩

theorem le_decimalValueFrom (n : Nat) (l : List Char) : n ≤ decimalValueFrom n l := by
  induction l generalizing n with
  | nil => exact le_refl _
  | cons c t ih =>
    have := ih (10 * n + (c.toNat - 48))
    simp only [decimalValueFrom, List.foldl_cons] at this ⊢
    omega

theorem parseUintLoop_complete (maxVal : Nat) (l : List Char) (n : Nat)
    (hdig : ∀ c ∈ l, 48 ≤ c.toNat ∧ c.toNat ≤ 57)
    (hval : decimalValueFrom n l ≤ maxVal) (hmax : maxVal < 2 ^ 64) :
    parseUintLoop maxVal l n = (decimalValueFrom n l, none) := by
  induction l generalizing n with
  | nil => rfl
  | cons c t ih =>
    have hc := hdig c (List.mem_cons_self _ _)
    have hstep : decimalValueFrom n (c :: t) = decimalValueFrom (10 * n + (c.toNat - 48)) t :=
      rfl
    rw [hstep] at hval ⊢
    have hle := le_decimalValueFrom (10 * n + (c.toNat - 48)) t
    have hn : n * 10 + (c.toNat - 48) < 2 ^ 64 := by omega
    unfold parseUintLoop
    have hcut : ¬ n ≥ (2 ^ 64 - 1) / 10 + 1 := by omega
    have hm1 : n * 10 % 2 ^ 64 = n * 10 := Nat.mod_eq_of_lt (by omega)
    have hm2 : (n * 10 + (c.toNat - 48)) % 2 ^ 64 = n * 10 + (c.toNat - 48) :=
      Nat.mod_eq_of_lt hn
    simp only [hc, and_self, if_true, hcut, if_false, hm1, hm2]
    have hov : ¬ (n * 10 + (c.toNat - 48) < n * 10 ∨ n * 10 + (c.toNat - 48) > maxVal) := by
      omega
    simp only [hov, if_false]
    have h10 : n * 10 + (c.toNat - 48) = 10 * n + (c.toNat - 48) := by omega
    rw [h10]
    exact ih _ (fun x hx => hdig x (List.mem_cons_of_mem _ hx)) hval

theorem ParseUint_of_digits (l : List Char) (bitSize : Nat) (hne : l ≠ [])
    (hdig : ∀ c ∈ l, 48 ≤ c.toNat ∧ c.toNat ≤ 57)
    (hval : decimalValue l ≤ 2 ^ bitSize - 1) (hb : bitSize ≤ 64) :
    ParseUint (String.mk l) bitSize = (decimalValue l, none) := by
  have hmax : 2 ^ bitSize - 1 < 2 ^ 64 := by
    have : 2 ^ bitSize ≤ 2 ^ 64 := Nat.pow_le_pow_right (by norm_num) hb
    have : 0 < 2 ^ bitSize := Nat.two_pow_pos bitSize
    omega
  unfold ParseUint
  have hs : ¬ (String.mk l = "") := by
    intro h
    apply hne
    have := congrArg String.data h
    simpa using this
  simp only [hs, if_false]
  have : (String.mk l).toList = l := rfl
  rw [this, parseUintLoop_complete _ l 0 hdig hval hmax]
  rfl

theorem ParseUint_FormatUint (v bitSize : Nat) (hv : v ≤ 2 ^ bitSize - 1) (hb : bitSize ≤ 64) :
    ParseUint (FormatUint v) bitSize = (v, none) := by
  obtain ⟨hne, hdig, hval⟩ := repr_digits v
  have := ParseUint_of_digits (Nat.repr v).data bitSize hne hdig (by rw [hval]; exact hv) hb
  rw [hval] at this
  exact this

theorem toSigned_of_range (bits : Nat) (hb : 1 ≤ bits) (i : Int)
    (hlo : -((2 ^ (bits - 1) : Nat) : Int) ≤ i) (hhi : i ≤ ((2 ^ (bits - 1) : Nat) : Int) - 1) :
    toSigned bits i = i := by
  have hdouble : (2 : Int) ^ bits = 2 ^ (bits - 1) * 2 := by
    rw [← pow_succ]
    congr 1
    omega
  unfold toSigned
  rw [hdouble]
  push_cast at hlo hhi
  rw [Int.emod_eq_of_lt (by omega) (by omega)]
  omega

theorem toSigned64_neg (v : Nat) (hv : v ≤ 2 ^ 63) :
    toSigned 64 (-(toSigned 64 (v : Int))) = -(v : Int) := by
  unfold toSigned
  norm_num
  omega

theorem toSigned64_nat (v : Nat) (hv : v < 2 ^ 63) : toSigned 64 (v : Int) = v := by
  unfold toSigned
  norm_num
  omega

theorem digit_ne_sign (c : Char) (h : 48 ≤ c.toNat ∧ c.toNat ≤ 57) : ¬ (c = '+' ∨ c = '-') := by
  rintro (rfl | rfl) <;> simp at h

theorem ParseInt_FormatInt (i : Int) (bitSize : Nat) (hb : 2 ≤ bitSize) (hb2 : bitSize ≤ 64)
    (hlo : -((2 ^ (bitSize - 1) : Nat) : Int) ≤ i)
    (hhi : i ≤ ((2 ^ (bitSize - 1) : Nat) : Int) - 1) :
    ParseInt (FormatInt i) bitSize = (i, none) := by
  have hpow : 2 ^ (bitSize - 1) ≤ 2 ^ 63 := Nat.pow_le_pow_right (by norm_num) (by omega)
  have hdouble : 2 ^ bitSize = 2 ^ (bitSize - 1) * 2 := by
    rw [← pow_succ]
    congr 1
    omega
  have hone : 1 ≤ 2 ^ (bitSize - 1) := Nat.one_le_two_pow
  obtain ⟨hne, hdig, hval⟩ := repr_digits i.natAbs
  unfold ParseInt FormatInt
  by_cases hneg : i < 0
  · simp only [hneg, if_true]
    have hl : ("-" ++ Nat.repr i.natAbs).toList = '-' :: (Nat.repr i.natAbs).data := rfl
    rw [hl]
    simp only [or_true, if_true]
    have hv : decimalValue (Nat.repr i.natAbs).data ≤ 2 ^ bitSize - 1 := by
      rw [hval]; omega
    rw [ParseUint_of_digits _ bitSize hne hdig hv hb2, hval]
    have hc2 : ¬ (True ∧ i.natAbs > 2 ^ (bitSize - 1)) := by omega
    simp only [not_true_eq_false, false_and, if_false, hc2]
    rw [toSigned64_neg _ (by omega)]
    simp only [if_true, Prod.mk.injEq, and_true]
    omega
  · simp only [hneg, if_false]
    cases hd : (Nat.repr i.natAbs).data with
    | nil => exact absurd hd hne
    | cons c cs =>
      have hl : (Nat.repr i.natAbs).toList = c :: cs := hd
      rw [hl]
      have hcd := hdig c (by rw [hd]; exact List.mem_cons_self _ _)
      have hns := digit_ne_sign c hcd
      have hnm : ¬ c = '-' := fun e => hns (Or.inr e)
      simp only [hns, if_false]
      have hv : decimalValue (c :: cs) ≤ 2 ^ bitSize - 1 := by
        rw [← hd, hval]; omega
      rw [ParseUint_of_digits _ bitSize (by simp) (by rw [← hd]; exact hdig) hv hb2, ← hd, hval]
      have hc1 : ¬ (¬ c = '-' ∧ i.natAbs ≥ 2 ^ (bitSize - 1)) := by omega
      simp only [hnm, false_and, if_false]
      have hc3 : ¬ (¬ False ∧ i.natAbs ≥ 2 ^ (bitSize - 1)) := by omega
      rw [if_neg hc3, toSigned64_nat _ (by omega)]
      simp only [Prod.mk.injEq, and_true]
      omega

theorem atoiLoop_complete (l : List Char) (k : Nat)
    (hdig : ∀ c ∈ l, 48 ≤ c.toNat ∧ c.toNat ≤ 57) :
    atoiLoop l (k : Int) = some ((decimalValueFrom k l : Nat) : Int) := by
  induction l generalizing k with
  | nil => rfl
  | cons c t ih =>
    have hc := hdig c (List.mem_cons_self _ _)
    unfold atoiLoop
    simp only [hc, and_self, if_true]
    have hcast : (k : Int) * 10 + ((c.toNat - 48 : Nat) : Int)
        = ((10 * k + (c.toNat - 48) : Nat) : Int) := by
      push_cast; ring
    rw [hcast, ih _ (fun x hx => hdig x (List.mem_cons_of_mem _ hx))]
    rfl

theorem Atoi_Itoa (i : Int) (hlo : -((2 ^ 63 : Nat) : Int) ≤ i)
    (hhi : i ≤ ((2 ^ 63 : Nat) : Int) - 1) : Atoi (Itoa i) = (i, none) := by
  unfold Atoi
  split
  · obtain ⟨hne, hdig, hval⟩ := repr_digits i.natAbs
    unfold Itoa FormatInt
    by_cases hneg : i < 0
    · simp only [hneg, if_true]
      have hl : ("-" ++ Nat.repr i.natAbs).toList = '-' :: (Nat.repr i.natAbs).data := rfl
      rw [hl]
      simp only [true_or, if_true, true_and]
      have hlen : ¬ (Nat.repr i.natAbs).data.length < 1 := by
        cases hd : (Nat.repr i.natAbs).data with
        | nil => exact absurd hd hne
        | cons c cs => simp
      rw [if_neg hlen]
      have := atoiLoop_complete _ 0 hdig
      simp only [Nat.cast_zero] at this
      rw [this]
      simp only [Prod.mk.injEq, and_true]
      have hv : decimalValueFrom 0 (Nat.repr i.natAbs).data = i.natAbs := hval
      rw [hv]
      omega
    · simp only [hneg, if_false]
      cases hd : (Nat.repr i.natAbs).data with
      | nil => exact absurd hd hne
      | cons c cs =>
        have hl : (Nat.repr i.natAbs).toList = c :: cs := hd
        rw [hl]
        have hcd := hdig c (by rw [hd]; exact List.mem_cons_self _ _)
        have hns := digit_ne_sign c hcd
        have hns2 : ¬ (c = '-' ∨ c = '+') := fun h => hns (Or.symm h)
        have hnm : ¬ c = '-' := fun e => hns (Or.inr e)
        simp only [hns2, false_and, if_false]
        have := atoiLoop_complete (c :: cs) 0 (by rw [← hd]; exact hdig)
        simp only [Nat.cast_zero] at this
        rw [this]
        simp only [hnm, if_false, Prod.mk.injEq, and_true]
        have hv : decimalValueFrom 0 (c :: cs) = i.natAbs := by rw [← hd]; exact hval
        rw [hv]
        omega
  · have h := ParseInt_FormatInt i 64 (by norm_num) (by norm_num) hlo hhi
    have h2 : ParseInt (Itoa i) 64 = (i, none) := h
    rw [h2]
    simp only [Prod.mk.injEq, and_true]
    exact toSigned_of_range 64 (by norm_num) i hlo hhi

theorem ParseInt_range (s : String) (bitSize : Nat) (i : Int)
    (hb : 2 ≤ bitSize) (hb2 : bitSize ≤ 64) (h : ParseInt s bitSize = (i, none)) :
    -((2 ^ (bitSize - 1) : Nat) : Int) ≤ i ∧ i ≤ ((2 ^ (bitSize - 1) : Nat) : Int) - 1 := by
  have hpow : 2 ^ (bitSize - 1) ≤ 2 ^ 63 := Nat.pow_le_pow_right (by norm_num) (by omega)
  have hone : 1 ≤ 2 ^ (bitSize - 1) := Nat.one_le_two_pow
  unfold ParseInt at h
  generalize 2 ^ (bitSize - 1) = P at h hpow hone ⊢
  split at h
  · simp at h
  · rename_i c cs hl
    simp only at h
    rcases hp : ParseUint (String.mk (if c = '+' ∨ c = '-' then cs else c :: cs)) bitSize
      with ⟨un, e⟩
    rw [hp] at h
    have key : (if ¬ c = '-' ∧ un ≥ P then
          ((P : Int) - 1, some ({ Func := "ParseInt", Num := s, Err := .ErrRange } : NumError))
        else if c = '-' ∧ un > P then
          (-(P : Int), some { Func := "ParseInt", Num := s, Err := .ErrRange })
        else (if c = '-' then toSigned 64 (-toSigned 64 un) else toSigned 64 un, none))
        = (i, none) → -(P : Int) ≤ i ∧ i ≤ (P : Int) - 1 := by
      intro hk
      split at hk
      · simp at hk
      · rename_i hc1
        split at hk
        · simp at hk
        · rename_i hc2
          simp only [Prod.mk.injEq, and_true] at hk
          by_cases hc : c = '-'
          · simp only [hc, if_true] at hk
            have hun : un ≤ P := by
              by_contra hgt
              exact hc2 ⟨hc, by omega⟩
            rw [toSigned64_neg un (by omega)] at hk
            omega
          · simp only [hc, if_false] at hk
            have hun : un < P := by
              by_contra hge
              exact hc1 ⟨hc, by omega⟩
            rw [toSigned64_nat un (by omega)] at hk
            omega
    cases e with
    | none => exact key h
    | some err =>
      rcases err with ⟨f, num, k⟩
      cases k with
      | ErrSyntax => simp at h
      | ErrRange => exact key h

theorem Atoi_range (s : String) (i : Int) (h : Atoi s = (i, none)) :
    -((2 ^ 63 : Nat) : Int) ≤ i ∧ i ≤ ((2 ^ 63 : Nat) : Int) - 1 := by
  unfold Atoi at h
  split at h
  · rename_i hlen
    split at h
    · simp at h
    · rename_i c cs hl
      have hdlen : (if c = '-' ∨ c = '+' then cs else c :: cs).length ≤ 18 := by
        have h1 := length_le_utf8ByteSize s
        rw [hl] at h1
        have h2 : (if c = '-' ∨ c = '+' then cs else c :: cs).length ≤ (c :: cs).length := by
          split <;> simp
        omega
      generalize (if c = '-' ∨ c = '+' then cs else c :: cs) = digits at h hdlen
      split at h
      · simp at h
      · rcases hloop : atoiLoop digits 0 with _ | n
        · rw [hloop] at h; simp at h
        · obtain ⟨hd, hn⟩ := atoiLoop_ok _ 0 n (by simpa using hloop)
          have hlt := decimalValueFrom_lt _ 0 hd
          have hpw : 10 ^ digits.length ≤ 10 ^ 18 :=
            Nat.pow_le_pow_right (by norm_num) hdlen
          rw [hloop] at h
          simp only [Prod.mk.injEq, and_true] at h
          split at h <;> omega
  · rcases hp : ParseInt s 64 with ⟨i64, e⟩
    rw [hp] at h
    cases e with
    | some nerr => simp at h
    | none =>
      have hr := ParseInt_range s 64 i64 (by norm_num) (by norm_num) hp
      simp only [Prod.mk.injEq, and_true] at h
      rw [toSigned_of_range 64 (by norm_num) i64 hr.1 hr.2] at h
      rw [← h]
      exact hr

theorem roundTrips_signed {σ : Type} (quote : String → String) (S : Setting σ) (pi : Ptr σ Int)
    (hpi : ∀ a m, pi.load (pi.store a m) = a)
    (parse : String → Int × Option NumError) (conv : Int → Int) (lo hi : Int)
    (hS : ∀ s m, S.SetFunc s m =
      match parse s with
      | (_, some err) => (some (err.Error quote), m)
      | (i, none) => (none, pi.store (conv i) m))
    (hG : ∀ m, S.GetFunc m = FormatInt (pi.load m))
    (hrange : ∀ s i, parse s = (i, none) → lo ≤ i ∧ i ≤ hi)
    (hconv : ∀ i, lo ≤ i → i ≤ hi → conv i = i)
    (hback : ∀ i, lo ≤ i → i ≤ hi → parse (FormatInt i) = (i, none)) :
    RoundTrips S pi.load parse := by
  intro s m hacc
  rw [hS] at hacc ⊢
  rcases hp : parse s with ⟨i, e⟩
  rw [hp] at hacc
  cases e with
  | some err => simp at hacc
  | none =>
    obtain ⟨h1, h2⟩ := hrange s i hp
    simp only [hpi, hG, hS, hconv i h1 h2, hback i h1 h2]
    exact ⟨trivial, trivial, trivial⟩

theorem roundTrips_unsigned {σ : Type} (quote : String → String) (S : Setting σ) (pn : Ptr σ Nat)
    (hpn : ∀ a m, pn.load (pn.store a m) = a)
    (parse : String → Nat × Option NumError) (conv : Nat → Nat) (hi : Nat)
    (hS : ∀ s m, S.SetFunc s m =
      match parse s with
      | (_, some err) => (some (err.Error quote), m)
      | (u, none) => (none, pn.store (conv u) m))
    (hG : ∀ m, S.GetFunc m = FormatUint (pn.load m))
    (hrange : ∀ s u, parse s = (u, none) → u ≤ hi)
    (hconv : ∀ u, u ≤ hi → conv u = u)
    (hback : ∀ u, u ≤ hi → parse (FormatUint u) = (u, none)) :
    RoundTrips S pn.load parse := by
  intro s m hacc
  rw [hS] at hacc ⊢
  rcases hp : parse s with ⟨u, e⟩
  rw [hp] at hacc
  cases e with
  | some err => simp at hacc
  | none =>
    have h1 := hrange s u hp
    simp only [hpn, hG, hS, hconv u h1, hback u h1]
    exact ⟨trivial, trivial, trivial⟩

theorem ParseInt_range_num (bits : Nat) (hb : 2 ≤ bits) (hb2 : bits ≤ 64) (lo hi : Int)
    (hlo : lo = -((2 ^ (bits - 1) : Nat) : Int)) (hhi : hi = ((2 ^ (bits - 1) : Nat) : Int) - 1) :
    (∀ s i, ParseInt s bits = (i, none) → lo ≤ i ∧ i ≤ hi) ∧
    (∀ i, lo ≤ i → i ≤ hi → toSigned bits i = i) ∧
    (∀ i, lo ≤ i → i ≤ hi → ParseInt (FormatInt i) bits = (i, none)) := by
  subst hlo hhi
  exact ⟨fun s i h => ParseInt_range s bits i hb hb2 h,
    fun i h1 h2 => toSigned_of_range bits (by omega) i h1 h2,
    fun i h1 h2 => ParseInt_FormatInt i bits hb hb2 h1 h2⟩

theorem ParseUint_range_num (bits : Nat) (hb2 : bits ≤ 64) (hi : Nat) (hhi : hi = 2 ^ bits - 1) :
    (∀ s u, ParseUint s bits = (u, none) → u ≤ hi) ∧
    (∀ u, u ≤ hi → u % 2 ^ bits = u) ∧
    (∀ u, u ≤ hi → ParseUint (FormatUint u) bits = (u, none)) := by
  subst hhi
  have hpos : 0 < 2 ^ bits := Nat.two_pow_pos bits
  exact ⟨fun s u h => (ParseUint_ok s bits u h).2.2.2,
    fun u h => Nat.mod_eq_of_lt (by omega),
    fun u h => ParseUint_FormatUint u bits h hb2⟩

/-! ## Concurrent registration -/

theorem filterMap_set_same {α β : Type} (f : α → Option β) (l : List α) (i : Nat) (x c : α)
    (h : l[i]? = some c) (hf : f x = f c) : (l.set i x).filterMap f = l.filterMap f := by
  induction l generalizing i with
  | nil => simp at h
  | cons a t ih =>
    cases i with
    | zero =>
      simp only [List.getElem?_cons_zero, Option.some.injEq] at h
      subst h
      simp [List.set, List.filterMap_cons, hf]
    | succ i =>
      simp only [List.getElem?_cons_succ] at h
      simp [List.set, List.filterMap_cons, ih i h]

theorem filterMap_set_new {α β : Type} (f : α → Option β) (l : List α) (i : Nat) (x c : α)
    (b : β) (h : l[i]? = some c) (hc : f c = none) (hx : f x = some b) :
    ((l.set i x).filterMap f).Perm (l.filterMap f ++ [b]) := by
  induction l generalizing i with
  | nil => simp at h
  | cons a t ih =>
    cases i with
    | zero =>
      simp only [List.getElem?_cons_zero, Option.some.injEq] at h
      subst h
      simp only [List.set, List.filterMap_cons, hc, hx]
      exact (List.perm_append_singleton b _).symm
    | succ i =>
      simp only [List.getElem?_cons_succ] at h
      simp only [List.set, List.filterMap_cons]
      cases f a with
      | none => exact ih i h
      | some y => exact (ih i h).cons y

theorem map_fst_set {α β : Type} (l : List (α × β)) (i : Nat) (a : α) (b b2 : β)
    (h : l[i]? = some (a, b)) : (l.set i (a, b2)).map Prod.fst = l.map Prod.fst := by
  induction l generalizing i with
  | nil => simp at h
  | cons x t ih =>
    cases i with
    | zero =>
      simp only [List.getElem?_cons_zero, Option.some.injEq] at h
      subst h
      simp [List.set]
    | succ i =>
      simp only [List.getElem?_cons_succ] at h
      simp [List.set, ih i h]

theorem getElem?_set_cases {α : Type} (l : List α) (i j : Nat) (x c : α)
    (h : (l.set i x)[j]? = some c) : (i = j ∧ c = x) ∨ (i ≠ j ∧ l[j]? = some c) := by
  rw [List.getElem?_set] at h
  by_cases hij : i = j
  · left
    simp only [hij, if_true] at h
    split at h
    · exact ⟨hij, (Option.some.inj h).symm⟩
    · cases h
  · right
    simp only [hij, if_false] at h
    exact ⟨hij, h⟩

theorem regInv_init {σ : Type} (init args : List (Setting σ)) : RegInv init args (regInit init args) := by
  refine ⟨?_, ?_, ?_, ?_⟩
  · simp only [regInit, List.map_map]
    exact List.map_id _
  · intro i c hc hcrit
    simp only [regInit, List.getElem?_map] at hc
    cases h : args[i]? with
    | none => simp [h] at hc
    | some s =>
      simp only [h, Option.map_some', Option.some.injEq] at hc
      subst hc
      simp [RegPC.inCritical] at hcrit
  · intro i s r hc
    simp only [regInit, List.getElem?_map] at hc
    cases h : args[i]? with
    | none => simp [h] at hc
    | some s0 => simp [h] at hc
  · have : (regInit init args).callers.filterMap committed = [] := by
      rw [List.filterMap_eq_nil_iff]
      intro c hc
      simp only [regInit, List.mem_map] at hc
      obtain ⟨s, -, rfl⟩ := hc
      rfl
    rw [this, List.append_nil]
    exact List.Perm.refl _

theorem regInv_step {σ : Type} (init args : List (Setting σ)) (i : Nat) (st : RegState σ)
    (inv : RegInv init args st) : RegInv init args (regStep i st) := by
  unfold regStep
  cases hi : st.callers[i]? with
  | none => exact inv
  | some c =>
    rcases c with ⟨s, pc⟩
    cases pc with
    | start =>
      simp only
      split
      · rename_i hfree
        refine ⟨?_, ?_, ?_, ?_⟩
        · rw [← inv.args_kept]; exact map_fst_set _ _ _ _ _ hi
        · intro j c hc hcrit
          rcases getElem?_set_cases _ _ _ _ _ hc with ⟨rfl, -⟩ | ⟨-, hold⟩
          · rfl
          · have := inv.exclusive j c hold hcrit
            rw [hfree] at this
            cases this
        · intro j s2 r hc
          rcases getElem?_set_cases _ _ _ _ _ hc with ⟨-, h2⟩ | ⟨-, hold⟩
          · cases h2
          · exact inv.fresh_read j s2 r hold
        · show st.settings.Perm (init ++ (st.callers.set i (s, RegPC.locked)).filterMap committed)
          rw [filterMap_set_same committed st.callers i (s, RegPC.locked) (s, RegPC.start) hi rfl]
          exact inv.registry
      · exact inv
    | locked =>
      have hold_i : st.holder = some i := inv.exclusive i _ hi rfl
      dsimp only
      refine ⟨?_, ?_, ?_, ?_⟩
      · rw [← inv.args_kept]; exact map_fst_set _ _ _ _ _ hi
      · intro j c hc hcrit
        rcases getElem?_set_cases _ _ _ _ _ hc with ⟨rfl, -⟩ | ⟨-, hold⟩
        · exact hold_i
        · exact inv.exclusive j c hold hcrit
      · intro j s2 r hc
        rcases getElem?_set_cases _ _ _ _ _ hc with ⟨-, h2⟩ | ⟨-, hold⟩
        · simp only [Prod.mk.injEq, RegPC.appended.injEq] at h2
          obtain ⟨rfl, rfl⟩ := h2
          rfl
        · exact inv.fresh_read j s2 r hold
      · show st.settings.Perm
          (init ++ (st.callers.set i (s, RegPC.appended (st.settings ++ [s]))).filterMap committed)
        rw [filterMap_set_same committed st.callers i (s, RegPC.appended (st.settings ++ [s]))
          (s, RegPC.locked) hi rfl]
        exact inv.registry
    | appended result =>
      have hold_i : st.holder = some i := inv.exclusive i _ hi rfl
      have hres : result = st.settings ++ [s] := inv.fresh_read i s result hi
      dsimp only
      refine ⟨?_, ?_, ?_, ?_⟩
      · rw [← inv.args_kept]; exact map_fst_set _ _ _ _ _ hi
      · intro j c hc hcrit
        rcases getElem?_set_cases _ _ _ _ _ hc with ⟨rfl, -⟩ | ⟨-, hold⟩
        · exact hold_i
        · exact inv.exclusive j c hold hcrit
      · intro j s2 r hc
        rcases getElem?_set_cases _ _ _ _ _ hc with ⟨-, h2⟩ | ⟨hne, hold⟩
        · cases h2
        · have hj := inv.exclusive j _ hold rfl
          rw [hold_i] at hj
          exact absurd (Option.some.inj hj) hne
      · show result.Perm (init ++ (st.callers.set i (s, RegPC.assigned)).filterMap committed)
        rw [hres]
        have hp := filterMap_set_new committed st.callers i (s, RegPC.assigned)
          (s, RegPC.appended result) s hi rfl rfl
        have h1 : (st.settings ++ [s]).Perm
            ((init ++ st.callers.filterMap committed) ++ [s]) :=
          inv.registry.append_right [s]
        rw [List.append_assoc] at h1
        exact h1.trans (hp.symm.append_left init)
    | assigned =>
      have hold_i : st.holder = some i := inv.exclusive i _ hi rfl
      dsimp only
      refine ⟨?_, ?_, ?_, ?_⟩
      · rw [← inv.args_kept]; exact map_fst_set _ _ _ _ _ hi
      · intro j c hc hcrit
        rcases getElem?_set_cases _ _ _ _ _ hc with ⟨-, h2⟩ | ⟨hne, hold⟩
        · subst h2
          simp [RegPC.inCritical] at hcrit
        · have hj := inv.exclusive j c hold hcrit
          rw [hold_i] at hj
          exact absurd (Option.some.inj hj) hne
      · intro j s2 r hc
        rcases getElem?_set_cases _ _ _ _ _ hc with ⟨-, h2⟩ | ⟨-, hold⟩
        · cases h2
        · exact inv.fresh_read j s2 r hold
      · show st.settings.Perm (init ++ (st.callers.set i (s, RegPC.done)).filterMap committed)
        rw [filterMap_set_same committed st.callers i (s, RegPC.done) (s, RegPC.assigned) hi rfl]
        exact inv.registry
    | done => exact inv

theorem regInv_run {σ : Type} (init args : List (Setting σ)) (schedule : List Nat) (st : RegState σ)
    (inv : RegInv init args st) : RegInv init args (regRun schedule st) := by
  induction schedule generalizing st with
  | nil => exact inv
  | cons i t ih => exact ih _ (regInv_step init args i st inv)

theorem filterMap_committed_of_done {σ : Type} (callers : List (Setting σ × RegPC σ))
    (h : ∀ c ∈ callers, c.2.isDone = true) :
    callers.filterMap committed = callers.map Prod.fst := by
  induction callers with
  | nil => rfl
  | cons c t ih =>
    have hc := h c (List.mem_cons_self _ _)
    rcases c with ⟨s, pc⟩
    cases pc <;> simp [RegPC.isDone] at hc
    simp [List.filterMap_cons, committed, ih (fun x hx => h x (List.mem_cons_of_mem _ hx))]

theorem getSetting_of_perm {σ : Type} (settings args : List (Setting σ)) (hperm : settings.Perm args)
    (hnames : (args.map (fun s => s.Name)).Nodup) (s : Setting σ) (hs : s ∈ args) :
    getSetting settings s.Name = .ok s := by
  have hnd : (settings.map (fun s => s.Name)).Nodup :=
    (hperm.map _).nodup_iff.mpr hnames
  have hmem : s ∈ settings := hperm.mem_iff.mpr hs
  rw [getSetting_eq_find]
  cases hf : settings.find? (fun t => t.Name == s.Name) with
  | none =>
    rw [List.find?_eq_none] at hf
    exact absurd (by simp) (hf s hmem)
  | some t =>
    have htm := List.mem_of_find?_eq_some hf
    have htn : t.Name = s.Name := by
      simpa using List.find?_some (p := fun (t : Setting σ) => t.Name == s.Name) hf
    have := List.inj_on_of_nodup_map hnd htm hmem htn
    rw [this]

/-! ## The timestamp setting: round trip to the second -/

theorem isDigitChar_digitChar (d : Nat) (h : d < 10) : isDigitChar (Nat.digitChar d) = true := by
  have := digitChar_toNat d h
  simp only [isDigitChar, this, Bool.and_eq_true, decide_eq_true_eq]
  omega

theorem parseField_two (u lo hi : Nat) (h : u < 100) (hlo : lo ≤ u) (hhi : u ≤ hi) :
    parseField [Nat.digitChar (u / 10), Nat.digitChar (u % 10)] lo hi = some u := by
  have h1 : u / 10 < 10 := by omega
  have h2 : u % 10 < 10 := by omega
  have hv : decimalValue [Nat.digitChar (u / 10), Nat.digitChar (u % 10)] = u := by
    simp only [decimalValue, decimalValueFrom, List.foldl_cons, List.foldl_nil,
      digitChar_toNat _ h1, digitChar_toNat _ h2]
    omega
  unfold parseField
  simp only [List.all_cons, List.all_nil, isDigitChar_digitChar _ h1,
    isDigitChar_digitChar _ h2, Bool.and_self, if_true, hv]
  rw [if_neg (by omega)]

theorem parseField_four (u lo hi : Nat) (h : u < 10000) (hlo : lo ≤ u) (hhi : u ≤ hi) :
    parseField [Nat.digitChar (u / 100 / 10), Nat.digitChar (u / 100 % 10),
      Nat.digitChar (u % 100 / 10), Nat.digitChar (u % 100 % 10)] lo hi = some u := by
  have h1 : u / 100 / 10 < 10 := by omega
  have h2 : u / 100 % 10 < 10 := by omega
  have h3 : u % 100 / 10 < 10 := by omega
  have h4 : u % 100 % 10 < 10 := by omega
  have hv : decimalValue [Nat.digitChar (u / 100 / 10), Nat.digitChar (u / 100 % 10),
      Nat.digitChar (u % 100 / 10), Nat.digitChar (u % 100 % 10)] = u := by
    simp only [decimalValue, decimalValueFrom, List.foldl_cons, List.foldl_nil,
      digitChar_toNat _ h1, digitChar_toNat _ h2, digitChar_toNat _ h3, digitChar_toNat _ h4]
    omega
  unfold parseField
  simp only [List.all_cons, List.all_nil, isDigitChar_digitChar _ h1,
    isDigitChar_digitChar _ h2, isDigitChar_digitChar _ h3, isDigitChar_digitChar _ h4,
    Bool.and_self, if_true, hv]
  rw [if_neg (by omega)]

theorem parseField_inv (cs : List Char) (lo hi u : Nat) (h : parseField cs lo hi = some u) :
    lo ≤ u ∧ u ≤ hi := by
  unfold parseField at h
  split at h
  · split at h
    · cases h
    · rename_i hr
      simp only [Option.some.injEq] at h
      omega
  · cases h

theorem parseDateTime_explicit (y1 y2 y3 y4 m1 m2 d1 d2 h1 h2 i1 i2 s1 s2 : Char)
    (z : List Char) (Y M D H I S : Nat)
    (hY : parseField [y1, y2, y3, y4] 0 9999 = some Y)
    (hM : parseField [m1, m2] 1 12 = some M)
    (hD : parseField [d1, d2] 1 (daysIn M Y) = some D)
    (hH : parseField [h1, h2] 0 23 = some H)
    (hI : parseField [i1, i2] 0 59 = some I)
    (hS : parseField [s1, s2] 0 59 = some S) :
    parseDateTime (y1 :: y2 :: y3 :: y4 :: '-' :: m1 :: m2 :: '-' :: d1 :: d2 :: 'T' ::
        h1 :: h2 :: ':' :: i1 :: i2 :: ':' :: s1 :: s2 :: z)
      = some { year := Y, month := M, day := D, hour := H, min := I, sec := S,
               nsec := 0, offset := 0 } := by
  simp [parseDateTime, List.take, List.drop, hY, hM, hD, hH, hI, hS]

theorem daysIn_le (month year : Nat) : daysIn month year ≤ 31 := by
  unfold daysIn
  split
  · omega
  · split <;> omega

theorem appendInt_two (x : Nat) (h : x < 100) :
    appendInt x 2 = [Nat.digitChar (x / 10), Nat.digitChar (x % 10)] := by
  unfold appendInt
  rw [if_pos ⟨rfl, h⟩]

theorem appendInt_four (x : Nat) (h : x < 10000) :
    appendInt x 4 = [Nat.digitChar (x / 100 / 10), Nat.digitChar (x / 100 % 10),
      Nat.digitChar (x % 100 / 10), Nat.digitChar (x % 100 % 10)] := by
  unfold appendInt
  rw [if_neg (by omega), if_pos ⟨rfl, h⟩]

theorem parseRFC3339_explicit (y1 y2 y3 y4 m1 m2 d1 d2 h1 h2 i1 i2 s1 s2 : Char)
    (z : List Char) (Y M D H I S : Nat) (off : Int)
    (hY : parseField [y1, y2, y3, y4] 0 9999 = some Y)
    (hM : parseField [m1, m2] 1 12 = some M)
    (hD : parseField [d1, d2] 1 (daysIn M Y) = some D)
    (hH : parseField [h1, h2] 0 23 = some H)
    (hI : parseField [i1, i2] 0 59 = some I)
    (hS : parseField [s1, s2] 0 59 = some S)
    (hfrac : fractionDigits z = [])
    (hz : parseZone z = some off) :
    parseRFC3339 (y1 :: y2 :: y3 :: y4 :: '-' :: m1 :: m2 :: '-' :: d1 :: d2 :: 'T' ::
        h1 :: h2 :: ':' :: i1 :: i2 :: ':' :: s1 :: s2 :: z)
      = some { year := Y, month := M, day := D, hour := H, min := I, sec := S,
               nsec := 0, offset := off } := by
  unfold parseRFC3339
  rw [if_neg (by simp only [List.length_cons]; omega),
    parseDateTime_explicit y1 y2 y3 y4 m1 m2 d1 d2 h1 h2 i1 i2 s1 s2 z Y M D H I S
      hY hM hD hH hI hS]
  simp [List.drop, hfrac, hz]

theorem parseZone_explicit (sign h1 h2 m1 m2 : Char) (hr mm : Nat)
    (hsign : sign = '-' ∨ sign = '+')
    (hH : parseField [h1, h2] 0 23 = some hr)
    (hM : parseField [m1, m2] 0 59 = some mm) :
    parseZone [sign, h1, h2, ':', m1, m2]
      = some (if sign = '-' then -(((hr * 60 + mm) * 60 : Nat) : Int)
              else (((hr * 60 + mm) * 60 : Nat) : Int)) := by
  unfold parseZone
  have hne : [sign, h1, h2, ':', m1, m2] ≠ ['Z'] := by simp
  rw [if_neg hne]
  rcases hsign with rfl | rfl <;> simp [List.take, List.drop, hH, hM]

theorem parseDateTime_inv (s : List Char) (t : Time) (h : parseDateTime s = some t) :
    t.year ≤ 9999 ∧ 1 ≤ t.month ∧ t.month ≤ 12 ∧ 1 ≤ t.day ∧ t.day ≤ daysIn t.month t.year ∧
      t.hour ≤ 23 ∧ t.min ≤ 59 ∧ t.sec ≤ 59 := by
  simp only [parseDateTime, Option.bind_eq_bind, Option.bind_eq_some] at h
  obtain ⟨Y, hY, M, hM, D, hD, H, hH, I, hI, S, hS, h⟩ := h
  split at h
  · simp only [Option.some.injEq] at h
    subst h
    have := parseField_inv _ _ _ _ hY
    have := parseField_inv _ _ _ _ hM
    have := parseField_inv _ _ _ _ hD
    have := parseField_inv _ _ _ _ hH
    have := parseField_inv _ _ _ _ hI
    have := parseField_inv _ _ _ _ hS
    simp only
    omega
  · cases h

theorem parseZone_inv (s : List Char) (off : Int) (h : parseZone s = some off) :
    ∃ hr mm : Nat, hr ≤ 23 ∧ mm ≤ 59 ∧
      (off = (((hr * 60 + mm) * 60 : Nat) : Int) ∨ off = -(((hr * 60 + mm) * 60 : Nat) : Int)) := by
  unfold parseZone at h
  split at h
  · simp only [Option.some.injEq] at h
    exact ⟨0, 0, by omega, by omega, Or.inl (by simp [← h])⟩
  · split at h
    · cases h
    · simp only [Option.bind_eq_bind, Option.bind_eq_some] at h
      obtain ⟨hr, hH, mm, hM, h⟩ := h
      have h1 := parseField_inv _ _ _ _ hH
      have h2 := parseField_inv _ _ _ _ hM
      split at h
      · simp only [Option.some.injEq] at h
        refine ⟨hr, mm, h1.2, h2.2, ?_⟩
        split at h
        · exact Or.inr h.symm
        · exact Or.inl h.symm
      · cases h

theorem parseRFC3339_inv (s : List Char) (t : Time) (h : parseRFC3339 s = some t) :
    t.year ≤ 9999 ∧ 1 ≤ t.month ∧ t.month ≤ 12 ∧ 1 ≤ t.day ∧ t.day ≤ daysIn t.month t.year ∧
      t.hour ≤ 23 ∧ t.min ≤ 59 ∧ t.sec ≤ 59 ∧
      ∃ hr mm : Nat, hr ≤ 23 ∧ mm ≤ 59 ∧
        (t.offset = (((hr * 60 + mm) * 60 : Nat) : Int) ∨
          t.offset = -(((hr * 60 + mm) * 60 : Nat) : Int)) := by
  unfold parseRFC3339 at h
  split at h
  · cases h
  · simp only [Option.bind_eq_bind, Option.bind_eq_some] at h
    obtain ⟨t0, ht0, off, hoff, h⟩ := h
    simp only [Option.some.injEq] at h
    subst h
    have h1 := parseDateTime_inv s t0 ht0
    have h2 := parseZone_inv _ off hoff
    exact ⟨h1.1, h1.2.1, h1.2.2.1, h1.2.2.2.1, h1.2.2.2.2.1, h1.2.2.2.2.2.1,
      h1.2.2.2.2.2.2.1, h1.2.2.2.2.2.2.2, h2⟩

theorem zone_fields (off : Int) (hr mm : Nat) (hmm : mm ≤ 59) (h0 : off ≠ 0)
    (hoff : off = (((hr * 60 + mm) * 60 : Nat) : Int) ∨
      off = -(((hr * 60 + mm) * 60 : Nat) : Int)) :
    (Int.tdiv off 60).natAbs / 60 = hr ∧ (Int.tdiv off 60).natAbs % 60 = mm ∧
      (if Int.tdiv off 60 < 0 then -(((hr * 60 + mm) * 60 : Nat) : Int)
        else (((hr * 60 + mm) * 60 : Nat) : Int)) = off := by
  have e : (((hr * 60 + mm) * 60 : Nat) : Int) = ((hr * 60 + mm : Nat) : Int) * 60 := by
    norm_cast
  rcases hoff with h | h
  · have hd : Int.tdiv off 60 = ((hr * 60 + mm : Nat) : Int) := by
      rw [h, e]; exact Int.mul_tdiv_cancel _ (by decide)
    rw [hd, Int.natAbs_ofNat, if_neg (by omega)]
    exact ⟨by omega, by omega, h.symm⟩
  · have hd : Int.tdiv off 60 = -((hr * 60 + mm : Nat) : Int) := by
      rw [h, e, ← neg_mul]; exact Int.mul_tdiv_cancel _ (by decide)
    have hpos : 0 < hr * 60 + mm := by
      rcases Nat.eq_zero_or_pos (hr * 60 + mm) with hz | hz
      · exfalso; apply h0; rw [h, hz]; rfl
      · exact hz
    rw [hd, Int.natAbs_neg, Int.natAbs_ofNat, if_pos (by omega)]
    exact ⟨by omega, by omega, h.symm⟩

theorem parseRFC3339_formatRFC3339 (s : List Char) (t : Time) (h : parseRFC3339 s = some t) :
    parseRFC3339 (formatRFC3339 t).toList = some { t with nsec := 0 } := by
  obtain ⟨hy, hm1, hm2, hd1, hd2, hh, hi, hs, hr, mm, hhr, hmm, hoff⟩ := parseRFC3339_inv s t h
  have hd3 := daysIn_le t.month t.year
  have pY := parseField_four t.year 0 9999 (by omega) (by omega) hy
  have pM := parseField_two t.month 1 12 (by omega) hm1 hm2
  have pD := parseField_two t.day 1 (daysIn t.month t.year) (by omega) hd1 hd2
  have pH := parseField_two t.hour 0 23 (by omega) (by omega) hh
  have pI := parseField_two t.min 0 59 (by omega) (by omega) hi
  have pS := parseField_two t.sec 0 59 (by omega) (by omega) hs
  show parseRFC3339 (formatRFC3339 t).data = _
  unfold formatRFC3339
  rw [appendInt_four t.year (by omega), appendInt_two t.month (by omega),
    appendInt_two t.day (by omega), appendInt_two t.hour (by omega),
    appendInt_two t.min (by omega), appendInt_two t.sec (by omega)]
  by_cases h0 : t.offset = 0
  · rw [if_pos h0]
    simp only [List.cons_append, List.nil_append, List.append_assoc]
    rw [parseRFC3339_explicit _ _ _ _ _ _ _ _ _ _ _ _ _ _ ['Z'] _ _ _ _ _ _ 0 pY pM pD pH pI pS
      (by decide) (by decide), ← h0]
  · rw [if_neg h0]
    obtain ⟨z1, z2, z3⟩ := zone_fields t.offset hr mm hmm h0 hoff
    rw [z1, z2, appendInt_two hr (by omega), appendInt_two mm (by omega)]
    have pZh := parseField_two hr 0 23 (by omega) (by omega) hhr
    have pZm := parseField_two mm 0 59 (by omega) (by omega) hmm
    by_cases hneg : Int.tdiv t.offset 60 < 0
    · rw [if_pos hneg] at z3 ⊢
      simp only [List.cons_append, List.nil_append, List.append_assoc]
      rw [parseRFC3339_explicit _ _ _ _ _ _ _ _ _ _ _ _ _ _ _ _ _ _ _ _ _ _ pY pM pD pH pI pS
        (by simp [fractionDigits]) (parseZone_explicit '-' _ _ _ _ hr mm (Or.inl rfl) pZh pZm),
        if_pos rfl, z3]
    · rw [if_neg hneg] at z3 ⊢
      simp only [List.cons_append, List.nil_append, List.append_assoc]
      rw [parseRFC3339_explicit _ _ _ _ _ _ _ _ _ _ _ _ _ _ _ _ _ _ _ _ _ _ pY pM pD pH pI pS
        (by simp [fractionDigits]) (parseZone_explicit '+' _ _ _ _ hr mm (Or.inr rfl) pZh pZm),
        if_neg (by decide), z3]

theorem parseRFC3339_no_fraction (s : List Char) (t : Time) (h : parseRFC3339 s = some t)
    (hf : fractionDigits (s.drop 19) = []) : t.nsec = 0 := by
  unfold parseRFC3339 at h
  split at h
  · cases h
  · simp only [Option.bind_eq_bind, Option.bind_eq_some] at h
    obtain ⟨t0, _, off, _, h⟩ := h
    simp only [Option.some.injEq] at h
    subst h
    simp only [hf, if_true]

/-! ## The string-list setting: get after set -/

/-- C21: for a string-list setting bound to a variable that reads back what is stored in it,
every string `s` and every memory: `set(s)` returns no error and `get` then returns exactly
`s`. Joining with commas undoes splitting at commas (`Join (Split s) = s`, for the empty
string too), and `set("")` leaves the absent list, whose formatting is the empty string. -/
theorem stringSlice_get_after_set {σ : Type} (name description : String)
    (prop : Ptr σ (List String)) (hprop : ∀ a m, prop.load (prop.store a m) = a)
    (s : String) (m : σ) :
    ((stringSliceSetting name description prop).SetFunc s m).1 = none ∧
    (stringSliceSetting name description prop).GetFunc
        ((stringSliceSetting name description prop).SetFunc s m).2 = s ∧
    Join (Split s) = s ∧
    prop.load ((stringSliceSetting name description prop).SetFunc "" m).2 = [] ∧
    Join [] = "" := by
  refine ⟨?_, ?_, join_split s, ?_, rfl⟩
  · simp only [stringSliceSetting]
    split <;> rfl
  · by_cases hs : s = ""
    · subst hs
      simp [stringSliceSetting, hprop, Join]
    · simp [stringSliceSetting, hs, hprop, join_split]
  · simp [stringSliceSetting, hprop]

/-- C21 on a list variable holding `old`: `set(",a,,b,")` leaves the five pieces with the
empty ones kept, and `get` returns `,a,,b,`; `set("")` is followed by `get` returning the
empty string. -/
theorem stringSlice_get_after_set_witness :
    (∀ (a m : List String), (selfPtr (List String)).load ((selfPtr (List String)).store a m) = a) ∧
    ((stringSliceSetting "tags" "Tags" (selfPtr (List String))).SetFunc ",a,,b," ["old"]).2
      = ["", "a", "", "b", ""] ∧
    (stringSliceSetting "tags" "Tags" (selfPtr (List String))).GetFunc
        ((stringSliceSetting "tags" "Tags" (selfPtr (List String))).SetFunc ",a,,b," ["old"]).2
      = ",a,,b," ∧
    (stringSliceSetting "tags" "Tags" (selfPtr (List String))).GetFunc
        ((stringSliceSetting "tags" "Tags" (selfPtr (List String))).SetFunc "" ["old"]).2
      = "" :=
  ⟨fun _ _ => rfl, by decide,
    (stringSlice_get_after_set "tags" "Tags" (selfPtr (List String)) (fun _ _ => rfl)
      ",a,,b," ["old"]).2.1,
    (stringSlice_get_after_set "tags" "Tags" (selfPtr (List String)) (fun _ _ => rfl)
      "" ["old"]).2.1⟩

/-! ## Reconciliation after a remove -/

theorem fates_frame {σ : Type} {α : Type} (settings : List (Setting σ)) (g : σ → α)
    (rows : List AppSetting) (m : σ)
    (h : ∀ row ∈ rows, ∀ s2, getSetting settings row.Key = .ok s2 →
      ∀ m, g (s2.SetFunc row.Value m).2 = g m) :
    g (fates settings rows m).2 = g m := by
  induction rows generalizing m with
  | nil => rfl
  | cons row rest ih =>
    have hrest : ∀ row ∈ rest, ∀ s2, getSetting settings row.Key = .ok s2 →
        ∀ m, g (s2.SetFunc row.Value m).2 = g m :=
      fun r hr => h r (List.mem_cons_of_mem _ hr)
    have hrow := h row (List.mem_cons_self _ _)
    rw [getSetting_eq_find] at hrow
    unfold fates
    cases hf : settings.find? (fun s => s.Name == row.Key) with
    | none => exact ih m hrest
    | some s2 =>
      have h2 := hrow s2 (by rw [hf])
      simp only
      rcases hset : s2.SetFunc row.Value m with ⟨e, m1⟩
      have h3 := h2 m
      rw [hset] at h3
      cases e with
      | none => simp only; rw [ih m1 hrest]; exact h3
      | some e => simp only; rw [ih m1 hrest]; exact h3

/-- C10, refuted on the sample process: the compiled default of `foo` is `x` (the Defaults
view reports it), and after `save foo y` and `remove foo` a pass of `RetrieveAppSettings`
succeeds and leaves the live value of `foo` different from `x`. -/
theorem reconcile_after_remove_counterexample :
    (∀ pdqsort : List AppSetting → List AppSetting,
      (SettingsListDefaultsCommand.Run pdqsort sampleReady).table.map
          (fun t => t.filter (fun row => row.Key == "foo"))
        = some [⟨"foo", "x", "Foo setting"⟩]) ∧
    (RetrieveAppSettings sampleRemoved).1 = none ∧
    ¬ ((stringSetting "foo" "Foo setting" fooPtr).GetFunc
        (RetrieveAppSettings sampleRemoved).2.vars = "x") := by
  refine ⟨?_, ?_, ?_⟩
  · intro pdqsort
    rw [listDefaults_small pdqsort stableSort sampleReady (by decide)]
    decide
  · decide
  · decide

/-- C10 as amended: for a registered setting `foo` and an accepted value `y`, the store
reporting no fault and holding any rows of other keys, after `save foo y` and `remove foo`:
the store holds the rows of the other keys as they were and no row of `foo`; the Saved view
is the table of those rows, and has no row of `foo` (with at most twelve rows, or the sort of
a longer slice doing what the library documents); a pass of `RetrieveAppSettings` applies
the rows of the other keys to the memory the save produced and nothing else. So, when the set
functions of those rows leave alone what the `get` of `foo` returns, `get` of `foo` returns
after the pass what it returned after the save (the live value stays `y`), and in a process
whose memory is `m0` when the pass starts (a newly started one, its variables at their
compiled defaults) what it returns in `m0`. With no row of another key the pass returns no
error and leaves the memory as the save produced it. -/
theorem reconcile_after_remove {σ : Type} (pdqsort : List AppSetting → List AppSetting)
    (w : World σ) (foo y : String) (s : Setting σ)
    (hs : getSetting w.settings foo = .ok s)
    (hacc : (s.SetFunc y w.vars).1 = none)
    (hsave : w.db.saveErr = none) (hdel : w.db.deleteErr = none)
    (hfind : w.db.findErr = none) :
    (SettingsRemoveCommand.Run ⟨foo⟩ (SettingsSaveCommand.Run ⟨foo, y⟩ w).world).err = none ∧
    (SettingsRemoveCommand.Run ⟨foo⟩ (SettingsSaveCommand.Run ⟨foo, y⟩ w).world).world.db.rows
      = w.db.rows.filter (fun row => !(row.1 == foo)) ∧
    (w.db.rows.length ≤ 12 ∨ SortsByKey pdqsort →
      ∃ table,
        (SettingsListSavedCommand.Run pdqsort
          (SettingsRemoveCommand.Run ⟨foo⟩
            (SettingsSaveCommand.Run ⟨foo, y⟩ w).world).world).table = some table ∧
        ∀ row ∈ table, row.Key ≠ foo) ∧
    (RetrieveAppSettings
      (SettingsRemoveCommand.Run ⟨foo⟩ (SettingsSaveCommand.Run ⟨foo, y⟩ w).world).world).2.vars
      = (fates w.settings
          ((w.db.rows.filter (fun row => !(row.1 == foo))).map
            (fun r => { Key := r.1, Value := r.2, Description := "" }))
          (s.SetFunc y w.vars).2).2 ∧
    ((∀ row ∈ w.db.rows, row.1 ≠ foo →
        ∀ s2, getSetting w.settings row.1 = .ok s2 →
          ∀ m, s.GetFunc (s2.SetFunc row.2 m).2 = s.GetFunc m) →
      s.GetFunc (RetrieveAppSettings
          (SettingsRemoveCommand.Run ⟨foo⟩
            (SettingsSaveCommand.Run ⟨foo, y⟩ w).world).world).2.vars
        = s.GetFunc (s.SetFunc y w.vars).2 ∧
      ∀ m0 : σ,
        s.GetFunc (RetrieveAppSettings
          { (SettingsRemoveCommand.Run ⟨foo⟩
              (SettingsSaveCommand.Run ⟨foo, y⟩ w).world).world with vars := m0 }).2.vars
          = s.GetFunc m0) ∧
    (w.db.rows.filter (fun row => !(row.1 == foo)) = [] →
      (RetrieveAppSettings
        (SettingsRemoveCommand.Run ⟨foo⟩
          (SettingsSaveCommand.Run ⟨foo, y⟩ w).world).world).1 = none ∧
      (RetrieveAppSettings
        (SettingsRemoveCommand.Run ⟨foo⟩
          (SettingsSaveCommand.Run ⟨foo, y⟩ w).world).world).2.vars
        = (s.SetFunc y w.vars).2) := by
  have hn := getSetting_ok_name hs
  rw [save_run_of_accepted w foo y s hs hacc hsave]
  have hrun : SettingsRemoveCommand.Run ⟨foo⟩
      { w with vars := (s.SetFunc y w.vars).2,
               db := { w.db with rows := upsert foo y w.db.rows } } =
      { err := none, table := none,
        world := { w with vars := (s.SetFunc y w.vars).2,
                          db := { w.db with
                            rows := w.db.rows.filter (fun row => !(row.1 == foo)) } } } := by
    simp [SettingsRemoveCommand.Run, hs, Store.Delete, hdel, hn, upsert_filter_other]
  simp only [hrun]
  have hpass : ∀ m0 : σ,
      (RetrieveAppSettings
        { w with vars := m0,
                 db := { w.db with
                   rows := w.db.rows.filter (fun row => !(row.1 == foo)) } }).2.vars
        = (fates w.settings
            ((w.db.rows.filter (fun row => !(row.1 == foo))).map
              (fun r => { Key := r.1, Value := r.2, Description := "" })) m0).2 := by
    intro m0
    rw [retrieve_eq_fates _ (by simp [Store.Find, hfind])]
    simp [Store.Find]
  refine ⟨trivial, trivial, ?_, hpass _, ?_, ?_⟩
  · intro hsort
    have hsv := listSaved_run pdqsort
      { w with vars := (s.SetFunc y w.vars).2,
               db := { w.db with rows := w.db.rows.filter (fun row => !(row.1 == foo)) } }
      hfind
    rw [hsv]
    refine ⟨_, rfl, ?_⟩
    intro row hrow
    have hlen : ((w.db.rows.filter (fun row => !(row.1 == foo))).map (fun row =>
        ({ Key := row.1, Value := row.2,
           Description :=
             match getSetting w.settings row.1 with
             | .ok setting => setting.Description
             | .error _ => "" } : AppSetting))).length ≤ 12 ∨ SortsByKey pdqsort := by
      rcases hsort with h | h
      · left
        rw [List.length_map]
        exact Nat.le_trans (List.length_filter_le _ _) h
      · exact Or.inr h
    have hmem := (printSettings_perm pdqsort _ hlen).subset hrow
    obtain ⟨r, hr, rfl⟩ := List.mem_map.mp hmem
    have := (List.mem_filter.mp hr).2
    simpa using this
  · intro hframe
    have hframe2 : ∀ row ∈ (w.db.rows.filter (fun row => !(row.1 == foo))).map
          (fun r => ({ Key := r.1, Value := r.2, Description := "" } : AppSetting)),
        ∀ s2, getSetting w.settings row.Key = .ok s2 →
          ∀ m, s.GetFunc (s2.SetFunc row.Value m).2 = s.GetFunc m := by
      intro row hrow s2 hs2 m
      obtain ⟨r, hr, rfl⟩ := List.mem_map.mp hrow
      rw [List.mem_filter] at hr
      exact hframe r hr.1 (by simpa using hr.2) s2 hs2 m
    refine ⟨?_, ?_⟩
    · rw [hpass]
      exact fates_frame w.settings s.GetFunc _ _ hframe2
    · intro m0
      have := hpass m0
      simp only at this ⊢
      rw [this]
      exact fates_frame w.settings s.GetFunc _ _ hframe2
  · intro hnil
    rw [retrieve_eq_fates _ (by simp [Store.Find, hfind])]
    simp [Store.Find, hnil, fates, rejectionEntries]

/-- C10 as amended, on the sample process with a saved row of `port`: after `save foo y`,
`remove foo` and a pass, the store holds the row of `port` alone and the live value of `foo`
is `y`. -/
theorem reconcile_after_remove_witness :
    getSetting samplePortSaved.settings "foo" = .ok (stringSetting "foo" "Foo setting" fooPtr) ∧
    ((stringSetting "foo" "Foo setting" fooPtr).SetFunc "y" samplePortSaved.vars).1 = none ∧
    samplePortSaved.db.saveErr = none ∧ samplePortSaved.db.deleteErr = none ∧
    samplePortSaved.db.findErr = none ∧
    samplePortSaved.db.rows = [("port", "9090")] ∧
    (SettingsRemoveCommand.Run ⟨"foo"⟩
        (SettingsSaveCommand.Run ⟨"foo", "y"⟩ samplePortSaved).world).world.db.rows
      = [("port", "9090")] ∧
    (RetrieveAppSettings
      (SettingsRemoveCommand.Run ⟨"foo"⟩
        (SettingsSaveCommand.Run ⟨"foo", "y"⟩ samplePortSaved).world).world).2.vars.foo
      = "y" ∧
    (RetrieveAppSettings
      (SettingsRemoveCommand.Run ⟨"foo"⟩
        (SettingsSaveCommand.Run ⟨"foo", "y"⟩ samplePortSaved).world).world).2.vars
      = { foo := "y", port := 9090, level := 1 } :=
  have hframe : ∀ row ∈ samplePortSaved.db.rows, row.1 ≠ "foo" →
      ∀ s2, getSetting samplePortSaved.settings row.1 = .ok s2 →
        ∀ m, (stringSetting "foo" "Foo setting" fooPtr).GetFunc (s2.SetFunc row.2 m).2
          = (stringSetting "foo" "Foo setting" fooPtr).GetFunc m := by
    intro row hrow _ s2 hs2 m
    have hr : row = ("port", "9090") := by
      have : samplePortSaved.db.rows = [("port", "9090")] := by decide
      rw [this] at hrow
      simpa using hrow
    subst hr
    have hg : getSetting samplePortSaved.settings "port"
        = .ok (intSetting sampleQuote "port" "Listen port" portPtr) := rfl
    rw [hg] at hs2
    injection hs2 with hs2
    subst hs2
    rfl
  ⟨rfl, rfl, rfl, rfl, rfl, by decide,
    ((reconcile_after_remove stableSort samplePortSaved "foo" "y"
      (stringSetting "foo" "Foo setting" fooPtr) rfl rfl rfl rfl rfl).2.1).trans (by decide),
    ((reconcile_after_remove stableSort samplePortSaved "foo" "y"
      (stringSetting "foo" "Foo setting" fooPtr) rfl rfl rfl rfl rfl).2.2.2.2.1 hframe).1,
    by decide⟩

/-! ## The integer settings: the round trip, for every accepted string and every value -/

theorem stores_signed {σ : Type} (quote : String → String) (S : Setting σ) (pi : Ptr σ Int)
    (hpi : ∀ a m, pi.load (pi.store a m) = a)
    (parse : String → Int × Option NumError) (conv : Int → Int) (lo hi : Int)
    (hS : ∀ s m, S.SetFunc s m =
      match parse s with
      | (_, some err) => (some (err.Error quote), m)
      | (i, none) => (none, pi.store (conv i) m))
    (hG : ∀ m, S.GetFunc m = FormatInt (pi.load m))
    (hconv : ∀ i, lo ≤ i → i ≤ hi → conv i = i)
    (hback : ∀ i, lo ≤ i → i ≤ hi → parse (FormatInt i) = (i, none)) :
    AcceptsWhatParses S parse ∧
    StoresEveryValue S pi.load FormatInt (fun v => lo ≤ v ∧ v ≤ hi) := by
  refine ⟨?_, ?_⟩
  · intro s m
    rw [hS]
    rcases hp : parse s with ⟨i, e⟩
    cases e <;> simp
  · intro v hv m
    rw [hS, hback v hv.1 hv.2]
    simp only [hpi, hG, hconv v hv.1 hv.2]
    exact ⟨trivial, trivial, trivial⟩

theorem stores_unsigned {σ : Type} (quote : String → String) (S : Setting σ) (pn : Ptr σ Nat)
    (hpn : ∀ a m, pn.load (pn.store a m) = a)
    (parse : String → Nat × Option NumError) (conv : Nat → Nat) (hi : Nat)
    (hS : ∀ s m, S.SetFunc s m =
      match parse s with
      | (_, some err) => (some (err.Error quote), m)
      | (u, none) => (none, pn.store (conv u) m))
    (hG : ∀ m, S.GetFunc m = FormatUint (pn.load m))
    (hconv : ∀ u, u ≤ hi → conv u = u)
    (hback : ∀ u, u ≤ hi → parse (FormatUint u) = (u, none)) :
    AcceptsWhatParses S parse ∧
    StoresEveryValue S pn.load FormatUint (fun v => v ≤ hi) := by
  refine ⟨?_, ?_⟩
  · intro s m
    rw [hS]
    rcases hp : parse s with ⟨i, e⟩
    cases e <;> simp
  · intro v hv m
    rw [hS, hback v hv]
    simp only [hpn, hG, hconv v hv]
    exact ⟨trivial, trivial, trivial⟩

/-- C13: for each of the ten integer settings, bound to a variable that reads back what is
stored in it, the codec is round-trip stable. `set` accepts exactly the strings the parser of
the type accepts; whenever `set` accepts a string, the bound variable holds the value parsed
from it, `set` accepts the string `get` then returns (`get` is total) and leaves the bound
variable with the same value; and for every value `v` of the type and every memory, `set`
accepts the decimal formatting of `v`, leaves the bound variable equal to `v`, and `get` then
returns that formatting, so that parsing the formatting of `v` succeeds and yields `v`.
`int` and `uint` have 64 bits. -/
theorem integer_settings_round_trip {σ : Type} (quote : String → String)
    (name description : String)
    (pi : Ptr σ Int) (pn : Ptr σ Nat)
    (hpi : ∀ a m, pi.load (pi.store a m) = a) (hpn : ∀ a m, pn.load (pn.store a m) = a) :
    (RoundTrips (intSetting quote name description pi) pi.load Atoi ∧
     RoundTrips (int8Setting quote name description pi) pi.load (fun s => ParseInt s 8) ∧
     RoundTrips (int16Setting quote name description pi) pi.load (fun s => ParseInt s 16) ∧
     RoundTrips (int32Setting quote name description pi) pi.load (fun s => ParseInt s 32) ∧
     RoundTrips (int64Setting quote name description pi) pi.load (fun s => ParseInt s 64) ∧
     RoundTrips (uintSetting quote name description pn) pn.load (fun s => ParseUint s 64) ∧
     RoundTrips (uint8Setting quote name description pn) pn.load (fun s => ParseUint s 8) ∧
     RoundTrips (uint16Setting quote name description pn) pn.load (fun s => ParseUint s 16) ∧
     RoundTrips (uint32Setting quote name description pn) pn.load (fun s => ParseUint s 32) ∧
     RoundTrips (uint64Setting quote name description pn) pn.load (fun s => ParseUint s 64)) ∧
    ((∀ v : Int, -9223372036854775808 ≤ v → v ≤ 9223372036854775807 →
        Atoi (Itoa v) = (v, none)) ∧
     (∀ v : Int, -128 ≤ v → v ≤ 127 → ParseInt (FormatInt v) 8 = (v, none)) ∧
     (∀ v : Int, -32768 ≤ v → v ≤ 32767 → ParseInt (FormatInt v) 16 = (v, none)) ∧
     (∀ v : Int, -2147483648 ≤ v → v ≤ 2147483647 → ParseInt (FormatInt v) 32 = (v, none)) ∧
     (∀ v : Int, -9223372036854775808 ≤ v → v ≤ 9223372036854775807 →
        ParseInt (FormatInt v) 64 = (v, none)) ∧
     (∀ u : Nat, u ≤ 255 → ParseUint (FormatUint u) 8 = (u, none)) ∧
     (∀ u : Nat, u ≤ 65535 → ParseUint (FormatUint u) 16 = (u, none)) ∧
     (∀ u : Nat, u ≤ 4294967295 → ParseUint (FormatUint u) 32 = (u, none)) ∧
     (∀ u : Nat, u ≤ 18446744073709551615 → ParseUint (FormatUint u) 64 = (u, none))) ∧
    (AcceptsWhatParses (intSetting quote name description pi) Atoi ∧
     AcceptsWhatParses (int8Setting quote name description pi) (fun s => ParseInt s 8) ∧
     AcceptsWhatParses (int16Setting quote name description pi) (fun s => ParseInt s 16) ∧
     AcceptsWhatParses (int32Setting quote name description pi) (fun s => ParseInt s 32) ∧
     AcceptsWhatParses (int64Setting quote name description pi) (fun s => ParseInt s 64) ∧
     AcceptsWhatParses (uintSetting quote name description pn) (fun s => ParseUint s 64) ∧
     AcceptsWhatParses (uint8Setting quote name description pn) (fun s => ParseUint s 8) ∧
     AcceptsWhatParses (uint16Setting quote name description pn) (fun s => ParseUint s 16) ∧
     AcceptsWhatParses (uint32Setting quote name description pn) (fun s => ParseUint s 32) ∧
     AcceptsWhatParses (uint64Setting quote name description pn) (fun s => ParseUint s 64)) ∧
    (StoresEveryValue (intSetting quote name description pi) pi.load Itoa
        (fun v => -9223372036854775808 ≤ v ∧ v ≤ 9223372036854775807) ∧
     StoresEveryValue (int8Setting quote name description pi) pi.load FormatInt
        (fun v => -128 ≤ v ∧ v ≤ 127) ∧
     StoresEveryValue (int16Setting quote name description pi) pi.load FormatInt
        (fun v => -32768 ≤ v ∧ v ≤ 32767) ∧
     StoresEveryValue (int32Setting quote name description pi) pi.load FormatInt
        (fun v => -2147483648 ≤ v ∧ v ≤ 2147483647) ∧
     StoresEveryValue (int64Setting quote name description pi) pi.load FormatInt
        (fun v => -9223372036854775808 ≤ v ∧ v ≤ 9223372036854775807) ∧
     StoresEveryValue (uintSetting quote name description pn) pn.load FormatUint
        (fun v => v ≤ 18446744073709551615) ∧
     StoresEveryValue (uint8Setting quote name description pn) pn.load FormatUint
        (fun v => v ≤ 255) ∧
     StoresEveryValue (uint16Setting quote name description pn) pn.load FormatUint
        (fun v => v ≤ 65535) ∧
     StoresEveryValue (uint32Setting quote name description pn) pn.load FormatUint
        (fun v => v ≤ 4294967295) ∧
     StoresEveryValue (uint64Setting quote name description pn) pn.load FormatUint
        (fun v => v ≤ 18446744073709551615)) := by
  have hA : (∀ s i, Atoi s = (i, none) →
        (-9223372036854775808 : Int) ≤ i ∧ i ≤ 9223372036854775807) ∧
      (∀ v : Int, -9223372036854775808 ≤ v → v ≤ 9223372036854775807 →
        Atoi (Itoa v) = (v, none)) := by
    refine ⟨fun s i h => ?_, fun v h1 h2 => Atoi_Itoa v (by norm_num; exact h1)
      (by norm_num; exact h2)⟩
    have := Atoi_range s i h
    norm_num at this
    exact this
  have h8 := ParseInt_range_num 8 (by norm_num) (by norm_num) (-128) 127 (by norm_num)
    (by norm_num)
  have h16 := ParseInt_range_num 16 (by norm_num) (by norm_num) (-32768) 32767 (by norm_num)
    (by norm_num)
  have h32 := ParseInt_range_num 32 (by norm_num) (by norm_num) (-2147483648) 2147483647
    (by norm_num) (by norm_num)
  have h64 := ParseInt_range_num 64 (by norm_num) (by norm_num) (-9223372036854775808)
    9223372036854775807 (by norm_num) (by norm_num)
  have u8 := ParseUint_range_num 8 (by norm_num) 255 (by norm_num)
  have u16 := ParseUint_range_num 16 (by norm_num) 65535 (by norm_num)
  have u32 := ParseUint_range_num 32 (by norm_num) 4294967295 (by norm_num)
  have u64 := ParseUint_range_num 64 (by norm_num) 18446744073709551615 (by norm_num)
  have sA := stores_signed quote (intSetting quote name description pi) pi hpi Atoi id
    (-9223372036854775808) 9223372036854775807 (fun _ _ => rfl) (fun _ => rfl)
    (fun _ _ _ => rfl) hA.2
  have s8 := stores_signed quote (int8Setting quote name description pi) pi hpi
    (fun s => ParseInt s 8) (toSigned 8) (-128) 127 (fun _ _ => rfl) (fun _ => rfl)
    h8.2.1 h8.2.2
  have s16 := stores_signed quote (int16Setting quote name description pi) pi hpi
    (fun s => ParseInt s 16) (toSigned 16) (-32768) 32767 (fun _ _ => rfl) (fun _ => rfl)
    h16.2.1 h16.2.2
  have s32 := stores_signed quote (int32Setting quote name description pi) pi hpi
    (fun s => ParseInt s 32) (toSigned 32) (-2147483648) 2147483647 (fun _ _ => rfl)
    (fun _ => rfl) h32.2.1 h32.2.2
  have s64 := stores_signed quote (int64Setting quote name description pi) pi hpi
    (fun s => ParseInt s 64) id (-9223372036854775808) 9223372036854775807 (fun _ _ => rfl)
    (fun _ => rfl) (fun _ _ _ => rfl) h64.2.2
  have tU := stores_unsigned quote (uintSetting quote name description pn) pn hpn
    (fun s => ParseUint s 64) (fun u => u % 2 ^ 64) 18446744073709551615 (fun _ _ => rfl)
    (fun _ => rfl) u64.2.1 u64.2.2
  have t8 := stores_unsigned quote (uint8Setting quote name description pn) pn hpn
    (fun s => ParseUint s 8) (fun u => u % 2 ^ 8) 255 (fun _ _ => rfl)
    (fun _ => rfl) u8.2.1 u8.2.2
  have t16 := stores_unsigned quote (uint16Setting quote name description pn) pn hpn
    (fun s => ParseUint s 16) (fun u => u % 2 ^ 16) 65535 (fun _ _ => rfl)
    (fun _ => rfl) u16.2.1 u16.2.2
  have t32 := stores_unsigned quote (uint32Setting quote name description pn) pn hpn
    (fun s => ParseUint s 32) (fun u => u % 2 ^ 32) 4294967295 (fun _ _ => rfl)
    (fun _ => rfl) u32.2.1 u32.2.2
  have t64 := stores_unsigned quote (uint64Setting quote name description pn) pn hpn
    (fun s => ParseUint s 64) id 18446744073709551615 (fun _ _ => rfl)
    (fun _ => rfl) (fun _ _ => rfl) u64.2.2
  refine ⟨⟨?_, ?_, ?_, ?_, ?_, ?_, ?_, ?_, ?_, ?_⟩,
    ⟨hA.2, h8.2.2, h16.2.2, h32.2.2, h64.2.2, u8.2.2, u16.2.2, u32.2.2, u64.2.2⟩,
    ⟨sA.1, s8.1, s16.1, s32.1, s64.1, tU.1, t8.1, t16.1, t32.1, t64.1⟩,
    ⟨sA.2, s8.2, s16.2, s32.2, s64.2, tU.2, t8.2, t16.2, t32.2, t64.2⟩⟩
  · exact roundTrips_signed quote _ pi hpi Atoi id _ _ (fun _ _ => rfl) (fun _ => rfl)
      hA.1 (fun _ _ _ => rfl) hA.2
  · exact roundTrips_signed quote _ pi hpi _ (toSigned 8) _ _ (fun _ _ => rfl) (fun _ => rfl)
      h8.1 h8.2.1 h8.2.2
  · exact roundTrips_signed quote _ pi hpi _ (toSigned 16) _ _ (fun _ _ => rfl) (fun _ => rfl)
      h16.1 h16.2.1 h16.2.2
  · exact roundTrips_signed quote _ pi hpi _ (toSigned 32) _ _ (fun _ _ => rfl) (fun _ => rfl)
      h32.1 h32.2.1 h32.2.2
  · exact roundTrips_signed quote _ pi hpi _ id _ _ (fun _ _ => rfl) (fun _ => rfl)
      h64.1 (fun _ _ _ => rfl) h64.2.2
  · exact roundTrips_unsigned quote _ pn hpn _ (fun u => u % 2 ^ 64) _ (fun _ _ => rfl)
      (fun _ => rfl) u64.1 u64.2.1 u64.2.2
  · exact roundTrips_unsigned quote _ pn hpn _ (fun u => u % 2 ^ 8) _ (fun _ _ => rfl)
      (fun _ => rfl) u8.1 u8.2.1 u8.2.2
  · exact roundTrips_unsigned quote _ pn hpn _ (fun u => u % 2 ^ 16) _ (fun _ _ => rfl)
      (fun _ => rfl) u16.1 u16.2.1 u16.2.2
  · exact roundTrips_unsigned quote _ pn hpn _ (fun u => u % 2 ^ 32) _ (fun _ _ => rfl)
      (fun _ => rfl) u32.1 u32.2.1 u32.2.2
  · exact roundTrips_unsigned quote _ pn hpn _ id _ (fun _ _ => rfl) (fun _ => rfl)
      u64.1 (fun _ _ => rfl) u64.2.2

/-- C13 on the sample process. The `int8` setting accepts `+007`, `get` then returns `7`, and
setting `7` leaves the bound variable at the same value; and each of the ten settings, given
the formatting of a value at an end of its range, accepts it and leaves the bound variable
equal to that value. -/
theorem integer_settings_round_trip_witness :
    (∀ a m, levelPtr.load (levelPtr.store a m) = a) ∧
    (∀ a m, portNatPtr.load (portNatPtr.store a m) = a) ∧
    ((int8Setting sampleQuote "level" "Log level" levelPtr).SetFunc "+007"
      sampleWorld.vars).1 = none ∧
    (int8Setting sampleQuote "level" "Log level" levelPtr).GetFunc
      ((int8Setting sampleQuote "level" "Log level" levelPtr).SetFunc "+007"
        sampleWorld.vars).2 = "7" ∧
    levelPtr.load
      ((int8Setting sampleQuote "level" "Log level" levelPtr).SetFunc
        ((int8Setting sampleQuote "level" "Log level" levelPtr).GetFunc
          ((int8Setting sampleQuote "level" "Log level" levelPtr).SetFunc "+007"
            sampleWorld.vars).2)
        ((int8Setting sampleQuote "level" "Log level" levelPtr).SetFunc "+007"
          sampleWorld.vars).2).2
      = levelPtr.load
          ((int8Setting sampleQuote "level" "Log level" levelPtr).SetFunc "+007"
            sampleWorld.vars).2 ∧
    levelPtr.load ((intSetting sampleQuote "level" "Log level" levelPtr).SetFunc
      (Itoa 9223372036854775807) sampleWorld.vars).2 = 9223372036854775807 ∧
    levelPtr.load ((int8Setting sampleQuote "level" "Log level" levelPtr).SetFunc
      (FormatInt (-128)) sampleWorld.vars).2 = -128 ∧
    levelPtr.load ((int16Setting sampleQuote "level" "Log level" levelPtr).SetFunc
      (FormatInt 32767) sampleWorld.vars).2 = 32767 ∧
    levelPtr.load ((int32Setting sampleQuote "level" "Log level" levelPtr).SetFunc
      (FormatInt (-2147483648)) sampleWorld.vars).2 = -2147483648 ∧
    levelPtr.load ((int64Setting sampleQuote "level" "Log level" levelPtr).SetFunc
      (FormatInt (-9223372036854775808)) sampleWorld.vars).2 = -9223372036854775808 ∧
    portNatPtr.load ((uintSetting sampleQuote "level" "Log level" portNatPtr).SetFunc
      (FormatUint 18446744073709551615) sampleWorld.vars).2 = 18446744073709551615 ∧
    portNatPtr.load ((uint8Setting sampleQuote "level" "Log level" portNatPtr).SetFunc
      (FormatUint 255) sampleWorld.vars).2 = 255 ∧
    portNatPtr.load ((uint16Setting sampleQuote "level" "Log level" portNatPtr).SetFunc
      (FormatUint 65535) sampleWorld.vars).2 = 65535 ∧
    portNatPtr.load ((uint32Setting sampleQuote "level" "Log level" portNatPtr).SetFunc
      (FormatUint 4294967295) sampleWorld.vars).2 = 4294967295 ∧
    portNatPtr.load ((uint64Setting sampleQuote "level" "Log level" portNatPtr).SetFunc
      (FormatUint 0) sampleWorld.vars).2 = 0 ∧
    FormatInt (-128) = "-128" ∧ FormatUint 65535 = "65535" :=
  have hn : ∀ (a : Nat) (m : SampleVars), portNatPtr.load (portNatPtr.store a m) = a :=
    fun a m => by simp [portNatPtr]
  have T := integer_settings_round_trip sampleQuote "level" "Log level" levelPtr portNatPtr
    (fun _ _ => rfl) hn
  ⟨fun _ _ => rfl, hn, by decide, by decide,
    (T.1.2.1 "+007" sampleWorld.vars (by decide)).2.2,
    (T.2.2.2.1 9223372036854775807 ⟨by decide, by decide⟩ sampleWorld.vars).2.1,
    (T.2.2.2.2.1 (-128) ⟨by decide, by decide⟩ sampleWorld.vars).2.1,
    (T.2.2.2.2.2.1 32767 ⟨by decide, by decide⟩ sampleWorld.vars).2.1,
    (T.2.2.2.2.2.2.1 (-2147483648) ⟨by decide, by decide⟩ sampleWorld.vars).2.1,
    (T.2.2.2.2.2.2.2.1 (-9223372036854775808) ⟨by decide, by decide⟩ sampleWorld.vars).2.1,
    (T.2.2.2.2.2.2.2.2.1 18446744073709551615 (by decide) sampleWorld.vars).2.1,
    (T.2.2.2.2.2.2.2.2.2.1 255 (by decide) sampleWorld.vars).2.1,
    (T.2.2.2.2.2.2.2.2.2.2.1 65535 (by decide) sampleWorld.vars).2.1,
    (T.2.2.2.2.2.2.2.2.2.2.2.1 4294967295 (by decide) sampleWorld.vars).2.1,
    (T.2.2.2.2.2.2.2.2.2.2.2.2 0 (by decide) sampleWorld.vars).2.1,
    by decide, by decide⟩

/-! ## Concurrent registration: every caller returns, and no update is lost -/

theorem regRun_append {σ : Type} (a b : List Nat) (st : RegState σ) :
    regRun (a ++ b) st = regRun b (regRun a st) := by
  simp [regRun, List.foldl_append]

theorem holderLive_init {σ : Type} (init args : List (Setting σ)) :
    ∀ i, (regInit init args).holder = some i →
      ∃ c, (regInit init args).callers[i]? = some c ∧ c.2.inCritical = true := by
  intro i h
  simp [regInit] at h

theorem holderLive_step {σ : Type} (j : Nat) (st : RegState σ)
    (hl : ∀ i, st.holder = some i → ∃ c, st.callers[i]? = some c ∧ c.2.inCritical = true) :
    ∀ i, (regStep j st).holder = some i →
      ∃ c, (regStep j st).callers[i]? = some c ∧ c.2.inCritical = true := by
  unfold regStep
  cases hj : st.callers[j]? with
  | none => exact hl
  | some c =>
    rcases c with ⟨s, pc⟩
    have hlt : j < st.callers.length := by
      rcases Nat.lt_or_ge j st.callers.length with h | h
      · exact h
      · rw [List.getElem?_eq_none h] at hj
        cases hj
    have key : ∀ (pc2 : RegPC σ), pc2.inCritical = true → ∀ i : Nat,
        (∃ c : Setting σ × RegPC σ, st.callers[i]? = some c ∧ c.2.inCritical = true) →
        ∃ c : Setting σ × RegPC σ,
          (st.callers.set j (s, pc2))[i]? = some c ∧ c.2.inCritical = true := by
      intro pc2 hpc2 i hc
      by_cases hij : j = i
      · subst hij
        exact ⟨(s, pc2), by rw [List.getElem?_set_self hlt], hpc2⟩
      · obtain ⟨c, hc1, hc2⟩ := hc
        exact ⟨c, by rw [List.getElem?_set_ne hij]; exact hc1, hc2⟩
    cases pc with
    | start =>
      simp only
      split
      · intro i hi
        simp only [Option.some.injEq] at hi
        subst hi
        exact ⟨(s, RegPC.locked), by rw [List.getElem?_set_self hlt], rfl⟩
      · exact hl
    | locked =>
      intro i hi
      exact key (RegPC.appended (st.settings ++ [s])) rfl i (hl i hi)
    | appended r =>
      intro i hi
      exact key RegPC.assigned rfl i (hl i hi)
    | assigned =>
      intro i hi
      simp at hi
    | done => exact hl

theorem holderLive_run {σ : Type} (schedule : List Nat) (st : RegState σ)
    (hl : ∀ i, st.holder = some i → ∃ c, st.callers[i]? = some c ∧ c.2.inCritical = true) :
    ∀ i, (regRun schedule st).holder = some i →
      ∃ c, (regRun schedule st).callers[i]? = some c ∧ c.2.inCritical = true := by
  induction schedule generalizing st with
  | nil => exact hl
  | cons j t ih => exact ih _ (holderLive_step j st hl)

theorem regRun_four {σ : Type} (st : RegState σ) (j : Nat) (s : Setting σ) (pc : RegPC σ)
    (hh : st.holder = none) (hj : st.callers[j]? = some (s, pc))
    (hpc : pc = RegPC.start ∨ pc = RegPC.done) :
    (regRun [j, j, j, j] st).holder = none ∧
    (regRun [j, j, j, j] st).callers = st.callers.set j (s, RegPC.done) := by
  have hlt : j < st.callers.length := by
    rcases Nat.lt_or_ge j st.callers.length with h | h
    · exact h
    · rw [List.getElem?_eq_none h] at hj
      cases hj
  rcases hpc with rfl | rfl
  · simp [regRun, regStep, hj, hh, List.getElem?_set_self hlt]
  · have hset : st.callers.set j (s, RegPC.done) = st.callers := by
      apply List.ext_getElem?
      intro k
      by_cases hk : j = k
      · subst hk
        rw [List.getElem?_set_self hlt, hj]
      · rw [List.getElem?_set_ne hk]
    simp [regRun, regStep, hj, hh, hset]

theorem sequential_done {σ : Type} (k : Nat) (st : RegState σ) (hh : st.holder = none)
    (hidle : ∀ c ∈ st.callers, c.2 = RegPC.start ∨ c.2 = RegPC.done)
    (hk : k ≤ st.callers.length) :
    (regRun (sequential k) st).holder = none ∧
    (regRun (sequential k) st).callers.length = st.callers.length ∧
    (∀ c ∈ (regRun (sequential k) st).callers, c.2 = RegPC.start ∨ c.2 = RegPC.done) ∧
    (∀ (i : Nat) c, i < k → (regRun (sequential k) st).callers[i]? = some c →
      c.2 = RegPC.done) := by
  induction k with
  | zero =>
    refine ⟨hh, rfl, hidle, ?_⟩
    intro i c hi
    omega
  | succ k ih =>
    obtain ⟨h1, h2, h3, h4⟩ := ih (by omega)
    have hklt : k < (regRun (sequential k) st).callers.length := by omega
    obtain ⟨⟨s, pc⟩, hc⟩ : ∃ c, (regRun (sequential k) st).callers[k]? = some c :=
      ⟨_, List.getElem?_eq_getElem hklt⟩
    have hpc := h3 (s, pc) (List.mem_iff_getElem?.mpr ⟨k, hc⟩)
    obtain ⟨f1, f2⟩ := regRun_four (regRun (sequential k) st) k s pc h1 hc hpc
    have hrun : regRun (sequential (k + 1)) st
        = regRun [k, k, k, k] (regRun (sequential k) st) := by
      show regRun (sequential k ++ [k, k, k, k]) st = _
      rw [regRun_append]
    rw [hrun]
    refine ⟨f1, ?_, ?_, ?_⟩
    · rw [f2, List.length_set, h2]
    · intro c hcm
      rw [f2] at hcm
      rcases List.mem_or_eq_of_mem_set hcm with h | h
      · exact h3 c h
      · subst h
        exact Or.inr rfl
    · intro i c hi hci
      rw [f2] at hci
      rcases getElem?_set_cases _ _ _ _ _ hci with ⟨_, h⟩ | ⟨hne, h⟩
      · subst h
        rfl
      · exact h4 i c (by omega) h

theorem idle_of_exclusive {σ : Type} (callers : List (Setting σ × RegPC σ)) (holder : Option Nat)
    (hex : ∀ (i : Nat) c, callers[i]? = some c → c.2.inCritical = true → holder = some i)
    (skip : Nat)
    (hskip : ∀ i, holder = some i → i = skip) :
    ∀ (k : Nat) c, k ≠ skip → callers[k]? = some c →
      c.2 = RegPC.start ∨ c.2 = RegPC.done := by
  intro k c hk hc
  rcases c with ⟨s, pc⟩
  cases pc with
  | start => exact Or.inl rfl
  | done => exact Or.inr rfl
  | locked => exact absurd (hskip k (hex k _ hc rfl)) hk
  | appended r => exact absurd (hskip k (hex k _ hc rfl)) hk
  | assigned => exact absurd (hskip k (hex k _ hc rfl)) hk

theorem release_run {σ : Type} (st : RegState σ) (i : Nat) (s : Setting σ) (pc : RegPC σ)
    (hi : st.callers[i]? = some (s, pc)) (hpc : pc.inCritical = true) :
    (regRun [i, i, i] st).holder = none ∧
    (regRun [i, i, i] st).callers = st.callers.set i (s, RegPC.done) := by
  have hlt : i < st.callers.length := by
    rcases Nat.lt_or_ge i st.callers.length with h | h
    · exact h
    · rw [List.getElem?_eq_none h] at hi
      cases hi
  cases pc with
  | start => simp [RegPC.inCritical] at hpc
  | done => simp [RegPC.inCritical] at hpc
  | locked => simp [regRun, regStep, hi, List.getElem?_set_self hlt]
  | appended r => simp [regRun, regStep, hi, List.getElem?_set_self hlt]
  | assigned => simp [regRun, regStep, hi, List.getElem?_set_self hlt]

theorem completion_done {σ : Type} (st : RegState σ)
    (hex : ∀ (i : Nat) c, st.callers[i]? = some c → c.2.inCritical = true → st.holder = some i)
    (hl : ∀ i, st.holder = some i → ∃ c, st.callers[i]? = some c ∧ c.2.inCritical = true) :
    ∀ c ∈ (regRun (completion st) st).callers, c.2.isDone = true := by
  have hfin : ∀ st1 : RegState σ, st1.holder = none →
      (∀ c ∈ st1.callers, c.2 = RegPC.start ∨ c.2 = RegPC.done) →
      ∀ c ∈ (regRun (sequential st1.callers.length) st1).callers, c.2.isDone = true := by
    intro st1 h1 h2 c hc
    obtain ⟨_, hlen, _, hd⟩ := sequential_done st1.callers.length st1 h1 h2 (Nat.le_refl _)
    obtain ⟨k, hk⟩ := List.mem_iff_getElem?.mp hc
    have hklt : k < st1.callers.length := by
      rcases Nat.lt_or_ge k st1.callers.length with h | h
      · exact h
      · rw [List.getElem?_eq_none (by rw [hlen]; exact h)] at hk
        cases hk
    rw [hd k c hklt hk]
    rfl
  unfold completion
  rw [regRun_append]
  cases hh : st.holder with
  | none =>
    have hidle : ∀ c ∈ st.callers, c.2 = RegPC.start ∨ c.2 = RegPC.done := by
      intro c hc
      obtain ⟨k, hk⟩ := List.mem_iff_getElem?.mp hc
      exact idle_of_exclusive st.callers st.holder hex (k + 1)
        (fun i hi => by rw [hh] at hi; cases hi) k c (by omega) hk
    exact hfin st hh hidle
  | some i =>
    obtain ⟨⟨s, pc⟩, hc1, hc2⟩ := hl i hh
    obtain ⟨r1, r2⟩ := release_run st i s pc hc1 hc2
    have hidle : ∀ c ∈ (regRun [i, i, i] st).callers,
        c.2 = RegPC.start ∨ c.2 = RegPC.done := by
      intro c hc
      rw [r2] at hc
      obtain ⟨k, hk⟩ := List.mem_iff_getElem?.mp hc
      rcases getElem?_set_cases _ _ _ _ _ hk with ⟨_, h⟩ | ⟨hne, h⟩
      · subst h
        exact Or.inr rfl
      · exact idle_of_exclusive st.callers st.holder hex i
          (fun j hj => by rw [hh] at hj; exact (Option.some.inj hj).symm) k c
          (fun e => hne e.symm) h
    have hlen : (regRun [i, i, i] st).callers.length = st.callers.length := by
      rw [r2, List.length_set]
    have := hfin (regRun [i, i, i] st) r1 hidle
    rw [hlen] at this
    exact this

/-- C19: callers of `RegisterSetting` run in parallel, one per setting of `args`, the names
pairwise distinct, on an empty registry; an interleaving is a schedule of their steps (lock,
read, assign, unlock). A caller alone leaves what `RegisterSetting` leaves. Under every
schedule at most one caller is between `Lock` and `Unlock`. Whatever steps have been taken,
the callers can all return: the holder of the lock taking the steps it has left and the
others then running in turn, every caller has returned, and the registry then has exactly
as many entries as there are callers and `getSetting` finds each argument under its name.
And whenever every caller has returned, the registry has exactly as many entries as there
are callers, is a rearrangement of their arguments, and `getSetting` finds each of them
under its name. -/
theorem concurrent_registration_no_lost_update {σ : Type} (args : List (Setting σ))
    (hnames : (args.map (fun s => s.Name)).Nodup) (schedule : List Nat) :
    (∀ (w : World σ) (s : Setting σ),
      (regRun [0, 0, 0, 0] (regInit w.settings [s])).settings = (RegisterSetting s w).settings) ∧
    (∀ (i j : Nat) ci cj, (regRun schedule (regInit [] args)).callers[i]? = some ci →
      (regRun schedule (regInit [] args)).callers[j]? = some cj →
      ci.2.inCritical = true → cj.2.inCritical = true → i = j) ∧
    ((∀ c ∈ (regRun (schedule ++ completion (regRun schedule (regInit [] args)))
          (regInit [] args)).callers, c.2.isDone = true) ∧
      (regRun (schedule ++ completion (regRun schedule (regInit [] args)))
          (regInit [] args)).settings.length = args.length ∧
      ∀ s ∈ args,
        getSetting (regRun (schedule ++ completion (regRun schedule (regInit [] args)))
          (regInit [] args)).settings s.Name = .ok s) ∧
    ((∀ c ∈ (regRun schedule (regInit [] args)).callers, c.2.isDone = true) →
      (regRun schedule (regInit [] args)).settings.length = args.length ∧
      (regRun schedule (regInit [] args)).settings.Perm args ∧
      ∀ s ∈ args, getSetting (regRun schedule (regInit [] args)).settings s.Name = .ok s) := by
  have hall : ∀ sched : List Nat,
      (∀ c ∈ (regRun sched (regInit [] args)).callers, c.2.isDone = true) →
      (regRun sched (regInit [] args)).settings.length = args.length ∧
      (regRun sched (regInit [] args)).settings.Perm args ∧
      ∀ s ∈ args, getSetting (regRun sched (regInit [] args)).settings s.Name = .ok s := by
    intro sched hdone
    have inv := regInv_run [] args sched _ (regInv_init [] args)
    have hperm : (regRun sched (regInit [] args)).settings.Perm args := by
      have h := inv.registry
      rw [filterMap_committed_of_done _ hdone, inv.args_kept, List.nil_append] at h
      exact h
    exact ⟨hperm.length_eq, hperm, fun s hs => getSetting_of_perm _ _ hperm hnames s hs⟩
  have inv := regInv_run [] args schedule _ (regInv_init [] args)
  have hl := holderLive_run schedule _ (holderLive_init [] args)
  have hdone : ∀ c ∈ (regRun (schedule ++ completion (regRun schedule (regInit [] args)))
      (regInit [] args)).callers, c.2.isDone = true := by
    rw [regRun_append]
    exact completion_done _ inv.exclusive hl
  refine ⟨?_, ?_, ⟨hdone, (hall _ hdone).1, (hall _ hdone).2.2⟩, hall schedule⟩
  · intro w s
    simp [regRun, regStep, regInit, RegisterSetting]
  · intro i j ci cj hi hj hci hcj
    have h1 := inv.exclusive i ci hi hci
    have h2 := inv.exclusive j cj hj hcj
    rw [h1] at h2
    exact Option.some.inj h2

/-- C19 on the three settings of the sample process, registered by three callers whose
steps are interleaved: every caller returns, the registry has three entries, and each name is
found; and from the state after four steps, in which caller 2 holds the lock and the two
others wait, the callers return under the schedule that lets caller 2 finish and then runs
the callers in turn. -/
theorem concurrent_registration_no_lost_update_witness :
    (sampleWorld.settings.map (fun s => s.Name)).Nodup ∧
    (∀ c ∈ (regRun [2, 1, 0, 2, 0, 0, 1, 2, 1, 1, 1, 2, 0, 0, 0, 0, 0, 1, 1, 1, 1]
        (regInit [] sampleWorld.settings)).callers, c.2.isDone = true) ∧
    (regRun [2, 1, 0, 2, 0, 0, 1, 2, 1, 1, 1, 2, 0, 0, 0, 0, 0, 1, 1, 1, 1]
        (regInit [] sampleWorld.settings)).settings.length = 3 ∧
    (regRun [2, 1, 0, 2, 0, 0, 1, 2, 1, 1, 1, 2, 0, 0, 0, 0, 0, 1, 1, 1, 1]
        (regInit [] sampleWorld.settings)).settings.map (fun s => s.Name)
      = ["level", "foo", "port"] ∧
    completion (regRun [2, 1, 0, 2] (regInit [] sampleWorld.settings))
      = [2, 2, 2, 0, 0, 0, 0, 1, 1, 1, 1, 2, 2, 2, 2] ∧
    (regRun ([2, 1, 0, 2] ++ completion (regRun [2, 1, 0, 2] (regInit [] sampleWorld.settings)))
        (regInit [] sampleWorld.settings)).settings.length = 3 :=
  ⟨by decide, by decide,
    ((concurrent_registration_no_lost_update sampleWorld.settings (by decide)
      [2, 1, 0, 2, 0, 0, 1, 2, 1, 1, 1, 2, 0, 0, 0, 0, 0, 1, 1, 1, 1]).2.2.2 (by decide)).1,
    by decide, by decide,
    (concurrent_registration_no_lost_update sampleWorld.settings (by decide)
      [2, 1, 0, 2]).2.2.1.2.1⟩

/-! ## The timestamp setting: the round trip through the whole of `time.Parse` -/

theorem digitChar_val (d : Nat) (h : d < 10) : (Nat.digitChar d).toNat - 48 = d := by
  rw [digitChar_toNat d h]
  omega

theorem getnum_two (u : Nat) (h : u < 100) (rest : List Char) (fixed : Bool) :
    getnum (Nat.digitChar (u / 10) :: Nat.digitChar (u % 10) :: rest) fixed = some (u, rest) := by
  have h1 : u / 10 < 10 := by omega
  have h2 : u % 10 < 10 := by omega
  simp only [getnum, isDigitChar_digitChar _ h1, isDigitChar_digitChar _ h2, if_true,
    digitChar_val _ h1, digitChar_val _ h2]
  congr 2
  omega

theorem parseLayoutZone_inv (value : List Char) (off : Int) (rest : List Char)
    (h : parseLayoutZone value = some (off, rest)) :
    ∃ hr mm : Nat, hr ≤ 24 ∧ mm ≤ 60 ∧
      (off = (((hr * 60 + mm) * 60 : Nat) : Int) ∨ off = -(((hr * 60 + mm) * 60 : Nat) : Int)) := by
  unfold parseLayoutZone at h
  split at h
  · simp only [Option.some.injEq, Prod.mk.injEq] at h
    exact ⟨0, 0, by omega, by omega, Or.inl (by simp [← h.1])⟩
  · split at h
    · cases h
    · split at h
      · cases h
      · split at h
        · rename_i hr _ mm _ _ _
          split at h
          · cases h
          · rename_i hrange
            split at h
            · simp only [Option.some.injEq, Prod.mk.injEq] at h
              exact ⟨hr, mm, by omega, by omega, Or.inl h.1.symm⟩
            · split at h
              · simp only [Option.some.injEq, Prod.mk.injEq] at h
                exact ⟨hr, mm, by omega, by omega, Or.inr h.1.symm⟩
              · cases h
        · cases h

theorem formatRFC3339_utc (t : Time) (hy : t.year ≤ 9999) (hm : t.month ≤ 12)
    (hd : t.day ≤ 31) (hh : t.hour ≤ 23) (hi : t.min ≤ 59) (hs : t.sec ≤ 59)
    (h0 : t.offset = 0) :
    (formatRFC3339 t).toList =
      Nat.digitChar (t.year / 100 / 10) :: Nat.digitChar (t.year / 100 % 10) ::
      Nat.digitChar (t.year % 100 / 10) :: Nat.digitChar (t.year % 100 % 10) :: '-' ::
      Nat.digitChar (t.month / 10) :: Nat.digitChar (t.month % 10) :: '-' ::
      Nat.digitChar (t.day / 10) :: Nat.digitChar (t.day % 10) :: 'T' ::
      Nat.digitChar (t.hour / 10) :: Nat.digitChar (t.hour % 10) :: ':' ::
      Nat.digitChar (t.min / 10) :: Nat.digitChar (t.min % 10) :: ':' ::
      Nat.digitChar (t.sec / 10) :: Nat.digitChar (t.sec % 10) :: ['Z'] := by
  show (formatRFC3339 t).data = _
  unfold formatRFC3339
  rw [appendInt_four t.year (by omega), appendInt_two t.month (by omega),
    appendInt_two t.day (by omega), appendInt_two t.hour (by omega),
    appendInt_two t.min (by omega), appendInt_two t.sec (by omega), if_pos h0]
  simp only [List.cons_append, List.nil_append, List.append_assoc]

theorem formatRFC3339_zone (t : Time) (hy : t.year ≤ 9999) (hm : t.month ≤ 12)
    (hd : t.day ≤ 31) (hh : t.hour ≤ 23) (hi : t.min ≤ 59) (hs : t.sec ≤ 59)
    (hr mm : Nat) (hhr : hr ≤ 99) (hmm : mm ≤ 59) (h0 : t.offset ≠ 0)
    (hoff : t.offset = (((hr * 60 + mm) * 60 : Nat) : Int) ∨
      t.offset = -(((hr * 60 + mm) * 60 : Nat) : Int)) :
    (formatRFC3339 t).toList =
      Nat.digitChar (t.year / 100 / 10) :: Nat.digitChar (t.year / 100 % 10) ::
      Nat.digitChar (t.year % 100 / 10) :: Nat.digitChar (t.year % 100 % 10) :: '-' ::
      Nat.digitChar (t.month / 10) :: Nat.digitChar (t.month % 10) :: '-' ::
      Nat.digitChar (t.day / 10) :: Nat.digitChar (t.day % 10) :: 'T' ::
      Nat.digitChar (t.hour / 10) :: Nat.digitChar (t.hour % 10) :: ':' ::
      Nat.digitChar (t.min / 10) :: Nat.digitChar (t.min % 10) :: ':' ::
      Nat.digitChar (t.sec / 10) :: Nat.digitChar (t.sec % 10) ::
      [if Int.tdiv t.offset 60 < 0 then '-' else '+',
        Nat.digitChar (hr / 10), Nat.digitChar (hr % 10), ':',
        Nat.digitChar (mm / 10), Nat.digitChar (mm % 10)] := by
  show (formatRFC3339 t).data = _
  unfold formatRFC3339
  obtain ⟨z1, z2, _⟩ := zone_fields t.offset hr mm hmm h0 hoff
  rw [appendInt_four t.year (by omega), appendInt_two t.month (by omega),
    appendInt_two t.day (by omega), appendInt_two t.hour (by omega),
    appendInt_two t.min (by omega), appendInt_two t.sec (by omega), if_neg h0,
    z1, z2, appendInt_two hr (by omega), appendInt_two mm (by omega)]
  by_cases hneg : Int.tdiv t.offset 60 < 0
  · simp only [if_pos hneg, List.cons_append, List.nil_append, List.append_assoc]
  · simp only [if_neg hneg, List.cons_append, List.nil_append, List.append_assoc]

theorem parseRFC3339_explicit_none (y1 y2 y3 y4 m1 m2 d1 d2 h1 h2 i1 i2 s1 s2 : Char)
    (z : List Char)
    (hfrac : fractionDigits z = [])
    (hz : parseZone z = none) :
    parseRFC3339 (y1 :: y2 :: y3 :: y4 :: '-' :: m1 :: m2 :: '-' :: d1 :: d2 :: 'T' ::
        h1 :: h2 :: ':' :: i1 :: i2 :: ':' :: s1 :: s2 :: z) = none := by
  unfold parseRFC3339
  rw [if_neg (by simp only [List.length_cons]; omega)]
  cases parseDateTime (y1 :: y2 :: y3 :: y4 :: '-' :: m1 :: m2 :: '-' :: d1 :: d2 :: 'T' ::
        h1 :: h2 :: ':' :: i1 :: i2 :: ':' :: s1 :: s2 :: z) with
  | none => rfl
  | some t => simp [List.drop, hfrac, hz]

theorem parseLayout_explicit (y1 y2 y3 y4 m1 m2 d1 d2 h1 h2 i1 i2 s1 s2 : Char)
    (z : List Char) (Y M D H I S : Nat)
    (hY : parseField [y1, y2, y3, y4] 0 9999 = some Y)
    (hM : ∀ rest fixed, getnum (m1 :: m2 :: rest) fixed = some (M, rest))
    (hD : ∀ rest fixed, getnum (d1 :: d2 :: rest) fixed = some (D, rest))
    (hH : ∀ rest fixed, getnum (h1 :: h2 :: rest) fixed = some (H, rest))
    (hI : ∀ rest fixed, getnum (i1 :: i2 :: rest) fixed = some (I, rest))
    (hS : ∀ rest fixed, getnum (s1 :: s2 :: rest) fixed = some (S, rest))
    (hM1 : 1 ≤ M) (hM2 : M ≤ 12) (hD1 : 1 ≤ D) (hD2 : D ≤ daysIn M Y)
    (hH2 : H ≤ 23) (hI2 : I ≤ 59) (hS2 : S ≤ 59)
    (hfrac : layoutFractionDigits z = []) :
    parseLayout (y1 :: y2 :: y3 :: y4 :: '-' :: m1 :: m2 :: '-' :: d1 :: d2 :: 'T' ::
        h1 :: h2 :: ':' :: i1 :: i2 :: ':' :: s1 :: s2 :: z)
      = match parseLayoutZone z with
        | some (off, []) =>
          some { year := Y, month := M, day := D, hour := H, min := I, sec := S,
                 nsec := 0, offset := off }
        | _ => none := by
  have e1 : ¬ (M = 0 ∨ 12 < M) := by omega
  have e2 : ¬ (24 ≤ H) := by omega
  have e3 : ¬ (60 ≤ I) := by omega
  have e4 : ¬ (60 ≤ S) := by omega
  have e5 : ¬ (D < 1 ∨ daysIn M Y < D) := by omega
  unfold parseLayout
  simp only [List.length_cons, List.take, List.drop, hY, skipChar, if_true, Option.bind,
    hM, hD, hH, hI, hS, e1, e2, e3, e4, e5, if_false, dropFraction, fractionNanoseconds, hfrac]
  rw [if_neg (by omega)]
  rcases parseLayoutZone z with _ | ⟨off, rest⟩
  · rfl
  · cases rest with
    | nil => simp
    | cons a b => simp

theorem parseLayout_inv (s : List Char) (t : Time) (h : parseLayout s = some t) :
    t.year ≤ 9999 ∧ 1 ≤ t.month ∧ t.month ≤ 12 ∧ 1 ≤ t.day ∧ t.day ≤ daysIn t.month t.year ∧
      t.hour ≤ 23 ∧ t.min ≤ 59 ∧ t.sec ≤ 59 ∧
      ∃ hr mm : Nat, hr ≤ 24 ∧ mm ≤ 60 ∧
        (t.offset = (((hr * 60 + mm) * 60 : Nat) : Int) ∨
          t.offset = -(((hr * 60 + mm) * 60 : Nat) : Int)) := by
  unfold parseLayout at h
  split at h
  · cases h
  · split at h
    · cases h
    · rename_i year hyear
      split at h
      · cases h
      · rename_i month v1 _
        split at h
        · cases h
        · split at h
          · cases h
          · rename_i day v2 _
            split at h
            · cases h
            · rename_i hour v3 _
              split at h
              · cases h
              · split at h
                · cases h
                · rename_i min v4 _
                  split at h
                  · cases h
                  · split at h
                    · cases h
                    · rename_i sec v5 _
                      split at h
                      · cases h
                      · split at h
                        · cases h
                        · rename_i offset rest hzone
                          split at h
                          · cases h
                          · split at h
                            · cases h
                            · simp only [Option.some.injEq] at h
                              subst h
                              have hy := parseField_inv _ _ _ _ hyear
                              have hz := parseLayoutZone_inv _ _ _ hzone
                              simp only
                              refine ⟨hy.2, by omega, by omega, by omega, by omega, by omega,
                                by omega, by omega, hz⟩

theorem timeParse_inv (s : String) (t : Time) (h : timeParse s = some t) :
    t.year ≤ 9999 ∧ 1 ≤ t.month ∧ t.month ≤ 12 ∧ 1 ≤ t.day ∧ t.day ≤ daysIn t.month t.year ∧
      t.hour ≤ 23 ∧ t.min ≤ 59 ∧ t.sec ≤ 59 ∧
      ∃ hr mm : Nat, hr ≤ 24 ∧ mm ≤ 60 ∧
        (t.offset = (((hr * 60 + mm) * 60 : Nat) : Int) ∨
          t.offset = -(((hr * 60 + mm) * 60 : Nat) : Int)) := by
  unfold timeParse at h
  split at h
  · rename_i t0 h0
    simp only [Option.some.injEq] at h
    subst h
    obtain ⟨a1, a2, a3, a4, a5, a6, a7, a8, hr, mm, b1, b2, b3⟩ := parseRFC3339_inv _ _ h0
    exact ⟨a1, a2, a3, a4, a5, a6, a7, a8, hr, mm, by omega, by omega, b3⟩
  · exact parseLayout_inv _ _ h

theorem parseLayoutZone_explicit (sign : Char) (hr mm : Nat)
    (hsign : sign = '-' ∨ sign = '+') (hhr : hr ≤ 24) (hmm : mm ≤ 60) :
    parseLayoutZone [sign, Nat.digitChar (hr / 10), Nat.digitChar (hr % 10), ':',
        Nat.digitChar (mm / 10), Nat.digitChar (mm % 10)]
      = some (if sign = '-' then -(((hr * 60 + mm) * 60 : Nat) : Int)
              else (((hr * 60 + mm) * 60 : Nat) : Int), []) := by
  have e : ¬ (24 < hr ∨ 60 < mm) := by omega
  rcases hsign with rfl | rfl <;>
    simp [parseLayoutZone, List.take, List.drop, getnum_two hr (by omega) [] true,
      getnum_two mm (by omega) [] true, e]

theorem parseLayoutZone_none (sign : Char) (hr mm : Nat)
    (hsign : sign = '-' ∨ sign = '+') (hhr : 24 < hr) (hhr2 : hr ≤ 99) (hmm : mm ≤ 60) :
    parseLayoutZone [sign, Nat.digitChar (hr / 10), Nat.digitChar (hr % 10), ':',
        Nat.digitChar (mm / 10), Nat.digitChar (mm % 10)] = none := by
  rcases hsign with rfl | rfl <;>
    simp [parseLayoutZone, List.take, List.drop, getnum_two hr (by omega) [] true,
      getnum_two mm (by omega) [] true, hhr]

theorem parseZone_none (sign : Char) (hr mm : Nat) (hhr : 23 < hr) (hhr2 : hr ≤ 99) :
    parseZone [sign, Nat.digitChar (hr / 10), Nat.digitChar (hr % 10), ':',
        Nat.digitChar (mm / 10), Nat.digitChar (mm % 10)] = none := by
  have h1 : hr / 10 < 10 := by omega
  have h2 : hr % 10 < 10 := by omega
  have hv : decimalValue [Nat.digitChar (hr / 10), Nat.digitChar (hr % 10)] = hr := by
    simp only [decimalValue, decimalValueFrom, List.foldl_cons, List.foldl_nil,
      digitChar_toNat _ h1, digitChar_toNat _ h2]
    omega
  have hp : parseField [Nat.digitChar (hr / 10), Nat.digitChar (hr % 10)] 0 23 = none := by
    unfold parseField
    simp only [List.all_cons, List.all_nil, isDigitChar_digitChar _ h1,
      isDigitChar_digitChar _ h2, Bool.and_self, if_true, hv]
    rw [if_pos (Or.inr hhr)]
  unfold parseZone
  simp [List.take, List.drop, hp]

theorem offset_bounds (off : Int) (n : Nat)
    (h : off = (((n) * 60 : Nat) : Int) ∨ off = -(((n) * 60 : Nat) : Int)) :
    (n < 1500 → off ≠ 90000 ∧ off ≠ -90000) ∧ (n = 1500 → off = 90000 ∨ off = -90000) := by
  constructor
  · intro hn
    rcases h with h | h <;> subst h <;> constructor <;> push_cast <;> omega
  · intro hn
    subst hn
    rcases h with h | h
    · left; rw [h]; rfl
    · right; rw [h]; rfl

theorem timeParse_format (s : String) (t : Time) (h : timeParse s = some t) :
    (t.offset ≠ 90000 → t.offset ≠ -90000 →
      timeParse (formatRFC3339 t) = some { t with nsec := 0 }) ∧
    (t.offset = 90000 ∨ t.offset = -90000 → timeParse (formatRFC3339 t) = none) := by
  obtain ⟨hy, hm1, hm2, hd1, hd2, hh, hi, hs, hr0, mm0, hhr0, hmm0, hoff0⟩ := timeParse_inv s t h
  have hd3 := daysIn_le t.month t.year
  have pY := parseField_four t.year 0 9999 (by omega) (by omega) hy
  have pM := parseField_two t.month 1 12 (by omega) hm1 hm2
  have pD := parseField_two t.day 1 (daysIn t.month t.year) (by omega) hd1 hd2
  have pH := parseField_two t.hour 0 23 (by omega) (by omega) hh
  have pI := parseField_two t.min 0 59 (by omega) (by omega) hi
  have pS := parseField_two t.sec 0 59 (by omega) (by omega) hs
  have hM : (hr0 * 60 + mm0) / 60 * 60 + (hr0 * 60 + mm0) % 60 = hr0 * 60 + mm0 := by omega
  have hoff : t.offset = ((((hr0 * 60 + mm0) / 60 * 60 + (hr0 * 60 + mm0) % 60) * 60 : Nat) : Int) ∨
      t.offset = -((((hr0 * 60 + mm0) / 60 * 60 + (hr0 * 60 + mm0) % 60) * 60 : Nat) : Int) := by
    rw [hM]; exact hoff0
  have hb := offset_bounds t.offset (hr0 * 60 + mm0) hoff0
  generalize hhr : (hr0 * 60 + mm0) / 60 = hr at hoff
  generalize hmm : (hr0 * 60 + mm0) % 60 = mm at hoff
  have hmm59 : mm ≤ 59 := by omega
  have hhr25 : hr ≤ 25 := by omega
  unfold timeParse
  by_cases h0 : t.offset = 0
  · rw [formatRFC3339_utc t hy hm2 (by omega) hh hi hs h0,
      parseRFC3339_explicit _ _ _ _ _ _ _ _ _ _ _ _ _ _ ['Z'] _ _ _ _ _ _ 0 pY pM pD pH pI pS
        (by decide) (by decide)]
    refine ⟨fun _ _ => ?_, fun h9 => ?_⟩
    · simp only [← h0]
    · rw [h0] at h9
      rcases h9 with h9 | h9 <;> cases h9
  · obtain ⟨_, _, z3⟩ := zone_fields t.offset hr mm hmm59 h0 hoff
    rw [formatRFC3339_zone t hy hm2 (by omega) hh hi hs hr mm (by omega) hmm59 h0 hoff]
    have hsign : (if Int.tdiv t.offset 60 < 0 then '-' else '+') = '-' ∨
        (if Int.tdiv t.offset 60 < 0 then '-' else '+') = '+' := by
      by_cases hneg : Int.tdiv t.offset 60 < 0
      · left; rw [if_pos hneg]
      · right; rw [if_neg hneg]
    have hz3 : (if (if Int.tdiv t.offset 60 < 0 then '-' else '+') = '-' then
          -(((hr * 60 + mm) * 60 : Nat) : Int)
        else (((hr * 60 + mm) * 60 : Nat) : Int)) = t.offset := by
      by_cases hneg : Int.tdiv t.offset 60 < 0
      · rw [if_pos hneg] at z3 ⊢
        rw [if_pos rfl]; exact z3
      · rw [if_neg hneg] at z3 ⊢
        rw [if_neg (by decide)]; exact z3
    generalize (if Int.tdiv t.offset 60 < 0 then '-' else '+') = sign at hsign hz3 ⊢
    have hfrac : fractionDigits [sign, Nat.digitChar (hr / 10), Nat.digitChar (hr % 10), ':',
        Nat.digitChar (mm / 10), Nat.digitChar (mm % 10)] = [] := by
      rcases hsign with rfl | rfl <;> simp [fractionDigits]
    have hfrac2 : layoutFractionDigits [sign, Nat.digitChar (hr / 10),
        Nat.digitChar (hr % 10), ':', Nat.digitChar (mm / 10), Nat.digitChar (mm % 10)] = [] := by
      rcases hsign with rfl | rfl <;> simp [layoutFractionDigits]
    by_cases h23 : hr ≤ 23
    · have pZh := parseField_two hr 0 23 (by omega) (by omega) h23
      have pZm := parseField_two mm 0 59 (by omega) (by omega) hmm59
      rw [parseRFC3339_explicit _ _ _ _ _ _ _ _ _ _ _ _ _ _ _ _ _ _ _ _ _ _ pY pM pD pH pI pS
        hfrac (parseZone_explicit sign _ _ _ _ hr mm hsign pZh pZm), hz3]
      refine ⟨fun _ _ => rfl, fun h9 => ?_⟩
      have := (hb.1 (by omega))
      rcases h9 with h9 | h9
      · exact absurd h9 this.1
      · exact absurd h9 this.2
    · rw [parseRFC3339_explicit_none _ _ _ _ _ _ _ _ _ _ _ _ _ _ _ hfrac
        (parseZone_none sign hr mm (by omega) (by omega))]
      simp only
      rw [parseLayout_explicit _ _ _ _ _ _ _ _ _ _ _ _ _ _ _ t.year t.month t.day t.hour
        t.min t.sec pY
        (fun rest fixed => getnum_two t.month (by omega) rest fixed)
        (fun rest fixed => getnum_two t.day (by omega) rest fixed)
        (fun rest fixed => getnum_two t.hour (by omega) rest fixed)
        (fun rest fixed => getnum_two t.min (by omega) rest fixed)
        (fun rest fixed => getnum_two t.sec (by omega) rest fixed)
        hm1 hm2 hd1 hd2 hh hi hs hfrac2]
      by_cases h24 : hr ≤ 24
      · rw [parseLayoutZone_explicit sign hr mm hsign h24 (by omega), hz3]
        refine ⟨fun _ _ => rfl, fun h9 => ?_⟩
        have := (hb.1 (by omega))
        rcases h9 with h9 | h9
        · exact absurd h9 this.1
        · exact absurd h9 this.2
      · rw [parseLayoutZone_none sign hr mm hsign (by omega) (by omega) (by omega)]
        refine ⟨fun h1 h2 => ?_, fun _ => rfl⟩
        have := hb.2 (by omega)
        rcases this with h9 | h9
        · exact absurd h9 h1
        · exact absurd h9 h2

theorem getnum_rest (value : List Char) (fixed : Bool) (n : Nat) (rest : List Char)
    (h : getnum value fixed = some (n, rest)) : ∀ a ∈ rest, a ∈ value := by
  unfold getnum at h
  split at h
  · cases h
  · split at h
    · split at h
      · cases h
      · simp only [Option.some.injEq, Prod.mk.injEq] at h
        intro a ha
        rw [← h.2] at ha
        cases ha
    · cases h
  · split at h
    · split at h
      · simp only [Option.some.injEq, Prod.mk.injEq] at h
        intro a ha
        rw [← h.2] at ha
        exact List.mem_cons_of_mem _ (List.mem_cons_of_mem _ ha)
      · split at h
        · cases h
        · simp only [Option.some.injEq, Prod.mk.injEq] at h
          intro a ha
          rw [← h.2] at ha
          exact List.mem_cons_of_mem _ ha
    · cases h

theorem skip_getnum_rest (c : Char) (value : List Char) (fixed : Bool) (n : Nat)
    (rest : List Char)
    (h : (skipChar c value).bind (fun v => getnum v fixed) = some (n, rest)) :
    ∀ a ∈ rest, a ∈ value := by
  cases value with
  | nil => simp [skipChar] at h
  | cons d v =>
    simp only [skipChar] at h
    split at h
    · simp only [Option.bind] at h
      intro a ha
      exact List.mem_cons_of_mem _ (getnum_rest v fixed n rest h a ha)
    · simp at h

theorem fractionNanoseconds_pos (v : List Char) (h : fractionNanoseconds v ≠ 0) :
    '.' ∈ v ∨ ',' ∈ v := by
  unfold fractionNanoseconds at h
  split at h
  · exact absurd rfl h
  · rename_i hne
    unfold layoutFractionDigits at hne
    split at hne
    · rename_i p c cs
      split at hne
      · rename_i hp
        rcases hp.1 with rfl | rfl
        · exact Or.inl (List.mem_cons_self _ _)
        · exact Or.inr (List.mem_cons_self _ _)
      · exact absurd rfl hne
    · exact absurd rfl hne

theorem parseLayout_nsec (s : List Char) (t : Time) (h : parseLayout s = some t)
    (h1 : '.' ∉ s) (h2 : ',' ∉ s) : t.nsec = 0 := by
  unfold parseLayout at h
  split at h
  · cases h
  · split at h
    · cases h
    · split at h
      · cases h
      · rename_i month v1 e1
        split at h
        · cases h
        · split at h
          · cases h
          · rename_i day v2 e2
            split at h
            · cases h
            · rename_i hour v3 e3
              split at h
              · cases h
              · split at h
                · cases h
                · rename_i min v4 e4
                  split at h
                  · cases h
                  · split at h
                    · cases h
                    · rename_i sec v5 e5
                      split at h
                      · cases h
                      · split at h
                        · cases h
                        · split at h
                          · cases h
                          · split at h
                            · cases h
                            · simp only [Option.some.injEq] at h
                              subst h
                              simp only
                              by_contra hn
                              have hsub : ∀ a ∈ v5, a ∈ s := by
                                intro a ha
                                have a4 := skip_getnum_rest _ _ _ _ _ e5 a ha
                                have a3 := skip_getnum_rest _ _ _ _ _ e4 a a4
                                have a2 := skip_getnum_rest _ _ _ _ _ e3 a a3
                                have a1 := skip_getnum_rest _ _ _ _ _ e2 a a2
                                have a0 := skip_getnum_rest _ _ _ _ _ e1 a a1
                                exact List.mem_of_mem_drop a0
                              rcases fractionNanoseconds_pos v5 hn with hp | hp
                              · exact h1 (hsub _ hp)
                              · exact h2 (hsub _ hp)

theorem parseRFC3339_nsec (s : List Char) (t : Time) (h : parseRFC3339 s = some t)
    (h1 : '.' ∉ s) : t.nsec = 0 := by
  apply parseRFC3339_no_fraction s t h
  unfold fractionDigits
  split
  · rename_i c cs heq
    exfalso
    apply h1
    have : '.' ∈ List.drop 19 s := by rw [heq]; exact List.mem_cons_self _ _
    exact List.mem_of_mem_drop this
  · rfl

theorem timeParse_nsec (s : String) (t : Time) (h : timeParse s = some t)
    (h1 : '.' ∉ s.toList) (h2 : ',' ∉ s.toList) : t.nsec = 0 := by
  unfold timeParse at h
  split at h
  · rename_i t0 h0
    simp only [Option.some.injEq] at h
    subst h
    exact parseRFC3339_nsec _ _ h0 h1
  · exact parseLayout_nsec _ _ h h1 h2

theorem timeSetting_set_of_parse {σ : Type} (parseErrorText : String → String)
    (name description : String) (prop : Ptr σ Time) (s : String) (t : Time) (m : σ)
    (hs : timeParse s = some t) :
    (timeSetting parseErrorText name description prop).SetFunc s m
      = (none, prop.store t m) := by
  simp only [timeSetting, hs]

theorem timeSetting_set_of_reject {σ : Type} (parseErrorText : String → String)
    (name description : String) (prop : Ptr σ Time) (s : String) (m : σ)
    (hs : timeParse s = none) :
    (timeSetting parseErrorText name description prop).SetFunc s m
      = (some (parseErrorText s), m) := by
  simp only [timeSetting, hs]

/-- C15, refuted on the sample timestamp setting, in two ways. `set` accepts
`2006-01-02T15:04:05.5Z` and leaves the bound time with 500000000 nanoseconds; `get` then
returns `2006-01-02T15:04:05Z`, which `set` accepts, leaving the bound time with 0
nanoseconds, a time other than the one parsed from the string. And `set` accepts
`2006-01-02T15:04:05+24:60`, a zone of 25 hours; `get` then returns
`2006-01-02T15:04:05+25:00`, which `set` rejects. -/
theorem time_round_trip_counterexample :
    sampleTimeSetting.SetFunc "2006-01-02T15:04:05.5Z" sampleEpoch
      = (none, { year := 2006, month := 1, day := 2, hour := 15, min := 4, sec := 5,
                 nsec := 500000000, offset := 0 }) ∧
    sampleTimeSetting.GetFunc (sampleTimeSetting.SetFunc "2006-01-02T15:04:05.5Z" sampleEpoch).2
      = "2006-01-02T15:04:05Z" ∧
    sampleTimeSetting.SetFunc "2006-01-02T15:04:05Z"
        (sampleTimeSetting.SetFunc "2006-01-02T15:04:05.5Z" sampleEpoch).2
      = (none, { year := 2006, month := 1, day := 2, hour := 15, min := 4, sec := 5,
                 nsec := 0, offset := 0 }) ∧
    (sampleTimeSetting.SetFunc
        (sampleTimeSetting.GetFunc
          (sampleTimeSetting.SetFunc "2006-01-02T15:04:05.5Z" sampleEpoch).2)
        (sampleTimeSetting.SetFunc "2006-01-02T15:04:05.5Z" sampleEpoch).2).2
      ≠ (sampleTimeSetting.SetFunc "2006-01-02T15:04:05.5Z" sampleEpoch).2 ∧
    sampleTimeSetting.SetFunc "2006-01-02T15:04:05+24:60" sampleEpoch
      = (none, { year := 2006, month := 1, day := 2, hour := 15, min := 4, sec := 5,
                 nsec := 0, offset := 90000 }) ∧
    sampleTimeSetting.GetFunc
        (sampleTimeSetting.SetFunc "2006-01-02T15:04:05+24:60" sampleEpoch).2
      = "2006-01-02T15:04:05+25:00" ∧
    (sampleTimeSetting.SetFunc
        (sampleTimeSetting.GetFunc
          (sampleTimeSetting.SetFunc "2006-01-02T15:04:05+24:60" sampleEpoch).2)
        (sampleTimeSetting.SetFunc "2006-01-02T15:04:05+24:60" sampleEpoch).2).1
      ≠ none := by
  refine ⟨by decide, by decide, by decide, by decide, by decide, by decide, by decide⟩

/-- C15, amended: for a timestamp setting bound to a variable that reads back what is stored
in it, and every string `s` that `time.Parse` accepts at the layout `time.RFC3339` (these are
the strings `set` accepts), `t` being the time parsed from `s`: `set(s)` returns no error
and leaves the bound time equal to `t`; `get` then returns `t` formatted without fractional
seconds. When the zone of `t` is not 25 hours from UTC (`s` does not end in `+24:60` or
`-24:60`), `set` of that string returns no error and leaves the bound time equal to `t` with
its nanoseconds set to zero; that is `t` itself exactly when `t` has no nanoseconds, which is
the case when `s` has neither a period nor a comma. When the zone of `t` is 25 hours from
UTC, `set` rejects the string `get` returns and leaves the bound time as it is. -/
theorem time_round_trip_to_the_second {σ : Type} (parseErrorText : String → String)
    (name description : String) (prop : Ptr σ Time)
    (hprop : ∀ a m, prop.load (prop.store a m) = a)
    (s : String) (t : Time) (m : σ) (hs : timeParse s = some t) :
    (∀ s2 m2, ((timeSetting parseErrorText name description prop).SetFunc s2 m2).1 = none ↔
      ∃ t2, timeParse s2 = some t2) ∧
    ((timeSetting parseErrorText name description prop).SetFunc s m).1 = none ∧
    prop.load ((timeSetting parseErrorText name description prop).SetFunc s m).2 = t ∧
    (timeSetting parseErrorText name description prop).GetFunc
        ((timeSetting parseErrorText name description prop).SetFunc s m).2
      = formatRFC3339 t ∧
    (t.offset ≠ 90000 → t.offset ≠ -90000 →
      ((timeSetting parseErrorText name description prop).SetFunc
          ((timeSetting parseErrorText name description prop).GetFunc
            ((timeSetting parseErrorText name description prop).SetFunc s m).2)
          ((timeSetting parseErrorText name description prop).SetFunc s m).2).1
        = none ∧
      prop.load ((timeSetting parseErrorText name description prop).SetFunc
          ((timeSetting parseErrorText name description prop).GetFunc
            ((timeSetting parseErrorText name description prop).SetFunc s m).2)
          ((timeSetting parseErrorText name description prop).SetFunc s m).2).2
        = { t with nsec := 0 }) ∧
    (({ t with nsec := 0 } : Time) = t ↔ t.nsec = 0) ∧
    ('.' ∉ s.toList → ',' ∉ s.toList → t.nsec = 0) ∧
    (t.offset = 90000 ∨ t.offset = -90000 →
      (timeSetting parseErrorText name description prop).SetFunc
          ((timeSetting parseErrorText name description prop).GetFunc
            ((timeSetting parseErrorText name description prop).SetFunc s m).2)
          ((timeSetting parseErrorText name description prop).SetFunc s m).2
        = (some (parseErrorText (formatRFC3339 t)),
            ((timeSetting parseErrorText name description prop).SetFunc s m).2)) := by
  have h1 := timeSetting_set_of_parse parseErrorText name description prop s t m hs
  have hg : (timeSetting parseErrorText name description prop).GetFunc
      (prop.store t m) = formatRFC3339 t := by
    simp only [timeSetting, hprop]
  have hrt := timeParse_format s t hs
  rw [h1]
  simp only [hg, hprop]
  refine ⟨?_, trivial, trivial, trivial, ?_, ?_, timeParse_nsec s t hs, ?_⟩
  · intro s2 m2
    cases h2 : timeParse s2 with
    | none => simp [timeSetting, h2]
    | some t2 => simp [timeSetting, h2]
  · intro n1 n2
    rw [timeSetting_set_of_parse parseErrorText name description prop (formatRFC3339 t)
      { t with nsec := 0 } (prop.store t m) (hrt.1 n1 n2)]
    simp only [hprop]
    exact ⟨trivial, trivial⟩
  · constructor
    · intro h
      rw [← h]
    · intro h
      cases t
      simp only at h
      simp only [h]
  · intro h9
    exact timeSetting_set_of_reject parseErrorText name description prop (formatRFC3339 t)
      (prop.store t m) (hrt.2 h9)

/-- C15 (amended) on the sample timestamp setting: `2006-01-02T5:04:05,25+24:00`, with a
one-digit hour, a comma before the fraction and a zone of 24 hours, is accepted, `get`
returns `2006-01-02T05:04:05+24:00`, and `set` of that leaves the same time with the quarter
second dropped. -/
theorem time_round_trip_to_the_second_witness :
    (∀ (a m : Time), (selfPtr Time).load ((selfPtr Time).store a m) = a) ∧
    timeParse "2006-01-02T5:04:05,25+24:00"
      = some { year := 2006, month := 1, day := 2, hour := 5, min := 4, sec := 5,
               nsec := 250000000, offset := 86400 } ∧
    (timeSetting sampleTimeErrorText "started" "Start time" (selfPtr Time)).GetFunc
        ((timeSetting sampleTimeErrorText "started" "Start time" (selfPtr Time)).SetFunc
          "2006-01-02T5:04:05,25+24:00" sampleEpoch).2
      = "2006-01-02T05:04:05+24:00" ∧
    (selfPtr Time).load
      ((timeSetting sampleTimeErrorText "started" "Start time" (selfPtr Time)).SetFunc
        ((timeSetting sampleTimeErrorText "started" "Start time" (selfPtr Time)).GetFunc
          ((timeSetting sampleTimeErrorText "started" "Start time" (selfPtr Time)).SetFunc
            "2006-01-02T5:04:05,25+24:00" sampleEpoch).2)
        ((timeSetting sampleTimeErrorText "started" "Start time" (selfPtr Time)).SetFunc
          "2006-01-02T5:04:05,25+24:00" sampleEpoch).2).2
      = { year := 2006, month := 1, day := 2, hour := 5, min := 4, sec := 5,
          nsec := 0, offset := 86400 } :=
  ⟨fun _ _ => rfl, by decide, by decide,
    ((time_round_trip_to_the_second sampleTimeErrorText "started" "Start time"
      (selfPtr Time) (fun _ _ => rfl) "2006-01-02T5:04:05,25+24:00"
      { year := 2006, month := 1, day := 2, hour := 5, min := 4, sec := 5,
        nsec := 250000000, offset := 86400 } sampleEpoch (by decide)).2.2.2.2.1
      (by decide) (by decide)).2⟩

end AppSettings
